import Mathlib

/-!
# readFilter: k-mer filtering of paired reads

A shallow embedding of `src/readFilter/readFilter.cpp` (class `readFilter`, method
`doFilter` with its closures `load_positive_kMers_file`, `decisionFunction`, and the
uniqueness-set subtraction loop).

Modelling conventions
* `std::string` is a list of characters (`Str`).
* `std::set<std::string>` is a duplicate-free list of strings; iteration order is the
  order of the list and `insert` keeps the list ordered.
* A C++ `double` value (thresholds, the `_OK` / `_TOTAL` counters, the fractions) is the
  rational number it denotes. The counters only ever hold non-negative integers below
  `2 ^ 53`, which binary64 holds exactly, as it does their sums; the one division per
  fraction is rounded to the nearest `double` (`double_div`).
* C++ `int` counters and thresholds are integers.
* An input stream is the list of lines that `getline` still has to deliver (the pieces of
  the file content between newline characters); `good()` holds iff a line remains.
* `throw std::runtime_error(msg)` is `Except.error msg`.
* Behaviour that the C++ standard leaves undefined is a result of its own
  (`none` for a single operation, `LoopOutcome.undefinedBehaviour` for a loop).
* The k-mer length `k` is a natural number; the membership test `kMerinGraph` of a
  `DeBruijnGraph` (not among the sources) is a parameter of type `Str → Bool`.
-/

namespace ReadFilter

/-- A `std::string`. -/
abbrev Str := List Char

/-! ## Collaborators that are not part of the translated sources -/

/-- Modelled from the spec: the per-base complement used by `seq_reverse_complement`
(`hash/sequence/basic.h` is not among the sources). A and T are exchanged, C and G are
exchanged, every other symbol (in particular N) is mapped to itself. -/
def complementBase (c : Char) : Char :=
  if c = 'A' then 'T'
  else if c = 'T' then 'A'
  else if c = 'C' then 'G'
  else if c = 'G' then 'C'
  else c

/-- Modelled from the spec: `seq_reverse_complement` (`hash/sequence/basic.h` is not among
the sources) reverses the sequence and complements every base; it preserves the length. -/
def seq_reverse_complement (s : Str) : Str :=
  (s.map complementBase).reverse

/-- Modelled from the spec: `partitionStringIntokMers` (`hash/sequence/basic.h` is not among
the sources) yields the ordered sequence of all contiguous windows of length `k` of `s`;
there are `max(0, |s| - k + 1)` of them and no window is dropped. -/
def partitionStringIntokMers (s : Str) (k : Nat) : List Str :=
  if s.length < k then []
  else (List.range (s.length - k + 1)).map (fun i => (s.drop i).take k)

/-- Modelled from the spec: `Utilities::eraseNL` (`Utilities.h` is not among the sources)
strips the trailing newline of a line. -/
def eraseNL (line : Str) : Str :=
  if line.getLast? = some '\n' then line.dropLast else line

/-- Modelled from the spec: `Utilities::ItoStr` (`Utilities.h` is not among the sources)
prints a number in decimal. -/
def ItoStr (n : Nat) : Str :=
  (Nat.repr n).toList

/-! ## `std::set<std::string>` -/

/-- The call `s.count(x)` of `std::set`: 1 when `x` is a member, 0 otherwise. -/
def set_count (s : List Str) (x : Str) : Nat :=
  if x ∈ s then 1 else 0

/-- The call `s.insert(x)` of `std::set`: nothing happens when `x` is already a member,
otherwise `x` is placed at its position in the order. -/
def set_insert (s : List Str) (x : Str) : List Str :=
  if x ∈ s then s else List.orderedInsert (fun a b => a < b) x s

/-! ## Data model -/

/-- The `BAMalignment` record: read id, sequence and qualities. -/
structure BAMalignment where
  readID : Str
  sequence : Str
  qualities : Str
deriving DecidableEq, Repr

/-- The `fastq_readPair` record: two slots with their presence flags. -/
structure fastq_readPair where
  have1 : Bool
  have2 : Bool
  a1 : BAMalignment
  a2 : BAMalignment
deriving DecidableEq, Repr

/-- The call `isComplete()` of `fastq_readPair`. -/
def fastq_readPair.isComplete (p : fastq_readPair) : Bool :=
  p.have1 && p.have2

/-- The fields of the class `readFilter` that `doFilter` and its closures read. -/
structure readFilter where
  positiveFilter : Str
  negativeFilter : Str
  input_BAM : Str
  input_FASTQ : Str
  output_FASTQ : Str
  positiveThreshold : ℚ
  negativeThreshold : ℚ
  k : Nat
  positiveUnique : Bool
  negativePreserveUnique : Bool
  positiveUnique_threshold : Int
  negativePreserveUnique_threshold : Int
  uniqueness_base : Str
  uniqueness_subtract : Str
  threads : Nat

/-- Line 98: `apply_filter_positive = (positiveFilter.length() > 0)`. -/
def apply_filter_positive (F : readFilter) : Bool :=
  decide (F.positiveFilter.length > 0)

/-- Line 99: `apply_filter_negative = (negativeFilter.length() > 0)`. -/
def apply_filter_negative (F : readFilter) : Bool :=
  decide (F.negativeFilter.length > 0)

/-! ## Binary64 arithmetic (`double`) -/

/-- The integer nearest to `x`; when `x` lies halfway between two integers, the even one. -/
def roundHalfEven (x : ℚ) : ℤ :=
  if x - ⌊x⌋ < 1 / 2 then ⌊x⌋
  else if 1 / 2 < x - ⌊x⌋ then ⌊x⌋ + 1
  else if ⌊x⌋ % 2 = 0 then ⌊x⌋ else ⌊x⌋ + 1

/-- The binary exponent of a nonzero number: the `e` with `2 ^ e ≤ |q| < 2 ^ (e + 1)`. The
difference of the bit lengths of numerator and denominator is `e` or `e + 1`. -/
def binaryExponent (q : ℚ) : ℤ :=
  if (2 : ℚ) ^ ((Nat.log2 q.num.natAbs : ℤ) - (Nat.log2 q.den : ℤ)) ≤ |q| then
    (Nat.log2 q.num.natAbs : ℤ) - (Nat.log2 q.den : ℤ)
  else (Nat.log2 q.num.natAbs : ℤ) - (Nat.log2 q.den : ℤ) - 1

/-- The `double` nearest to `q` (IEEE 754 binary64, round to nearest, ties to even): `q` is
rounded to 53 significant binary digits, that is to a multiple of `2 ^ (e - 52)` where `e`
is its binary exponent. The exponent range is not bounded: the quotients that the program
forms are zero or lie between `2 ^ (-53)` and `2 ^ 53`, where every binary64 number is
normal. -/
def double_round (q : ℚ) : ℚ :=
  if q = 0 then 0
  else (roundHalfEven (q / 2 ^ (binaryExponent q - 52)) : ℚ) * 2 ^ (binaryExponent q - 52)

/-- The operator `/` on two `double` values: the exact quotient, rounded to the nearest
`double`. -/
def double_div (a b : ℚ) : ℚ :=
  double_round (a / b)

/-! ## The decision function (lines 184-391) -/

/-- One pass of the loops at lines 205-231 and 251-275: walk over the k-mers, transform each
with `orient` (the identity for the forward loops, `seq_reverse_complement` for the reverse
loops), and increment the `double` counter `_OK` for members of `positive_kMers` and the
`int` counter `_unique` for members of `unique_kMers`. -/
def countLoop (orient : Str → Str) (positive_kMers unique_kMers : List Str)
    (kMers : List Str) : ℚ × Int :=
  kMers.foldl
    (fun acc kI =>
      let kMer := orient kI
      let ok := if set_count positive_kMers kMer ≠ 0 then acc.1 + 1 else acc.1
      let uniq := if set_count unique_kMers kMer ≠ 0 then acc.2 + 1 else acc.2
      (ok, uniq))
    (0, 0)

/-- The loops at lines 310-326: count the k-mers for which `kMerinGraph` holds in the
`double` counter `_notOK`. -/
def notOKLoop (kMerinGraph : Str → Bool) (kMers : List Str) : ℚ :=
  kMers.foldl (fun acc kMer => if kMerinGraph kMer then acc + 1 else acc) 0

/-- The loops at lines 334-367: count the k-mers whose orientation `orient` is a member of
`unique_kMers` in an `int` counter. -/
def uniqueLoop (orient : Str → Str) (unique_kMers : List Str) (kMers : List Str) : Int :=
  kMers.foldl (fun acc kI => if set_count unique_kMers (orient kI) ≠ 0 then acc + 1 else acc) 0

/-- Lines 194-294: the value assigned to `pass_positive` inside `if(apply_filter_positive)`.
The two fractions are `double` quotients (lines 235 and 279); the `int` count
`reverse_combined_unique` is converted to `double` for its comparison with the threshold
(line 293), which is exact. -/
def positiveCheck (F : readFilter) (positive_kMers unique_kMers : List Str)
    (kMers_1 kMers_2 : List Str) : Bool :=
  let kMers_1_forward_TOTAL : ℚ := kMers_1.length
  let kMers_2_forward_TOTAL : ℚ := kMers_2.length
  let fwd1 := countLoop id positive_kMers unique_kMers kMers_1
  let fwd2 := countLoop id positive_kMers unique_kMers kMers_2
  let forward_combined_optim : ℚ :=
    if kMers_1_forward_TOTAL + kMers_2_forward_TOTAL = 0 then 0
    else double_div (fwd1.1 + fwd2.1) (kMers_1_forward_TOTAL + kMers_2_forward_TOTAL)
  let kMers_1_reverse_TOTAL : ℚ := kMers_1.length
  let kMers_2_reverse_TOTAL : ℚ := kMers_2.length
  let rev1 := countLoop seq_reverse_complement positive_kMers unique_kMers kMers_1
  let rev2 := countLoop seq_reverse_complement positive_kMers unique_kMers kMers_2
  let reverse_combined_optim : ℚ :=
    if kMers_1_reverse_TOTAL + kMers_2_reverse_TOTAL = 0 then 0
    else double_div (rev1.1 + rev2.1) (kMers_1_reverse_TOTAL + kMers_2_reverse_TOTAL)
  let forward_combined_unique : Int := fwd1.2 + fwd2.2
  let reverse_combined_unique : Int := rev1.2 + rev2.2
  let pass_positive :=
    decide (forward_combined_optim ≥ F.positiveThreshold)
      || decide (reverse_combined_optim ≥ F.positiveThreshold)
  if F.positiveUnique then
    pass_positive
      || (decide (forward_combined_unique ≥ F.positiveUnique_threshold)
          || decide ((reverse_combined_unique : ℚ) ≥ F.positiveThreshold))
  else pass_positive

/-- Lines 302-384: the value assigned to `pass_negative` inside
`if(pass_positive && apply_filter_negative)`. The negativity is a `double` quotient
(line 375). -/
def negativeCheck (F : readFilter) (unique_kMers : List Str) (kMerinGraph : Str → Bool)
    (kMers_1 kMers_2 : List Str) : Bool :=
  let kMers_1_TOTAL : ℚ := kMers_1.length
  let kMers_2_TOTAL : ℚ := kMers_2.length
  let kMers_1_notOK := notOKLoop kMerinGraph kMers_1
  let kMers_2_notOK := notOKLoop kMerinGraph kMers_2
  let kMers_1_forward_unique : Int :=
    if F.negativePreserveUnique then uniqueLoop id unique_kMers kMers_1 else 0
  let kMers_2_forward_unique : Int :=
    if F.negativePreserveUnique then uniqueLoop id unique_kMers kMers_2 else 0
  let kMers_1_reverse_unique : Int :=
    if F.negativePreserveUnique then uniqueLoop seq_reverse_complement unique_kMers kMers_1 else 0
  let kMers_2_reverse_unique : Int :=
    if F.negativePreserveUnique then uniqueLoop seq_reverse_complement unique_kMers kMers_2 else 0
  let forward_combined_unique : Int := kMers_1_forward_unique + kMers_2_forward_unique
  let reverse_combined_unique : Int := kMers_1_reverse_unique + kMers_2_reverse_unique
  let combined_negativity : ℚ :=
    if kMers_1_TOTAL + kMers_2_TOTAL = 0 then 1
    else double_div (kMers_1_notOK + kMers_2_notOK) (kMers_1_TOTAL + kMers_2_TOTAL)
  let pass_negative := decide (combined_negativity ≤ F.negativeThreshold)
  if F.negativePreserveUnique then
    pass_negative
      || (decide (forward_combined_unique ≥ F.negativePreserveUnique_threshold)
          || decide (reverse_combined_unique ≥ F.negativePreserveUnique_threshold))
  else pass_negative

/-- Lines 189-295: the variable `pass_positive` after the positive block; it stays `true`
when no positive filter is configured. -/
def pass_positive (F : readFilter) (positive_kMers unique_kMers : List Str)
    (read : fastq_readPair) : Bool :=
  if apply_filter_positive F then
    positiveCheck F positive_kMers unique_kMers
      (partitionStringIntokMers read.a1.sequence F.k)
      (partitionStringIntokMers read.a2.sequence F.k)
  else true

/-- The value of `pass_negative` computed at lines 302-384 for a read pair. -/
def pass_negative (F : readFilter) (unique_kMers : List Str) (negative_kMers : Str → Bool)
    (read : fastq_readPair) : Bool :=
  negativeCheck F unique_kMers negative_kMers
    (partitionStringIntokMers read.a1.sequence F.k)
    (partitionStringIntokMers read.a2.sequence F.k)

/-- The closure `decisionFunction` of `doFilter` (lines 184-391). The captured state is the
configuration, the loaded sets `positive_kMers` and `unique_kMers`, and the membership test
`kMerinGraph` of the negative index. -/
def decisionFunction (F : readFilter) (positive_kMers unique_kMers : List Str)
    (negative_kMers : Str → Bool) (read : fastq_readPair) : Bool :=
  let pp := pass_positive F positive_kMers unique_kMers read
  if pp && apply_filter_negative F then
    pp && pass_negative F unique_kMers negative_kMers read
  else pp

/-! ## Loading a k-mer text file (lines 101-135) -/

/-- The message thrown at line 108 when the file cannot be opened. -/
def cannotOpenMessage (file : Str) : Str :=
  "readFilter::doFilter(): Cannot open kMers file containing the positive-filter kMers: ".toList
    ++ file

/-- The message thrown at line 126 for a k-mer of the wrong length. The file name printed
is the field `positiveFilter`. -/
def wrongLengthMessage (F : readFilter) (kMerLength line_number : Nat) : Str :=
  "readFilter::doFilter(): Expect kMers of length ".toList ++ ItoStr F.k
    ++ ", but ".toList ++ F.positiveFilter
    ++ " contains one of length ".toList ++ ItoStr kMerLength
    ++ " (line ".toList ++ ItoStr line_number ++ " ).".toList

/-- The loop at lines 112-130 over the lines still in the stream; `line_number` and
`forReturn` are the loop variables. -/
def loadLoop (F : readFilter) : List Str → Nat → List Str → Except Str (List Str)
  | [], _, forReturn => Except.ok forReturn
  | raw :: stream, line_number, forReturn =>
    let line := eraseNL raw
    if line.length = 0 then loadLoop F stream (line_number + 1) forReturn
    else if line.length ≠ F.k then
      Except.error (wrongLengthMessage F line.length (line_number + 1))
    else loadLoop F stream (line_number + 1) (set_insert forReturn line)

/-- The closure `load_positive_kMers_file` of `doFilter`. The file system maps a path to the
lines of the file, or to `none` when the file cannot be opened. -/
def load_positive_kMers_file (F : readFilter) (fs : Str → Option (List Str)) (file : Str) :
    Except Str (List Str) :=
  match fs file with
  | none => Except.error (cannotOpenMessage file)
  | some stream => loadLoop F stream 0 []

/-! ## The uniqueness set (lines 147-165) -/

/-- An iterator into a `std::set`: it designates a member, is the past-the-end iterator,
or has been invalidated by the erasure of the member it designated. -/
inductive SetIterator where
  | elem (x : Str)
  | pastEnd
  | invalidated
deriving DecidableEq, Repr

/-- The call `s.begin()`. -/
def set_begin (s : List Str) : SetIterator :=
  match s with
  | [] => SetIterator.pastEnd
  | x :: _ => SetIterator.elem x

/-- The iterator following the member `x` in iteration order. -/
def set_successor : List Str → Str → SetIterator
  | [], _ => SetIterator.pastEnd
  | y :: rest, x => if y = x then set_begin rest else set_successor rest x

/-- The call `s.erase(key)`: the key is removed, and an iterator that designated the erased
member becomes invalid; all other iterators stay valid. -/
def set_erase (s : List Str) (key : Str) (it : SetIterator) : List Str × SetIterator :=
  (s.erase key, if it = SetIterator.elem key then SetIterator.invalidated else it)

/-- The operation `it++`: defined only for an iterator that designates a member. -/
def set_increment (s : List Str) (it : SetIterator) : Option SetIterator :=
  match it with
  | SetIterator.elem x => some (set_successor s x)
  | SetIterator.pastEnd => none
  | SetIterator.invalidated => none

/-- How the subtraction loop ends. -/
inductive LoopOutcome where
  | finished (unique_kMers : List Str)
  | undefinedBehaviour
  | outOfFuel
deriving DecidableEq, Repr

/-- The loop at lines 157-164: for every member of `unique_kMers` in iteration order, erase
it from the set when it is in the subtract graph, then increment the iterator. -/
def subtractLoop (kMerinGraph : Str → Bool) :
    Nat → List Str → SetIterator → LoopOutcome
  | 0, _, _ => LoopOutcome.outOfFuel
  | fuel + 1, unique_kMers, kMerIt =>
    match kMerIt with
    | SetIterator.pastEnd => LoopOutcome.finished unique_kMers
    | SetIterator.invalidated => LoopOutcome.undefinedBehaviour
    | SetIterator.elem kMer =>
      let st :=
        if kMerinGraph kMer then set_erase unique_kMers kMer kMerIt
        else (unique_kMers, kMerIt)
      match set_increment st.1 st.2 with
      | none => LoopOutcome.undefinedBehaviour
      | some next => subtractLoop kMerinGraph fuel st.1 next

/-- Lines 152-164: the uniqueness set computed from the loaded base set and the membership
test of the subtract graph. One step per member plus the final test suffices. -/
def subtract_unique_kMers (kMerinGraph : Str → Bool) (base : List Str) : LoopOutcome :=
  subtractLoop kMerinGraph (base.length + 1) base (set_begin base)

/-! ## The quantities of the specification -/

/-- The number of windows of `K1` and `K2` that satisfy `p`. -/
def spec_hits (p : Str → Bool) (K1 K2 : List Str) : Nat :=
  (K1 ++ K2).countP p

/-- The total `T = |K1| + |K2|`. -/
def spec_total (K1 K2 : List Str) : Nat :=
  K1.length + K2.length

/-- The fraction `hits / T`, with the value `dflt` when `T = 0`. -/
def spec_fraction (hits total : Nat) (dflt : ℚ) : ℚ :=
  if total = 0 then dflt else (hits : ℚ) / (total : ℚ)

/-- The forward positive fraction `f = fOK / T` (0 when `T = 0`). -/
def spec_f (positive : List Str) (K1 K2 : List Str) : ℚ :=
  spec_fraction (spec_hits (fun x => decide (x ∈ positive)) K1 K2) (spec_total K1 K2) 0

/-- The reverse positive fraction `r = rOK / T` (0 when `T = 0`). -/
def spec_r (positive : List Str) (K1 K2 : List Str) : ℚ :=
  spec_fraction (spec_hits (fun x => decide (seq_reverse_complement x ∈ positive)) K1 K2)
    (spec_total K1 K2) 0

/-- The negativity `n = nOK / T` (1 when `T = 0`). -/
def spec_n (negative : Str → Bool) (K1 K2 : List Str) : ℚ :=
  spec_fraction (spec_hits negative K1 K2) (spec_total K1 K2) 1

/-- The number of forward windows of both mates that are in the uniqueness set. -/
def spec_forwardUnique (uniqueness : List Str) (K1 K2 : List Str) : Nat :=
  spec_hits (fun x => decide (x ∈ uniqueness)) K1 K2

/-- The number of windows of both mates whose reverse complement is in the uniqueness set. -/
def spec_reverseUnique (uniqueness : List Str) (K1 K2 : List Str) : Nat :=
  spec_hits (fun x => decide (seq_reverse_complement x ∈ uniqueness)) K1 K2

/-- The windows `K1` of the first mate. -/
def K1 (F : readFilter) (read : fastq_readPair) : List Str :=
  partitionStringIntokMers read.a1.sequence F.k

/-- The windows `K2` of the second mate. -/
def K2 (F : readFilter) (read : fastq_readPair) : List Str :=
  partitionStringIntokMers read.a2.sequence F.k

/-! ## The fractions as the program computes them -/

/-- The quotient `hits / total` as the program computes it: the `double` nearest to the
exact quotient, with the value `dflt` when `total = 0` (lines 235, 279 and 375). -/
def computed_fraction (hits total : Nat) (dflt : ℚ) : ℚ :=
  if total = 0 then dflt else double_div (hits : ℚ) (total : ℚ)

/-- The variable `forward_combined_optim` (line 235). -/
def computed_f (positive : List Str) (K1 K2 : List Str) : ℚ :=
  computed_fraction (spec_hits (fun x => decide (x ∈ positive)) K1 K2) (spec_total K1 K2) 0

/-- The variable `reverse_combined_optim` (line 279). -/
def computed_r (positive : List Str) (K1 K2 : List Str) : ℚ :=
  computed_fraction (spec_hits (fun x => decide (seq_reverse_complement x ∈ positive)) K1 K2)
    (spec_total K1 K2) 0

/-- The variable `combined_negativity` (line 375). -/
def computed_n (negative : Str → Bool) (K1 K2 : List Str) : ℚ :=
  computed_fraction (spec_hits negative K1 K2) (spec_total K1 K2) 1

/-! ## Concrete data for the scenarios -/

/-- A complete pair with the given sequences. -/
def mkPair (s1 s2 : Str) : fastq_readPair :=
  { have1 := true, have2 := true,
    a1 := { readID := "r/1".toList, sequence := s1, qualities := [] },
    a2 := { readID := "r/2".toList, sequence := s2, qualities := [] } }

/-- A configuration with `k = 4`, the given filter paths and thresholds, text-paired input,
both unique flags off and the default unique thresholds and thread count. -/
def mkConfig (positiveFilter negativeFilter : Str) (pT nT : ℚ) : readFilter :=
  { positiveFilter := positiveFilter, negativeFilter := negativeFilter,
    input_BAM := [], input_FASTQ := "reads".toList, output_FASTQ := "kept".toList,
    positiveThreshold := pT, negativeThreshold := nT, k := 4,
    positiveUnique := false, negativePreserveUnique := false,
    positiveUnique_threshold := 10, negativePreserveUnique_threshold := 10,
    uniqueness_base := [], uniqueness_subtract := [], threads := 10 }

/-- Scenario S1: `k = 4`, positive threshold 0.5, a positive filter and no negative filter. -/
def cfgS1 : readFilter :=
  mkConfig "positive.txt".toList [] (1 / 2) 0

/-- The positive set of scenario S1. -/
def positiveS1 : List Str :=
  ["AAAA".toList, "AAAC".toList, "AACC".toList]

/-- Scenario S3: `k = 4`, no positive filter, a negative filter with threshold 0. -/
def cfgS3 : readFilter :=
  mkConfig [] "negative.ctx".toList 0 0

/-- The negative index of scenario S3: exactly the k-mer ACGT. -/
def negativeS3 : Str → Bool :=
  fun x => decide (x = "ACGT".toList)

/-- Scenario S4: `k = 4`, positive threshold 0.5, `positiveUnique` on with threshold 1. -/
def cfgS4 : readFilter :=
  { mkConfig "positive.txt".toList [] (1 / 2) 0 with
    positiveUnique := true, positiveUnique_threshold := 1,
    uniqueness_base := "base.txt".toList, uniqueness_subtract := "subtract.ctx".toList }

/-- A configuration with a negative filter, threshold 0.1, and `negativePreserveUnique` on
with threshold 1. -/
def cfgPreserve : readFilter :=
  { mkConfig [] "negative.ctx".toList 0 (1 / 10) with
    negativePreserveUnique := true, negativePreserveUnique_threshold := 1,
    uniqueness_base := "base.txt".toList, uniqueness_subtract := "subtract.ctx".toList }

/-- The `double` that the decimal 0.1 denotes; it is larger than 1/10. -/
def doubleTenth : ℚ :=
  7205759403792794 / 2 ^ 56

/-- The `double` that the decimal 0.3 denotes; it is smaller than 3/10. -/
def doubleThreeTenths : ℚ :=
  5404319552844595 / 2 ^ 54

/-- A positive filter with threshold 0.1, `k = 4`, both unique flags off. -/
def cfgTenth : readFilter :=
  mkConfig "positive.txt".toList [] doubleTenth 0

/-- A positive filter with threshold 0.1, `k = 25`, and `positiveUnique` on with threshold
1. -/
def cfgTenthUnique : readFilter :=
  { mkConfig "positive.txt".toList [] doubleTenth 0 with
    k := 25, positiveUnique := true, positiveUnique_threshold := 1,
    uniqueness_base := "base.txt".toList, uniqueness_subtract := "subtract.ctx".toList }

/-- A negative filter with threshold 0.3, `k = 25` (line 172 asserts `k == 25` when a
negative filter is configured), no positive filter, both unique flags off. -/
def cfgThreeTenths : readFilter :=
  { mkConfig [] "negative.ctx".toList 0 doubleThreeTenths with k := 25 }

/-- A negative filter with threshold 0.3, `k = 25`, no positive filter, and
`negativePreserveUnique` on with threshold 1. -/
def cfgThreeTenthsPreserve : readFilter :=
  { mkConfig [] "negative.ctx".toList 0 doubleThreeTenths with
    k := 25, negativePreserveUnique := true, negativePreserveUnique_threshold := 1,
    uniqueness_base := "base.txt".toList, uniqueness_subtract := "subtract.ctx".toList }

/-- The 25-mer that consists of the base A. -/
def kMerA25 : Str :=
  "AAAAAAAAAAAAAAAAAAAAAAAAA".toList

/-- The 25-mer that ends the read `read29A`. -/
def kMerA23CC : Str :=
  "AAAAAAAAAAAAAAAAAAAAAAACC".toList

/-- A 25-mer that is no window of the reads `read29A` and `read29C` in either
orientation. -/
def kMerMixed : Str :=
  "ACGTACGTACGTACGTACGTACGTA".toList

/-- A read of 29 bases, with five windows of length 25: three times `kMerA25`, then two
windows that end in C and in CC. -/
def read29A : Str :=
  "AAAAAAAAAAAAAAAAAAAAAAAAAAACC".toList

/-- A read of 29 bases C, with five windows of length 25. -/
def read29C : Str :=
  "CCCCCCCCCCCCCCCCCCCCCCCCCCCCC".toList

/-- A negative index that holds exactly `kMerA25`. -/
def negativeA25 : Str → Bool :=
  fun x => decide (x = kMerA25)

/-! ## `doFilter`: validation of the configuration (lines 45-58) -/

/-- Lines 45-58 of `doFilter`: the three checks that throw `std::runtime_error`, in the
order of the source. -/
def doFilter_validate (F : readFilter) : Except Str Unit :=
  if ¬ (F.positiveFilter.length ≠ 0 ∨ F.negativeFilter.length ≠ 0) then
    Except.error "Please specify either positive filter or negative filter.".toList
  else if ¬ (F.input_BAM.length ≠ 0 ∨ F.input_FASTQ.length ≠ 0) then
    Except.error "Please specify either input BAM or input FASTQ.".toList
  else if F.input_BAM.length ≠ 0 ∧ F.input_FASTQ.length ≠ 0 then
    Except.error "Both input BAM and input FASTQ set - can't deal with that.".toList
  else Except.ok ()

/-! ## Read pairs (class `fastq_readPair`) -/

/-- Modelled from the spec: the default-constructed `fastq_readPair` (`readFilter.h` is not
among the sources) has both slots empty. -/
def fastq_readPair.empty : fastq_readPair :=
  { have1 := false, have2 := false,
    a1 := { readID := [], sequence := [], qualities := [] },
    a2 := { readID := [], sequence := [], qualities := [] } }

/-- Modelled from the spec: `fastq_readPair::takeAlignment` (`readFilter.h` is not among the
sources) fills the slot `whichMate` when it is empty and reports success; a slot that is
already filled is never overwritten, and filling it with a mismatching record is reported
as a failure. The result is the success flag and the pair afterwards. -/
def fastq_readPair.takeAlignment (p : fastq_readPair) (a : BAMalignment) (whichMate : Nat) :
    Bool × fastq_readPair :=
  if whichMate = 1 then
    if p.have1 then (decide (p.a1 = a), p) else (true, { p with have1 := true, a1 := a })
  else if whichMate = 2 then
    if p.have2 then (decide (p.a2 = a), p) else (true, { p with have2 := true, a2 := a })
  else (false, p)

/-- Modelled from the spec: `fastq_readPair::take_another_readPair` (`readFilter.h` is not
among the sources) runs the same slot-filling step for every slot that is filled in the
other pair. The result is the success flag and the pair afterwards. -/
def fastq_readPair.take_another_readPair (p other : fastq_readPair) : Bool × fastq_readPair :=
  let r1 := if other.have1 then p.takeAlignment other.a1 1 else (true, p)
  if r1.1 then
    if other.have2 then r1.2.takeAlignment other.a2 2 else (true, r1.2)
  else (false, p)

/-! ## Text-paired mode (`filterFastQPairs`, lines 448-547) and `printFunction` -/

/-- An observable action of a filter run: a line written to `std::cerr`, a call of the
decision predicate, a call of the print sink. -/
inductive Event where
  | warning (msg : Str)
  | decideCall (read : fastq_readPair)
  | printCall (read : fastq_readPair)
deriving DecidableEq, Repr

/-- How a run of `filterFastQPairs` ends: normally, or by a failed assertion or an uncaught
exception; in both cases with the actions performed so far. -/
inductive FastQRun where
  | finished (trace : List Event)
  | aborted (trace : List Event)
  | outOfFuel
deriving DecidableEq, Repr

/-- The three strings that `getReadFromFastQ` returns through its reference parameters. -/
structure FastQRecord where
  readID : Str
  sequence : Str
  qualities : Str
deriving DecidableEq, Repr

/-- The loop of `getLinesFromFastQ` (lines 461-472): read up to `lines` lines, stopping early
when the stream is no longer good. The result is the lines read and the stream afterwards. -/
def getLinesLoop : List Str → Nat → List Str × List Str
  | inputStream, 0 => ([], inputStream)
  | [], _ + 1 => ([], [])
  | thisLine :: rest, lines + 1 =>
    let r := getLinesLoop rest lines
    (eraseNL thisLine :: r.1, r.2)

/-- The closure `getLinesFromFastQ` (lines 458-475); `none` is the failed assertion
`lines > 0`. -/
def getLinesFromFastQ (inputStream : List Str) (lines : Nat) : Option (List Str × List Str) :=
  if lines = 0 then none else some (getLinesLoop inputStream lines)

/-- The closure `getReadFromFastQ` (lines 477-494); `none` is a failed assertion. The result
is the record and the stream afterwards. -/
def getReadFromFastQ (inputStream : List Str) : Option (FastQRecord × List Str) :=
  if inputStream = [] then none
  else
    match getLinesFromFastQ inputStream 4 with
    | none => none
    | some (lines, rest) =>
      if lines.length = 4 then
        if lines.getD 2 [] ≠ "+".toList then none
        else if (lines.getD 1 []).length ≠ (lines.getD 3 []).length then none
        else
          some ({ readID := lines.getD 0 [], sequence := lines.getD 1 [],
                  qualities := lines.getD 3 [] }, rest)
      else some ({ readID := [], sequence := [], qualities := [] }, rest)

/-- The expression `s.substr(s.length() - 2, 2)`: the last two characters; for a string with
fewer than two characters the start position wraps around and `substr` throws (`none`). -/
def lastTwo (s : Str) : Option Str :=
  if s.length < 2 then none else some (s.drop (s.length - 2))

/-- The expression `s.substr(0, s.length() - 2)`: the string without its last two
characters; for a string with fewer than two characters the count wraps around and the
whole string is returned. -/
def withoutLastTwo (s : Str) : Str :=
  if s.length < 2 then s else s.take (s.length - 2)

/-- The text written to `std::cerr` at line 538. -/
def idMismatchWarning (read1_ID read2_ID : Str) : Str :=
  "Warning: read IDs don't match! ".toList ++ read1_ID ++ " vs ".toList ++ read2_ID
    ++ "\n".toList

/-- Lines 512-545: the body of the loop of `filterFastQPairs` for the two records read.
`Except.error` is an abort, `Except.ok` continues the loop; both carry the actions so far. -/
def filterFastQPairs_body (decide : fastq_readPair → Bool) (read1 read2 : FastQRecord)
    (trace : List Event) : Except (List Event) (List Event) :=
  let simpleAlignment_1 : BAMalignment :=
    { readID := read1.readID, sequence := read1.sequence, qualities := read1.qualities }
  let read2_sequence := seq_reverse_complement read2.sequence
  let read2_qualities := read2.qualities.reverse
  let simpleAlignment_2 : BAMalignment :=
    { readID := read2.readID, sequence := read2_sequence, qualities := read2_qualities }
  let success_1 := fastq_readPair.empty.takeAlignment simpleAlignment_1 1
  if success_1.1 = false then Except.error trace
  else
    let success_2 := success_1.2.takeAlignment simpleAlignment_2 2
    if success_2.1 = false then Except.error trace
    else
      let thisPair := success_2.2
      if thisPair.isComplete = false then Except.error trace
      else
        match lastTwo read1.readID with
        | none => Except.error trace
        | some end1 =>
          if ¬ (end1 = "/1".toList ∨ end1 = "/2".toList) then Except.error trace
          else
            match lastTwo read2.readID with
            | none => Except.error trace
            | some end2 =>
              if ¬ (end2 = "/1".toList ∨ end2 = "/2".toList) then Except.error trace
              else if withoutLastTwo read1.readID ≠ withoutLastTwo read2.readID then
                Except.error
                  (trace ++ [Event.warning (idMismatchWarning read1.readID read2.readID)])
              else if decide thisPair then
                Except.ok (trace ++ [Event.decideCall thisPair, Event.printCall thisPair])
              else Except.ok (trace ++ [Event.decideCall thisPair])

/-- The loop of `filterFastQPairs` (lines 496-546) on the two streams. -/
def filterFastQPairs_loop (decide : fastq_readPair → Bool) :
    Nat → List Str → List Str → List Event → FastQRun
  | 0, _, _, _ => FastQRun.outOfFuel
  | fuel + 1, fastQ_1_stream, fastQ_2_stream, trace =>
    if fastQ_1_stream = [] then FastQRun.finished trace
    else if fastQ_2_stream = [] then FastQRun.aborted trace
    else
      match getReadFromFastQ fastQ_1_stream with
      | none => FastQRun.aborted trace
      | some (read1, rest1) =>
        match getReadFromFastQ fastQ_2_stream with
        | none => FastQRun.aborted trace
        | some (read2, rest2) =>
          if ¬ ((read1.readID.length ≠ 0 ∧ read2.readID.length ≠ 0)
                ∨ (read1.readID.length = 0 ∧ read2.readID.length = 0)) then
            FastQRun.aborted trace
          else if read1.readID.length = 0 ∧ read2.readID.length = 0 then
            FastQRun.finished trace
          else
            match filterFastQPairs_body decide read1 read2 trace with
            | Except.error tr => FastQRun.aborted tr
            | Except.ok tr => filterFastQPairs_loop decide fuel rest1 rest2 tr

/-- The function `filterFastQPairs` (lines 448-547) on the two opened streams. Every turn
of the loop consumes a line of the first stream, so one turn per line and the final test
suffice. -/
def filterFastQPairs (decide : fastq_readPair → Bool) (fastQ_1_stream fastQ_2_stream : List Str) :
    FastQRun :=
  filterFastQPairs_loop decide (fastQ_1_stream.length + 1) fastQ_1_stream fastQ_2_stream []

/-- The closure `printFunction` (lines 393-409): the lines appended to the first and to the
second output file. -/
def printFunction (read : fastq_readPair) : List Str × List Str :=
  (["@".toList ++ read.a1.readID, read.a1.sequence, "+".toList, read.a1.qualities],
   ["@".toList ++ read.a2.readID, seq_reverse_complement read.a2.sequence, "+".toList,
     read.a2.qualities.reverse])

/-- The lines of the two output files after the print calls of a trace. -/
def outputFiles : List Event → List Str × List Str
  | [] => ([], [])
  | Event.printCall read :: rest =>
    ((printFunction read).1 ++ (outputFiles rest).1,
     (printFunction read).2 ++ (outputFiles rest).2)
  | _ :: rest => outputFiles rest

/-- The stream obtained by opening a file that consists of the given newline-terminated
lines: after the last newline an empty piece remains. -/
def streamOfLines (lines : List Str) : List Str :=
  lines ++ [[]]

/-- The actions of a run. -/
def FastQRun.trace : FastQRun → List Event
  | FastQRun.finished trace => trace
  | FastQRun.aborted trace => trace
  | FastQRun.outOfFuel => []

/-- The pairs passed to the decision predicate, in order. -/
def decidedPairs : List Event → List fastq_readPair
  | [] => []
  | Event.decideCall read :: rest => read :: decidedPairs rest
  | _ :: rest => decidedPairs rest

/-- The pairs passed to the print sink, in order. -/
def printedPairs : List Event → List fastq_readPair
  | [] => []
  | Event.printCall read :: rest => read :: printedPairs rest
  | _ :: rest => printedPairs rest

/-- The in-memory pair that text-paired ingest builds from record `read1` of the first file
and record `read2` of the second file (lines 512-531). -/
def ingestPair (read1 read2 : FastQRecord) : fastq_readPair :=
  { have1 := true, have2 := true,
    a1 := { readID := read1.readID, sequence := read1.sequence, qualities := read1.qualities },
    a2 := { readID := read2.readID, sequence := seq_reverse_complement read2.sequence,
            qualities := read2.qualities.reverse } }

/-- The four lines of a record in a text-paired file. -/
def recordLines (r : FastQRecord) : List Str :=
  [r.readID, r.sequence, "+".toList, r.qualities]

/-- The id ends in one of the mate suffixes `/1` and `/2` (the assertions at lines 533 and
534). -/
def endsInMateSuffix (readID : Str) : Prop :=
  lastTwo readID = some "/1".toList ∨ lastTwo readID = some "/2".toList

instance (readID : Str) : Decidable (endsInMateSuffix readID) := by
  unfold endsInMateSuffix
  infer_instance

/-- A record of a well-formed text-paired file: its three fields are lines (they hold no
newline character), sequence and qualities have equal length, and the id ends in a mate
suffix. -/
def wellFormedRecord (r : FastQRecord) : Prop :=
  '\n' ∉ r.readID ∧ '\n' ∉ r.sequence ∧ '\n' ∉ r.qualities
    ∧ r.sequence.length = r.qualities.length ∧ endsInMateSuffix r.readID

instance (r : FastQRecord) : Decidable (wellFormedRecord r) := by
  unfold wellFormedRecord
  infer_instance

/-- Two records at the same index of a well-formed pair of files: both are well formed and
their ids agree without the mate suffix. -/
def wellFormedRecordPair (r1 r2 : FastQRecord) : Prop :=
  wellFormedRecord r1 ∧ wellFormedRecord r2
    ∧ withoutLastTwo r1.readID = withoutLastTwo r2.readID

instance (r1 r2 : FastQRecord) : Decidable (wellFormedRecordPair r1 r2) := by
  unfold wellFormedRecordPair
  infer_instance

/-- The lines of a file that holds the given records. -/
def fileLines (records : List FastQRecord) : List Str :=
  records.flatMap recordLines

/-- The actions of `filterFastQPairs` for one accepted pair: the call of the decision
predicate, followed by the call of the print sink when the pair is kept. -/
def pairEvents (decide : fastq_readPair → Bool) (read : fastq_readPair) : List Event :=
  if decide read then [Event.decideCall read, Event.printCall read]
  else [Event.decideCall read]

/-- A record with the given id and fixed sequence and qualities. -/
def mkRecord (readID : Str) : FastQRecord :=
  { readID := readID, sequence := "AAAACCCC".toList, qualities := "IIIIIIII".toList }

/-- The nucleotide alphabet {A, C, G, T, N} of the data model. -/
def isNucleotide (c : Char) : Prop :=
  c = 'A' ∨ c = 'C' ∨ c = 'G' ∨ c = 'T' ∨ c = 'N'

instance (c : Char) : Decidable (isNucleotide c) := by
  unfold isNucleotide
  infer_instance

/-- The decision predicate of scenario S1. -/
def decideS1 : fastq_readPair → Bool :=
  decisionFunction cfgS1 positiveS1 [] (fun _ => false)

/-- The first input file of the idempotence example: one record @r/1. -/
def idempotenceInput1 : List Str :=
  streamOfLines ["@r/1".toList, "AAAACCCC".toList, "+".toList, "IIIIIIII".toList]

/-- The second input file of the idempotence example: one record @r/2. -/
def idempotenceInput2 : List Str :=
  streamOfLines ["@r/2".toList, "GGGGTTTT".toList, "+".toList, "IIIIIIII".toList]

/-- The output files of a run of the filter in text-paired mode with the predicate of
scenario S1. -/
def filterRunS1 (fastQ_1_stream fastQ_2_stream : List Str) : List Str × List Str :=
  outputFiles (filterFastQPairs decideS1 fastQ_1_stream fastQ_2_stream).trace

/-! ## Aligned-container mode (`filterBAM`, lines 549-743) -/

/-- A `std::map<std::string, fastq_readPair>`: the entries in ascending order of the key. -/
abbrev ReadMap := List (Str × fastq_readPair)

/-- The call `m.at(name)`; `none` when the key is absent (`at` throws). -/
def map_at : ReadMap → Str → Option fastq_readPair
  | [], _ => none
  | (key, value) :: rest, name => if key = name then some value else map_at rest name

/-- The call `m.count(name)`. -/
def map_count (m : ReadMap) (name : Str) : Nat :=
  if (map_at m name).isSome then 1 else 0

/-- The assignment `m[name] = value`: the value of an existing key is replaced, a new key is
inserted at its position in the order. -/
def map_assign : ReadMap → Str → fastq_readPair → ReadMap
  | [], name, value => [(name, value)]
  | (key, old) :: rest, name, value =>
    if key = name then (name, value) :: rest
    else if name < key then (name, value) :: (key, old) :: rest
    else (key, old) :: map_assign rest name value

/-- The call `m.erase(name)`. -/
def map_erase (m : ReadMap) (name : Str) : ReadMap :=
  m.filter (fun entry => decide (entry.1 ≠ name))

/-- The fields and flags of a `BamTools::BamAlignment` that `filterBAM` reads. -/
structure BamAlignment where
  Name : Str
  IsPaired : Bool
  IsFirstMate : Bool
  IsReverseStrand : Bool
  QueryBases : Str
  Qualities : Str
deriving DecidableEq, Repr

/-- Line 611: `print_at_once = 1000`. -/
def print_at_once : Nat := 1000

/-- Modelled from the spec: `Utilities::seq_reverse_complement` (`Utilities.h` is not among
the sources), called at line 646 for a reverse-strand alignment, replaces the stored
sequence by its reverse complement. -/
def Utilities_seq_reverse_complement (sequence : Str) : Str :=
  seq_reverse_complement sequence

/-- Lines 630-652: the record `simpleAlignment` built from an alignment. -/
def simpleAlignmentOf (al : BamAlignment) : BAMalignment :=
  { readID := al.Name ++ (if al.IsFirstMate then "/1".toList else "/2".toList),
    sequence :=
      if al.IsReverseStrand then Utilities_seq_reverse_complement al.QueryBases
      else al.QueryBases,
    qualities := if al.IsReverseStrand then al.Qualities.reverse else al.Qualities }

/-- Line 638: `whichMate`. -/
def whichMateOf (al : BamAlignment) : Nat :=
  if al.IsFirstMate then 1 else 2

/-- The state of a worker while it processes one region: its two local tables, the calls of
the decision predicate so far, and for every execution of `print_threaded_reads` the pairs
it handed to the print sink, in order. -/
structure RegionState where
  thread_reads : ReadMap
  thread_reads_forPrint : ReadMap
  decided : List fastq_readPair
  flushes : List (List fastq_readPair)

/-- The closure `print_threaded_reads` (lines 593-600): print every buffered pair in the
iteration order of the map, then clear the buffer. -/
def print_threaded_reads (st : RegionState) : RegionState :=
  { st with
    flushes := st.flushes ++ [st.thread_reads_forPrint.map Prod.snd],
    thread_reads_forPrint := [] }

/-- Lines 677-693: the handling of a pair that has just become complete in a worker's table:
it is passed to the decision predicate, buffered for printing when accepted (the buffer is
printed as soon as it holds more than `print_at_once` pairs), and erased from the table. -/
def completionHandling (decide : fastq_readPair → Bool) (st : RegionState) (name : Str)
    (thisPair : fastq_readPair) : RegionState :=
  let st2 := { st with decided := st.decided ++ [thisPair] }
  let st3 :=
    if decide thisPair then
      let st4 :=
        { st2 with
          thread_reads_forPrint := map_assign st2.thread_reads_forPrint name thisPair }
      if st4.thread_reads_forPrint.length > print_at_once then print_threaded_reads st4
      else st4
    else st2
  { st3 with thread_reads := map_erase st3.thread_reads name }

/-- Lines 628-694: the processing of one alignment; `none` is a failed assertion. The pair
`thisPair` is a reference into the table, so the table holds the pair with the new slot
filled. -/
def processAlignment (decide : fastq_readPair → Bool) (st : RegionState) (al : BamAlignment) :
    Option RegionState :=
  if al.IsPaired = false then none
  else
    let name := al.Name
    let simpleAlignment := simpleAlignmentOf al
    let whichMate := whichMateOf al
    if map_count st.thread_reads name = 0 then
      let success := fastq_readPair.empty.takeAlignment simpleAlignment whichMate
      if success.1 = false then none
      else some { st with thread_reads := map_assign st.thread_reads name success.2 }
    else
      match map_at st.thread_reads name with
      | none => none
      | some stored =>
        let success := stored.takeAlignment simpleAlignment whichMate
        if success.1 = false then none
        else
          let thisPair := success.2
          let st1 := { st with thread_reads := map_assign st.thread_reads name thisPair }
          if thisPair.isComplete then some (completionHandling decide st1 name thisPair)
          else some st1

/-- Lines 616-698: the alignments of the region are read and processed one after the
other (the inner batching loop at line 620 never runs). -/
def processAlignments (decide : fastq_readPair → Bool) :
    RegionState → List BamAlignment → Option RegionState
  | st, [] => some st
  | st, al :: rest =>
    match processAlignment decide st al with
    | none => none
    | some st' => processAlignments decide st' rest

/-- Lines 590-700: the work of a worker on one region before its critical section, ending
with the final `print_threaded_reads`. -/
def processRegion (decide : fastq_readPair → Bool) (region : List BamAlignment) :
    Option RegionState :=
  match processAlignments decide
      { thread_reads := [], thread_reads_forPrint := [], decided := [], flushes := [] }
      region with
  | none => none
  | some st => some (print_threaded_reads st)

/-- The state shared by the workers: the global table, and the calls of the decision
predicate and of the print sink so far. -/
structure BamState where
  global_reads : ReadMap
  decided : List fastq_readPair
  printed : List fastq_readPair

/-- Lines 723-732: the handling of a pair that has just become complete in the global
table: it is passed to the decision predicate, printed when accepted, and erased. -/
def globalCompletion (decide : fastq_readPair → Bool) (g : BamState) (name : Str)
    (existingPair : fastq_readPair) : BamState :=
  let g2 := { g with decided := g.decided ++ [existingPair] }
  let g3 :=
    if decide existingPair then { g2 with printed := g2.printed ++ [existingPair] } else g2
  { g3 with global_reads := map_erase g3.global_reads name }

/-- Lines 706-733: one dangling entry of a worker is merged into the global table; `none`
is a failed assertion. -/
def drainEntry (decide : fastq_readPair → Bool) (g : BamState)
    (entry : Str × fastq_readPair) : Option BamState :=
  let name := entry.1
  let incompleteReadPair := entry.2
  if incompleteReadPair.isComplete then none
  else if map_count g.global_reads name = 0 then
    some { g with global_reads := map_assign g.global_reads name incompleteReadPair }
  else
    match map_at g.global_reads name with
    | none => none
    | some stored =>
      let success := stored.take_another_readPair incompleteReadPair
      if success.1 = false then none
      else
        let existingPair := success.2
        let g1 := { g with global_reads := map_assign g.global_reads name existingPair }
        if existingPair.isComplete then some (globalCompletion decide g1 name existingPair)
        else some g1

/-- Lines 704-734: the loop over the dangling entries of a worker, in the iteration order
of its table. -/
def drain (decide : fastq_readPair → Bool) : BamState → ReadMap → Option BamState
  | g, [] => some g
  | g, entry :: rest =>
    match drainEntry decide g entry with
    | none => none
    | some g' => drain decide g' rest

/-- One turn of the parallel loop (lines 576-736): the worker processes its region with
local state only, then merges its dangling entries in its critical section. -/
def filterBAM_region (decide : fastq_readPair → Bool) (g : BamState)
    (region : List BamAlignment) : Option BamState :=
  match processRegion decide region with
  | none => none
  | some st =>
    drain decide
      { g with decided := g.decided ++ st.decided, printed := g.printed ++ st.flushes.flatten }
      st.thread_reads

/-- The parallel loop over the regions. The work of a region before its critical section
touches no shared table, so a run is determined by the order in which the critical sections
are executed; the regions are listed in that order. -/
def filterBAM_regions (decide : fastq_readPair → Bool) :
    BamState → List (List BamAlignment) → Option BamState
  | g, [] => some g
  | g, region :: rest =>
    match filterBAM_region decide g region with
    | none => none
    | some g' => filterBAM_regions decide g' rest

/-- The result of `filterBAM`: the final shared state and, when the warning of line 740 is
written, the number of dangling reads it reports. -/
structure BamRun where
  state : BamState
  danglingWarning : Option Nat

/-- The function `filterBAM` (lines 549-743) on the alignments of the regions; `none` is a
failed assertion. -/
def filterBAM (decide : fastq_readPair → Bool) (regions : List (List BamAlignment)) :
    Option BamRun :=
  match filterBAM_regions decide { global_reads := [], decided := [], printed := [] }
      regions with
  | none => none
  | some g =>
    some { state := g,
           danglingWarning :=
             if g.global_reads.length > 0 then some g.global_reads.length else none }

/-- The alignment of the given mate of a read name, when it occurs among the alignments. -/
def mateOf (name : Str) (first : Bool) (als : List BamAlignment) : Option BamAlignment :=
  als.find? (fun al => decide (al.Name = name) && (al.IsFirstMate == first))

/-- The pair whose slots hold the given alignments. -/
def pairFrom (o1 o2 : Option BamAlignment) : fastq_readPair :=
  { have1 := o1.isSome, have2 := o2.isSome,
    a1 := match o1 with
      | some al => simpleAlignmentOf al
      | none => { readID := [], sequence := [], qualities := [] },
    a2 := match o2 with
      | some al => simpleAlignmentOf al
      | none => { readID := [], sequence := [], qualities := [] } }

/-- The table entry of a read name: the half pair when exactly one mate has been seen. -/
def entryOf (o1 o2 : Option BamAlignment) : Option fastq_readPair :=
  if o1.isSome = o2.isSome then none else some (pairFrom o1 o2)

/-- The calls of the decision predicate for a read name: the complete pair when both mates
have been seen. -/
def decidedOf (o1 o2 : Option BamAlignment) : List fastq_readPair :=
  if o1.isSome ∧ o2.isSome then [pairFrom o1 o2] else []

/-- The key of an alignment: read name and mate index. -/
def alignmentKey (al : BamAlignment) : Str × Bool :=
  (al.Name, al.IsFirstMate)

/-- The pair carries the given read name in its first slot. -/
def pairNamed (name : Str) (read : fastq_readPair) : Bool :=
  decide (read.a1.readID = name ++ "/1".toList)

/-- The read names with exactly one alignment among the given ones. -/
def danglingNames (als : List BamAlignment) : List Str :=
  ((als.map (fun al => al.Name)).dedup).filter
    (fun name => decide ((als.filter (fun al => decide (al.Name = name))).length = 1))

/-- A paired forward-strand alignment with fixed bases and qualities. -/
def mkAlignment (name : Str) (first : Bool) : BamAlignment :=
  { Name := name, IsPaired := true, IsFirstMate := first, IsReverseStrand := false,
    QueryBases := "ACGT".toList, Qualities := "IIII".toList }

/-- The invariant of a worker's state after it has processed the alignments `seen` of its
region: the table holds exactly the half pairs, the decision predicate has been called
exactly on the completed pairs, every accepted pair is either printed or buffered, and the
buffer and the flushes are in ascending order of read name. -/
structure RegionInv (decide : fastq_readPair → Bool) (seen : List BamAlignment)
    (st : RegionState) : Prop where
  entries : ∀ n, map_at st.thread_reads n
    = entryOf (mateOf n true seen) (mateOf n false seen)
  decided : ∀ n, st.decided.filter (pairNamed n)
    = decidedOf (mateOf n true seen) (mateOf n false seen)
  named : ∀ p ∈ st.decided, ∃ n : Str, p.a1.readID = n ++ "/1".toList
  written : (st.flushes.flatten ++ st.thread_reads_forPrint.map Prod.snd).Perm
    (st.decided.filter decide)
  buffered : ∀ n, n ∈ st.thread_reads_forPrint.map Prod.fst →
    (mateOf n true seen).isSome = true ∧ (mateOf n false seen).isSome = true
  sortedReads : (st.thread_reads.map Prod.fst).Sorted (· < ·)
  sortedBuffer : (st.thread_reads_forPrint.map Prod.fst).Sorted (· < ·)
  bufferNames : ∀ e ∈ st.thread_reads_forPrint, e.2.a1.readID = e.1 ++ "/1".toList
  bufferSize : st.thread_reads_forPrint.length ≤ print_at_once
  flushShape : ∀ f ∈ st.flushes, f.length = print_at_once + 1
    ∧ ∃ names : List Str, names.Sorted (· < ·)
        ∧ f.map (fun p => p.a1.readID) = names.map (fun n => n ++ "/1".toList)

/-- A region in which the pair named b is completed before the pair named a. -/
def regionBA : List BamAlignment :=
  [mkAlignment "b".toList true, mkAlignment "b".toList false,
   mkAlignment "a".toList true, mkAlignment "a".toList false]

/-- The invariant of the shared state after the critical sections of the regions whose
alignments are `seen`: the global table holds exactly the half pairs, the decision predicate
has been called exactly on the completed pairs, and exactly the accepted pairs have been
printed. -/
structure GlobalInv (decide : fastq_readPair → Bool) (seen : List BamAlignment)
    (g : BamState) : Prop where
  entries : ∀ n, map_at g.global_reads n
    = entryOf (mateOf n true seen) (mateOf n false seen)
  decided : ∀ n, g.decided.filter (pairNamed n)
    = decidedOf (mateOf n true seen) (mateOf n false seen)
  named : ∀ p ∈ g.decided, ∃ n, p.a1.readID = n ++ "/1".toList
  written : g.printed.Perm (g.decided.filter decide)
  sorted : (g.global_reads.map Prod.fst).Sorted (· < ·)

/-- Two regions: the mates of a lie in different regions, those of b in the same region,
and c and d have one mate each. -/
def regionsSplit : List (List BamAlignment) :=
  [[mkAlignment "a".toList true, mkAlignment "b".toList true, mkAlignment "b".toList false,
    mkAlignment "c".toList true],
   [mkAlignment "a".toList false, mkAlignment "d".toList false]]

/-- The configuration with the two fractional thresholds replaced. -/
def withThresholds (F : readFilter) (positiveThreshold negativeThreshold : ℚ) : readFilter :=
  { F with positiveThreshold := positiveThreshold, negativeThreshold := negativeThreshold }

/-- The pair with its two mates exchanged. -/
def swapMates (read : fastq_readPair) : fastq_readPair :=
  { have1 := read.have2, have2 := read.have1, a1 := read.a2, a2 := read.a1 }

/-- The lines that `printFunction` writes to the first output file for the pair built from
the records `read1` and `read2`, in terms of the input records. -/
def writtenMate1 (read1 : FastQRecord) : List Str :=
  ["@".toList ++ read1.readID, read1.sequence, "+".toList, read1.qualities]

/-- The lines that `printFunction` writes to the second output file for the pair built from
the records `read1` and `read2`, in terms of the input records. -/
def writtenMate2 (read2 : FastQRecord) : List Str :=
  ["@".toList ++ read2.readID,
   seq_reverse_complement (seq_reverse_complement read2.sequence), "+".toList,
   read2.qualities]

/-! ## The loops of the decision function count members -/

theorem set_count_ne_zero (s : List Str) (x : Str) : set_count s x ≠ 0 ↔ x ∈ s := by
  unfold set_count
  by_cases h : x ∈ s <;> simp [h]

theorem countLoop_fold (orient : Str → Str) (P U : List Str) (l : List Str) (a : ℚ) (b : Int) :
    l.foldl
      (fun acc kI =>
        let kMer := orient kI
        let ok := if set_count P kMer ≠ 0 then acc.1 + 1 else acc.1
        let uniq := if set_count U kMer ≠ 0 then acc.2 + 1 else acc.2
        (ok, uniq))
      (a, b)
    = (a + ((l.countP (fun x => decide (orient x ∈ P)) : Nat) : ℚ),
       b + ((l.countP (fun x => decide (orient x ∈ U)) : Nat) : Int)) := by
  induction l generalizing a b with
  | nil => simp
  | cons x xs ih =>
    simp only [List.foldl_cons, List.countP_cons]
    rw [ih]
    by_cases h1 : orient x ∈ P <;> by_cases h2 : orient x ∈ U <;>
      simp [set_count, h1, h2, add_assoc, add_comm (1 : ℚ), add_comm (1 : ℤ)]

theorem countLoop_eq (orient : Str → Str) (P U : List Str) (l : List Str) :
    countLoop orient P U l
    = (((l.countP (fun x => decide (orient x ∈ P)) : Nat) : ℚ),
       ((l.countP (fun x => decide (orient x ∈ U)) : Nat) : Int)) := by
  unfold countLoop
  rw [countLoop_fold]
  simp

theorem notOKLoop_fold (g : Str → Bool) (l : List Str) (a : ℚ) :
    l.foldl (fun acc kMer => if g kMer then acc + 1 else acc) a
    = a + ((l.countP g : Nat) : ℚ) := by
  induction l generalizing a with
  | nil => simp
  | cons x xs ih =>
    simp only [List.foldl_cons, List.countP_cons]
    rw [ih]
    by_cases h : g x = true <;> simp [h, add_assoc, add_comm (1 : ℚ)]

theorem notOKLoop_eq (g : Str → Bool) (l : List Str) :
    notOKLoop g l = ((l.countP g : Nat) : ℚ) := by
  unfold notOKLoop
  rw [notOKLoop_fold]
  simp

theorem uniqueLoop_fold (orient : Str → Str) (U : List Str) (l : List Str) (b : Int) :
    l.foldl (fun acc kI => if set_count U (orient kI) ≠ 0 then acc + 1 else acc) b
    = b + ((l.countP (fun x => decide (orient x ∈ U)) : Nat) : Int) := by
  induction l generalizing b with
  | nil => simp
  | cons x xs ih =>
    simp only [List.foldl_cons, List.countP_cons]
    rw [ih]
    by_cases h : orient x ∈ U <;> simp [set_count, h, add_assoc, add_comm (1 : ℤ)]

theorem uniqueLoop_eq (orient : Str → Str) (U : List Str) (l : List Str) :
    uniqueLoop orient U l = ((l.countP (fun x => decide (orient x ∈ U)) : Nat) : Int) := by
  unfold uniqueLoop
  rw [uniqueLoop_fold]
  simp

theorem code_fraction_eq (c1 c2 n1 n2 : Nat) (d : ℚ) :
    (if (n1 : ℚ) + (n2 : ℚ) = 0 then d
      else double_div ((c1 : ℚ) + (c2 : ℚ)) ((n1 : ℚ) + (n2 : ℚ)))
    = computed_fraction (c1 + c2) (n1 + n2) d := by
  unfold computed_fraction
  have h : ((n1 : ℚ) + (n2 : ℚ) = 0) ↔ (n1 + n2 = 0) := by
    constructor
    · intro h; exact_mod_cast h
    · intro h; exact_mod_cast h
  by_cases h0 : n1 + n2 = 0
  · rw [if_pos h0, if_pos (h.mpr h0)]
  · rw [if_neg h0, if_neg (fun hh => h0 (h.mp hh))]
    push_cast
    rfl

theorem spec_hits_eq (p : Str → Bool) (A B : List Str) :
    spec_hits p A B = A.countP p + B.countP p := by
  simp [spec_hits, List.countP_append]

theorem floor_le_roundHalfEven (x : ℚ) : ⌊x⌋ ≤ roundHalfEven x := by
  unfold roundHalfEven
  split_ifs <;> omega

theorem two_zpow_binaryExponent_le (q : ℚ) (hq : 0 < q) :
    (2 : ℚ) ^ binaryExponent q ≤ q := by
  unfold binaryExponent
  split_ifs with h
  · rwa [abs_of_pos hq] at h
  · have hnum : 0 < q.num := Rat.num_pos.mpr hq
    have hn0 : q.num.natAbs ≠ 0 := Int.natAbs_ne_zero.mpr (ne_of_gt hnum)
    have h1 : 2 ^ Nat.log2 q.num.natAbs ≤ q.num.natAbs := Nat.log2_self_le hn0
    have h2 : q.den < 2 ^ (Nat.log2 q.den + 1) := Nat.lt_log2_self
    have hcast : ((q.num.natAbs : ℕ) : ℚ) = (q.num : ℚ) := by
      rw [← Int.cast_natCast, Int.natAbs_of_nonneg (le_of_lt hnum)]
    have hqeq : (q.num.natAbs : ℚ) / (q.den : ℚ) = q := by
      rw [hcast]
      exact Rat.num_div_den q
    have hexp : ((Nat.log2 q.num.natAbs : ℤ) - (Nat.log2 q.den : ℤ) - 1)
        = (Nat.log2 q.num.natAbs : ℤ) - ((Nat.log2 q.den + 1 : ℕ) : ℤ) := by
      push_cast
      ring
    calc (2 : ℚ) ^ ((Nat.log2 q.num.natAbs : ℤ) - (Nat.log2 q.den : ℤ) - 1)
        = (2 : ℚ) ^ (Nat.log2 q.num.natAbs) / (2 : ℚ) ^ (Nat.log2 q.den + 1) := by
          rw [hexp, zpow_sub₀ (two_ne_zero), zpow_natCast, zpow_natCast]
      _ ≤ (q.num.natAbs : ℚ) / (q.den : ℚ) := by
          apply div_le_div₀
          · exact Nat.cast_nonneg _
          · exact_mod_cast h1
          · exact_mod_cast q.den_pos
          · exact_mod_cast le_of_lt h2
      _ = q := hqeq

theorem double_round_pos (q : ℚ) (hq : 0 < q) : 0 < double_round q := by
  unfold double_round
  rw [if_neg (ne_of_gt hq)]
  have hulp : (0 : ℚ) < 2 ^ (binaryExponent q - 52) := zpow_pos (by norm_num) _
  apply mul_pos _ hulp
  have hle : (2 : ℚ) ^ (binaryExponent q - 52) ≤ q := by
    refine le_trans ?_ (two_zpow_binaryExponent_le q hq)
    apply zpow_le_zpow_right₀ (by norm_num)
    omega
  have hone : (1 : ℚ) ≤ q / 2 ^ (binaryExponent q - 52) := by
    rw [le_div_iff₀ hulp, one_mul]
    exact hle
  have hfloor : (1 : ℤ) ≤ ⌊q / 2 ^ (binaryExponent q - 52)⌋ := by
    rw [Int.le_floor]
    exact_mod_cast hone
  have := floor_le_roundHalfEven (q / 2 ^ (binaryExponent q - 52))
  exact_mod_cast lt_of_lt_of_le zero_lt_one (le_trans hfloor this)

theorem computed_fraction_pos (hits total : Nat) (dflt : ℚ) (hh : 0 < hits)
    (ht : 0 < total) : 0 < computed_fraction hits total dflt := by
  unfold computed_fraction double_div
  rw [if_neg (Nat.pos_iff_ne_zero.mp ht)]
  apply double_round_pos
  apply div_pos
  · exact_mod_cast hh
  · exact_mod_cast ht

theorem positiveCheck_iff (F : readFilter) (P U A B : List Str) :
    positiveCheck F P U A B = true ↔
      ((computed_f P A B ≥ F.positiveThreshold ∨ computed_r P A B ≥ F.positiveThreshold)
        ∨ (F.positiveUnique = true
            ∧ (((spec_forwardUnique U A B : Nat) : Int) ≥ F.positiveUnique_threshold
                ∨ ((spec_reverseUnique U A B : Nat) : ℚ) ≥ F.positiveThreshold))) := by
  unfold positiveCheck
  simp only [countLoop_eq, code_fraction_eq]
  unfold computed_f computed_r spec_forwardUnique spec_reverseUnique spec_total
  simp only [spec_hits_eq]
  cases hU : F.positiveUnique <;> simp [Bool.or_eq_true, decide_eq_true_eq]

theorem negativeCheck_iff (F : readFilter) (U : List Str) (g : Str → Bool) (A B : List Str) :
    negativeCheck F U g A B = true ↔
      (computed_n g A B ≤ F.negativeThreshold
        ∨ (F.negativePreserveUnique = true
            ∧ (((spec_forwardUnique U A B : Nat) : Int) ≥ F.negativePreserveUnique_threshold
                ∨ ((spec_reverseUnique U A B : Nat) : Int)
                    ≥ F.negativePreserveUnique_threshold))) := by
  unfold negativeCheck
  simp only [notOKLoop_eq, uniqueLoop_eq, code_fraction_eq]
  unfold computed_n spec_forwardUnique spec_reverseUnique spec_total
  simp only [spec_hits_eq]
  cases hU : F.negativePreserveUnique <;> simp [Bool.or_eq_true, decide_eq_true_eq]

theorem decisionFunction_iff (F : readFilter) (P U : List Str) (negative : Str → Bool)
    (read : fastq_readPair) :
    decisionFunction F P U negative read = true ↔
      ((apply_filter_positive F = false
          ∨ positiveCheck F P U (K1 F read) (K2 F read) = true)
        ∧ (apply_filter_negative F = false
          ∨ negativeCheck F U negative (K1 F read) (K2 F read) = true)) := by
  unfold decisionFunction pass_positive pass_negative K1 K2
  cases apply_filter_positive F <;> cases apply_filter_negative F <;>
    cases positiveCheck F P U (partitionStringIntokMers read.a1.sequence F.k)
      (partitionStringIntokMers read.a2.sequence F.k) <;>
    simp

/-! ## The decision function: claims C1 to C7 -/

/-- C1: the decision function returns true iff the positive test passes (vacuously when no
positive filter is configured) and either no negative filter is configured or the negative
test passes; a pair that fails the positive test is dropped whatever the negative index
contains. -/
theorem C1_decision_iff_positive_and_negative (F : readFilter) (P U : List Str)
    (negative : Str → Bool) (read : fastq_readPair) :
    (decisionFunction F P U negative read = true ↔
      ((apply_filter_positive F = false
          ∨ positiveCheck F P U (K1 F read) (K2 F read) = true)
        ∧ (apply_filter_negative F = false
          ∨ negativeCheck F U negative (K1 F read) (K2 F read) = true)))
    ∧ ((apply_filter_positive F = true
          ∧ positiveCheck F P U (K1 F read) (K2 F read) = false) →
        ∀ negative2 : Str → Bool, decisionFunction F P U negative2 read = false) := by
  refine ⟨decisionFunction_iff F P U negative read, ?_⟩
  rintro ⟨h1, h2⟩ negative2
  unfold decisionFunction pass_positive K1 K2 at *
  simp [h1, h2]

/-- C2, as stated, fails: with the positive threshold 0.1 (the `double` nearest to 1/10,
which is larger than 1/10), `k = 4`, the positive set {AAAA} and the pair AAAACCCC /
CCCCCCCC, one of the ten windows is in the positive set and no reverse complement of a
window is: the fractions f = 1/10 and r = 0 are both below the threshold, but the pair
passes the positive test, because the `double` quotient 1.0 / 10.0 is the threshold
itself. -/
theorem C2_fraction_below_threshold_passes :
    apply_filter_positive cfgTenth = true ∧ cfgTenth.positiveUnique = false
    ∧ cfgTenth.positiveThreshold = double_round (1 / 10)
    ∧ spec_f ["AAAA".toList] (K1 cfgTenth (mkPair "AAAACCCC".toList "CCCCCCCC".toList))
        (K2 cfgTenth (mkPair "AAAACCCC".toList "CCCCCCCC".toList)) = 1 / 10
    ∧ spec_r ["AAAA".toList] (K1 cfgTenth (mkPair "AAAACCCC".toList "CCCCCCCC".toList))
        (K2 cfgTenth (mkPair "AAAACCCC".toList "CCCCCCCC".toList)) = 0
    ∧ ¬ (spec_f ["AAAA".toList] (K1 cfgTenth (mkPair "AAAACCCC".toList "CCCCCCCC".toList))
            (K2 cfgTenth (mkPair "AAAACCCC".toList "CCCCCCCC".toList))
          ≥ cfgTenth.positiveThreshold
        ∨ spec_r ["AAAA".toList] (K1 cfgTenth (mkPair "AAAACCCC".toList "CCCCCCCC".toList))
            (K2 cfgTenth (mkPair "AAAACCCC".toList "CCCCCCCC".toList))
          ≥ cfgTenth.positiveThreshold)
    ∧ pass_positive cfgTenth ["AAAA".toList] []
        (mkPair "AAAACCCC".toList "CCCCCCCC".toList) = true := by
  refine ⟨by decide, by decide, by decide!, by decide!, by decide!, by decide!, by decide!⟩

/-- C2, amended: with a positive filter configured and `positiveUnique` off, a pair passes
the positive test iff `f ≥ positiveThreshold` or `r ≥ positiveThreshold`, where `f` and `r`
are the quotients `fOK / T` and `rOK / T` over the windows of both mates as the program
computes them: the `double` nearest to the exact quotient (both 0 when `T = 0`). -/
theorem C2_positive_fraction_rule (F : readFilter) (P U : List Str) (read : fastq_readPair)
    (hpos : apply_filter_positive F = true) (huniq : F.positiveUnique = false) :
    pass_positive F P U read = true ↔
      (computed_f P (K1 F read) (K2 F read) ≥ F.positiveThreshold
        ∨ computed_r P (K1 F read) (K2 F read) ≥ F.positiveThreshold) := by
  unfold pass_positive
  rw [if_pos hpos]
  have h := positiveCheck_iff F P U (K1 F read) (K2 F read)
  unfold K1 K2 at h ⊢
  rw [h]
  simp [huniq]

/-- Witness for C2 (amended) at scenario S1 (positive filter configured, `positiveUnique`
off). -/
theorem C2_positive_fraction_rule_witness :
    apply_filter_positive cfgS1 = true ∧ cfgS1.positiveUnique = false
    ∧ (pass_positive cfgS1 positiveS1 [] (mkPair "AAAACCCC".toList "AAAACCCC".toList) = true ↔
        (computed_f positiveS1 (K1 cfgS1 (mkPair "AAAACCCC".toList "AAAACCCC".toList))
              (K2 cfgS1 (mkPair "AAAACCCC".toList "AAAACCCC".toList))
            ≥ cfgS1.positiveThreshold
          ∨ computed_r positiveS1 (K1 cfgS1 (mkPair "AAAACCCC".toList "AAAACCCC".toList))
              (K2 cfgS1 (mkPair "AAAACCCC".toList "AAAACCCC".toList))
            ≥ cfgS1.positiveThreshold)) :=
  ⟨by decide, by decide,
    C2_positive_fraction_rule cfgS1 positiveS1 []
      (mkPair "AAAACCCC".toList "AAAACCCC".toList) (by decide) (by decide)⟩

/-- C3, as stated, fails: with the negative threshold 0.3 (the `double` nearest to 3/10,
which is smaller than 3/10), `k = 25`, no positive filter, a negative index that holds
exactly the 25-mer of A, and the pair of the reads `read29A` and `read29C`, three of the ten
windows are in the negative index: the negativity n = 3/10 is above the threshold, but the
pair passes the negative test and is kept, because the `double` quotient 3.0 / 10.0 is the
threshold itself. -/
theorem C3_negativity_above_threshold_passes :
    apply_filter_negative cfgThreeTenths = true
    ∧ cfgThreeTenths.negativePreserveUnique = false
    ∧ cfgThreeTenths.negativeThreshold = double_round (3 / 10)
    ∧ pass_positive cfgThreeTenths [] [] (mkPair read29A read29C) = true
    ∧ spec_hits negativeA25 (K1 cfgThreeTenths (mkPair read29A read29C))
        (K2 cfgThreeTenths (mkPair read29A read29C)) = 3
    ∧ spec_total (K1 cfgThreeTenths (mkPair read29A read29C))
        (K2 cfgThreeTenths (mkPair read29A read29C)) = 10
    ∧ spec_n negativeA25 (K1 cfgThreeTenths (mkPair read29A read29C))
        (K2 cfgThreeTenths (mkPair read29A read29C)) = 3 / 10
    ∧ ¬ (spec_n negativeA25 (K1 cfgThreeTenths (mkPair read29A read29C))
          (K2 cfgThreeTenths (mkPair read29A read29C))
        ≤ cfgThreeTenths.negativeThreshold)
    ∧ pass_negative cfgThreeTenths [] negativeA25 (mkPair read29A read29C) = true
    ∧ decisionFunction cfgThreeTenths [] [] negativeA25 (mkPair read29A read29C) = true := by
  refine ⟨by decide, by decide, by decide!, by decide, by decide!, by decide!, by decide!,
    by decide!, by decide!, by decide!⟩

/-- C3, amended: with a negative filter configured and `negativePreserveUnique` off, the
negative test passes iff `n ≤ negativeThreshold`, where `n` is the quotient `nOK / T` as the
program computes it: the `double` nearest to the exact quotient (1 when `T = 0`); so a pair
that passed the positive test is kept iff `n ≤ negativeThreshold`, and with
`negativeThreshold = 0` every pair with at least one window in the negative index is
dropped. In scenario S3 (k = 4, ACGTACGT / TTTTTTTT, negative set {ACGT}, no positive
filter) the pair is dropped. -/
theorem C3_negative_fraction_rule (F : readFilter) (P U : List Str) (negative : Str → Bool)
    (read : fastq_readPair)
    (hneg : apply_filter_negative F = true) (huniq : F.negativePreserveUnique = false) :
    (pass_negative F U negative read = true ↔
        computed_n negative (K1 F read) (K2 F read) ≤ F.negativeThreshold)
    ∧ (pass_positive F P U read = true →
        (decisionFunction F P U negative read = true ↔
          computed_n negative (K1 F read) (K2 F read) ≤ F.negativeThreshold))
    ∧ (F.negativeThreshold = 0 → 0 < spec_hits negative (K1 F read) (K2 F read) →
        decisionFunction F P U negative read = false)
    ∧ decisionFunction cfgS3 [] [] negativeS3
        (mkPair "ACGTACGT".toList "TTTTTTTT".toList) = false := by
  have hN : pass_negative F U negative read = true ↔
      computed_n negative (K1 F read) (K2 F read) ≤ F.negativeThreshold := by
    unfold pass_negative
    have h := negativeCheck_iff F U negative (K1 F read) (K2 F read)
    unfold K1 K2 at h ⊢
    rw [h]
    simp [huniq]
  have hD : pass_positive F P U read = true →
      (decisionFunction F P U negative read = true ↔
        computed_n negative (K1 F read) (K2 F read) ≤ F.negativeThreshold) := by
    intro hp
    rw [← hN]
    unfold decisionFunction
    simp [hp, hneg]
  refine ⟨hN, hD, ?_, by decide!⟩
  intro h0 hhit
  have hpos : 0 < computed_n negative (K1 F read) (K2 F read) := by
    unfold computed_n
    have hle : spec_hits negative (K1 F read) (K2 F read) ≤ spec_total (K1 F read) (K2 F read) := by
      unfold spec_hits spec_total
      rw [← List.length_append]
      exact List.countP_le_length _
    exact computed_fraction_pos _ _ _ hhit (lt_of_lt_of_le hhit hle)
  cases hp : pass_positive F P U read with
  | false =>
    unfold decisionFunction
    simp [hp]
  | true =>
    have := (hD hp).not
    rw [Bool.not_eq_true] at this
    rw [this, h0]
    exact not_le.mpr hpos

/-- Witness for C3 (amended) at scenario S3. -/
theorem C3_negative_fraction_rule_witness :
    apply_filter_negative cfgS3 = true ∧ cfgS3.negativePreserveUnique = false
    ∧ cfgS3.negativeThreshold = 0
    ∧ 0 < spec_hits negativeS3 (K1 cfgS3 (mkPair "ACGTACGT".toList "TTTTTTTT".toList))
          (K2 cfgS3 (mkPair "ACGTACGT".toList "TTTTTTTT".toList))
    ∧ decisionFunction cfgS3 [] [] negativeS3
        (mkPair "ACGTACGT".toList "TTTTTTTT".toList) = false :=
  ⟨by decide, by decide, rfl, by decide,
    (C3_negative_fraction_rule cfgS3 [] [] negativeS3
      (mkPair "ACGTACGT".toList "TTTTTTTT".toList) (by decide) (by decide)).2.2.1 rfl
      (by decide)⟩

/-- C4, as stated, fails: with `positiveUnique` on, unique threshold 1, the positive
threshold 0.1 (the `double` nearest to 1/10, which is larger than 1/10), `k = 25`, the
positive set that holds the last window of `read29A`, the uniqueness set that holds
`kMerMixed`, and the pair of the reads `read29A` and `read29C`, the fractions f = 1/10 and
r = 0 are below the threshold and no window is in the uniqueness set in either orientation,
so none of the three conditions of the claim holds; but the pair passes the positive test,
because the `double` quotient 1.0 / 10.0 is the threshold itself. -/
theorem C4_no_condition_holds_but_passes :
    apply_filter_positive cfgTenthUnique = true ∧ cfgTenthUnique.positiveUnique = true
    ∧ cfgTenthUnique.positiveThreshold = double_round (1 / 10)
    ∧ spec_f [kMerA23CC] (K1 cfgTenthUnique (mkPair read29A read29C))
        (K2 cfgTenthUnique (mkPair read29A read29C)) = 1 / 10
    ∧ spec_r [kMerA23CC] (K1 cfgTenthUnique (mkPair read29A read29C))
        (K2 cfgTenthUnique (mkPair read29A read29C)) = 0
    ∧ ¬ ((spec_f [kMerA23CC] (K1 cfgTenthUnique (mkPair read29A read29C))
              (K2 cfgTenthUnique (mkPair read29A read29C))
            ≥ cfgTenthUnique.positiveThreshold
          ∨ spec_r [kMerA23CC] (K1 cfgTenthUnique (mkPair read29A read29C))
              (K2 cfgTenthUnique (mkPair read29A read29C))
            ≥ cfgTenthUnique.positiveThreshold)
        ∨ ((spec_forwardUnique [kMerMixed] (K1 cfgTenthUnique (mkPair read29A read29C))
              (K2 cfgTenthUnique (mkPair read29A read29C)) : Nat) : Int)
            ≥ cfgTenthUnique.positiveUnique_threshold
        ∨ ((spec_reverseUnique [kMerMixed] (K1 cfgTenthUnique (mkPair read29A read29C))
              (K2 cfgTenthUnique (mkPair read29A read29C)) : Nat) : ℚ)
            ≥ cfgTenthUnique.positiveThreshold)
    ∧ pass_positive cfgTenthUnique [kMerA23CC] [kMerMixed] (mkPair read29A read29C)
        = true := by
  refine ⟨by decide, by decide, by decide!, by decide!, by decide!, by decide!, by decide!⟩

/-- C4, amended: with a positive filter configured and `positiveUnique` on, a pair passes
the positive test iff the fractional rule passes on the `double` quotients that the program
computes (`f ≥ positiveThreshold` or `r ≥ positiveThreshold`, with `f` and `r` the `double`
nearest to `fOK / T` and `rOK / T`, 0 when `T = 0`), or the forward uniqueness count of both
mates is at least `positiveUnique_threshold`, or the reverse uniqueness count of both mates
is at least `positiveThreshold`. In scenario S4 (k = 4, threshold 0.5, unique threshold 1,
both reads NNNNNNNN, empty positive set, no window in the uniqueness set) the pair is
dropped. -/
theorem C4_positive_unique_rescue (F : readFilter) (P U : List Str) (read : fastq_readPair)
    (hpos : apply_filter_positive F = true) (huniq : F.positiveUnique = true) :
    (pass_positive F P U read = true ↔
      ((computed_f P (K1 F read) (K2 F read) ≥ F.positiveThreshold
          ∨ computed_r P (K1 F read) (K2 F read) ≥ F.positiveThreshold)
        ∨ ((spec_forwardUnique U (K1 F read) (K2 F read) : Nat) : Int)
            ≥ F.positiveUnique_threshold
        ∨ ((spec_reverseUnique U (K1 F read) (K2 F read) : Nat) : ℚ)
            ≥ F.positiveThreshold))
    ∧ (∀ (U4 : List Str) (negative : Str → Bool), "NNNN".toList ∉ U4 →
        decisionFunction cfgS4 [] U4 negative
          (mkPair "NNNNNNNN".toList "NNNNNNNN".toList) = false) := by
  constructor
  · unfold pass_positive
    rw [if_pos hpos]
    have h := positiveCheck_iff F P U (K1 F read) (K2 F read)
    unfold K1 K2 at h ⊢
    rw [h]
    simp [huniq]
  · intro U4 negative hN
    have hK : partitionStringIntokMers "NNNNNNNN".toList 4
        = ["NNNN".toList, "NNNN".toList, "NNNN".toList, "NNNN".toList, "NNNN".toList] := by
      decide
    have hrc : seq_reverse_complement "NNNN".toList = "NNNN".toList := by decide
    have hp : pass_positive cfgS4 [] U4 (mkPair "NNNNNNNN".toList "NNNNNNNN".toList)
        = false := by
      rw [← Bool.not_eq_true]
      unfold pass_positive
      rw [if_pos (by decide)]
      rw [positiveCheck_iff]
      have e1 : (mkPair "NNNNNNNN".toList "NNNNNNNN".toList).a1.sequence
          = "NNNNNNNN".toList := rfl
      have e2 : (mkPair "NNNNNNNN".toList "NNNNNNNN".toList).a2.sequence
          = "NNNNNNNN".toList := rfl
      have ek : cfgS4.k = 4 := rfl
      have et : cfgS4.positiveThreshold = 1 / 2 := rfl
      have eu : cfgS4.positiveUnique_threshold = 1 := rfl
      have epu : cfgS4.positiveUnique = true := rfl
      rw [e1, e2, ek, et, eu, epu, hK]
      generalize "NNNN".toList = w at hN hrc ⊢
      simp [computed_f, computed_r, computed_fraction, double_div, double_round, spec_hits,
        spec_total, spec_forwardUnique, spec_reverseUnique, hrc, hN]
    unfold decisionFunction
    rw [hp]
    rfl

/-- Witness for C4 (amended) at scenario S4 with the uniqueness set {ACGT}. -/
theorem C4_positive_unique_rescue_witness :
    apply_filter_positive cfgS4 = true ∧ cfgS4.positiveUnique = true
    ∧ decisionFunction cfgS4 [] ["ACGT".toList] (fun _ => false)
        (mkPair "NNNNNNNN".toList "NNNNNNNN".toList) = false :=
  ⟨by decide, by decide,
    (C4_positive_unique_rescue cfgS4 [] ["ACGT".toList]
      (mkPair "NNNNNNNN".toList "NNNNNNNN".toList) (by decide) (by decide)).2
      ["ACGT".toList] (fun _ => false) (by decide)⟩

/-- C5, as stated, fails: with `negativePreserveUnique` on, unique threshold 1, the negative
threshold 0.3 (the `double` nearest to 3/10, which is smaller than 3/10), `k = 25`, no
positive filter, a negative index that holds exactly the 25-mer of A, the uniqueness set
that holds `kMerMixed`, and the pair of the reads `read29A` and `read29C`, the negativity
n = 3/10 is above the threshold and no window is in the uniqueness set in either
orientation, so none of the three conditions of the claim holds; but the pair passes the
negative test and is kept, because the `double` quotient 3.0 / 10.0 is the threshold
itself. -/
theorem C5_no_condition_holds_but_passes :
    apply_filter_negative cfgThreeTenthsPreserve = true
    ∧ cfgThreeTenthsPreserve.negativePreserveUnique = true
    ∧ cfgThreeTenthsPreserve.negativeThreshold = double_round (3 / 10)
    ∧ pass_positive cfgThreeTenthsPreserve [] [kMerMixed] (mkPair read29A read29C) = true
    ∧ spec_n negativeA25 (K1 cfgThreeTenthsPreserve (mkPair read29A read29C))
        (K2 cfgThreeTenthsPreserve (mkPair read29A read29C)) = 3 / 10
    ∧ ¬ (spec_n negativeA25 (K1 cfgThreeTenthsPreserve (mkPair read29A read29C))
            (K2 cfgThreeTenthsPreserve (mkPair read29A read29C))
          ≤ cfgThreeTenthsPreserve.negativeThreshold
        ∨ ((spec_forwardUnique [kMerMixed]
            (K1 cfgThreeTenthsPreserve (mkPair read29A read29C))
            (K2 cfgThreeTenthsPreserve (mkPair read29A read29C)) : Nat) : Int)
            ≥ cfgThreeTenthsPreserve.negativePreserveUnique_threshold
        ∨ ((spec_reverseUnique [kMerMixed]
            (K1 cfgThreeTenthsPreserve (mkPair read29A read29C))
            (K2 cfgThreeTenthsPreserve (mkPair read29A read29C)) : Nat) : Int)
            ≥ cfgThreeTenthsPreserve.negativePreserveUnique_threshold)
    ∧ pass_negative cfgThreeTenthsPreserve [kMerMixed] negativeA25
        (mkPair read29A read29C) = true
    ∧ decisionFunction cfgThreeTenthsPreserve [] [kMerMixed] negativeA25
        (mkPair read29A read29C) = true := by
  refine ⟨by decide, by decide, by decide!, by decide, by decide!, by decide!, by decide!,
    by decide!⟩

/-- C5, amended: with a negative filter configured and `negativePreserveUnique` on, the
negative test passes iff `n ≤ negativeThreshold`, with `n` the `double` nearest to `nOK / T`
that the program computes (1 when `T = 0`), or the forward uniqueness count of both mates is
at least `negativePreserveUnique_threshold`, or the reverse-complement uniqueness count of
both mates is at least `negativePreserveUnique_threshold`; a pair that passed the positive
test is kept exactly in that case. -/
theorem C5_negative_preserve_unique_rescue (F : readFilter) (P U : List Str)
    (negative : Str → Bool) (read : fastq_readPair)
    (hneg : apply_filter_negative F = true) (huniq : F.negativePreserveUnique = true) :
    (pass_negative F U negative read = true ↔
      (computed_n negative (K1 F read) (K2 F read) ≤ F.negativeThreshold
        ∨ ((spec_forwardUnique U (K1 F read) (K2 F read) : Nat) : Int)
            ≥ F.negativePreserveUnique_threshold
        ∨ ((spec_reverseUnique U (K1 F read) (K2 F read) : Nat) : Int)
            ≥ F.negativePreserveUnique_threshold))
    ∧ (pass_positive F P U read = true →
        (decisionFunction F P U negative read = true ↔
          (computed_n negative (K1 F read) (K2 F read) ≤ F.negativeThreshold
            ∨ ((spec_forwardUnique U (K1 F read) (K2 F read) : Nat) : Int)
                ≥ F.negativePreserveUnique_threshold
            ∨ ((spec_reverseUnique U (K1 F read) (K2 F read) : Nat) : Int)
                ≥ F.negativePreserveUnique_threshold))) := by
  have hN : pass_negative F U negative read = true ↔
      (computed_n negative (K1 F read) (K2 F read) ≤ F.negativeThreshold
        ∨ ((spec_forwardUnique U (K1 F read) (K2 F read) : Nat) : Int)
            ≥ F.negativePreserveUnique_threshold
        ∨ ((spec_reverseUnique U (K1 F read) (K2 F read) : Nat) : Int)
            ≥ F.negativePreserveUnique_threshold) := by
    unfold pass_negative
    have h := negativeCheck_iff F U negative (K1 F read) (K2 F read)
    unfold K1 K2 at h ⊢
    rw [h]
    simp [huniq]
  refine ⟨hN, ?_⟩
  intro hp
  rw [← hN]
  unfold decisionFunction
  simp [hp, hneg]

/-- Witness for C5 (amended): negative threshold 0.1, unique threshold 1; the pair ACGTACGT
/ TTTTTTTT has negativity 0.2 but one window in the uniqueness set {CGTA}, so it is kept. -/
theorem C5_negative_preserve_unique_rescue_witness :
    apply_filter_negative cfgPreserve = true ∧ cfgPreserve.negativePreserveUnique = true
    ∧ pass_positive cfgPreserve [] ["CGTA".toList]
        (mkPair "ACGTACGT".toList "TTTTTTTT".toList) = true
    ∧ decisionFunction cfgPreserve [] ["CGTA".toList] negativeS3
        (mkPair "ACGTACGT".toList "TTTTTTTT".toList) = true :=
  ⟨by decide, by decide, by decide,
    ((C5_negative_preserve_unique_rescue cfgPreserve [] ["CGTA".toList] negativeS3
      (mkPair "ACGTACGT".toList "TTTTTTTT".toList) (by decide) (by decide)).2
      (by decide)).mpr (Or.inr (Or.inl (by decide)))⟩

/-- C6, as stated, fails: in scenario S1 the decision function does not keep the pair whose
in-memory sequences are AAAACCCC and GGGGTTTT. -/
theorem C6_S1_kernel_pair_not_kept :
    ¬ (decisionFunction cfgS1 positiveS1 [] (fun _ => false)
        (mkPair "AAAACCCC".toList "GGGGTTTT".toList) = true) := by
  decide!

/-- C6, amended: in scenario S1 the decision function drops the pair whose in-memory
sequences are AAAACCCC and GGGGTTTT, because the forward and the reverse fraction are both
3/10, below the threshold 0.5; it keeps the pair whose in-memory mate 2 is the reverse
complement of GGGGTTTT (the pair obtained when GGGGTTTT is the mate-2 record of the input
file), whose forward fraction is 6/10. -/
theorem C6_S1_amended :
    decisionFunction cfgS1 positiveS1 [] (fun _ => false)
        (mkPair "AAAACCCC".toList "GGGGTTTT".toList) = false
    ∧ spec_f positiveS1 (K1 cfgS1 (mkPair "AAAACCCC".toList "GGGGTTTT".toList))
        (K2 cfgS1 (mkPair "AAAACCCC".toList "GGGGTTTT".toList)) = 3 / 10
    ∧ spec_r positiveS1 (K1 cfgS1 (mkPair "AAAACCCC".toList "GGGGTTTT".toList))
        (K2 cfgS1 (mkPair "AAAACCCC".toList "GGGGTTTT".toList)) = 3 / 10
    ∧ seq_reverse_complement "GGGGTTTT".toList = "AAAACCCC".toList
    ∧ decisionFunction cfgS1 positiveS1 [] (fun _ => false)
        (mkPair "AAAACCCC".toList (seq_reverse_complement "GGGGTTTT".toList)) = true
    ∧ spec_f positiveS1
        (K1 cfgS1 (mkPair "AAAACCCC".toList (seq_reverse_complement "GGGGTTTT".toList)))
        (K2 cfgS1 (mkPair "AAAACCCC".toList (seq_reverse_complement "GGGGTTTT".toList)))
        = 6 / 10 := by
  refine ⟨by decide!, by decide!, by decide!, by decide, by decide!, by decide!⟩

theorem partition_short (s : Str) (k : Nat) (h : s.length < k) :
    partitionStringIntokMers s k = [] := by
  unfold partitionStringIntokMers
  rw [if_pos h]

/-- C7: when both reads are shorter than `k`, both positive fractions are 0 and the negative
fraction is 1; with both unique flags off and thresholds in the range that `doFilter`
asserts (`0 ≤ positiveThreshold`, `negativeThreshold ≤ 1`), the pair is kept iff (no positive
filter is configured or `positiveThreshold = 0`) and (no negative filter is configured or
`negativeThreshold = 1`). -/
theorem C7_short_reads (F : readFilter) (P U : List Str) (negative : Str → Bool)
    (read : fastq_readPair)
    (h1 : read.a1.sequence.length < F.k) (h2 : read.a2.sequence.length < F.k)
    (hpu : F.positiveUnique = false) (hnu : F.negativePreserveUnique = false)
    (hp0 : 0 ≤ F.positiveThreshold) (hn1 : F.negativeThreshold ≤ 1) :
    K1 F read = [] ∧ K2 F read = []
    ∧ spec_f P (K1 F read) (K2 F read) = 0
    ∧ spec_r P (K1 F read) (K2 F read) = 0
    ∧ spec_n negative (K1 F read) (K2 F read) = 1
    ∧ (decisionFunction F P U negative read = true ↔
        ((apply_filter_positive F = false ∨ F.positiveThreshold = 0)
          ∧ (apply_filter_negative F = false ∨ F.negativeThreshold = 1))) := by
  have e1 : K1 F read = [] := partition_short _ _ h1
  have e2 : K2 F read = [] := partition_short _ _ h2
  have hf : spec_f P (K1 F read) (K2 F read) = 0 := by
    rw [e1, e2]; simp [spec_f, spec_fraction, spec_total]
  have hr : spec_r P (K1 F read) (K2 F read) = 0 := by
    rw [e1, e2]; simp [spec_r, spec_fraction, spec_total]
  have hn : spec_n negative (K1 F read) (K2 F read) = 1 := by
    rw [e1, e2]; simp [spec_n, spec_fraction, spec_total]
  refine ⟨e1, e2, hf, hr, hn, ?_⟩
  have cf : computed_f P (K1 F read) (K2 F read) = 0 := by
    rw [e1, e2]; simp [computed_f, computed_fraction, spec_total]
  have cr : computed_r P (K1 F read) (K2 F read) = 0 := by
    rw [e1, e2]; simp [computed_r, computed_fraction, spec_total]
  have cn : computed_n negative (K1 F read) (K2 F read) = 1 := by
    rw [e1, e2]; simp [computed_n, computed_fraction, spec_total]
  rw [decisionFunction_iff F P U negative read]
  rw [positiveCheck_iff, negativeCheck_iff, cf, cr, cn]
  simp only [hpu, hnu, Bool.false_eq_true, false_and, or_false, or_self, ge_iff_le]
  have hP : F.positiveThreshold ≤ 0 ↔ F.positiveThreshold = 0 :=
    ⟨fun h => le_antisymm h hp0, fun h => le_of_eq h⟩
  have hNg : 1 ≤ F.negativeThreshold ↔ F.negativeThreshold = 1 :=
    ⟨fun h => le_antisymm hn1 h, fun h => le_of_eq h.symm⟩
  rw [hP, hNg]

/-- Witness for C7: `k = 4`, reads ACG and TT, positive threshold 0 and no negative filter;
the pair is kept. -/
theorem C7_short_reads_witness :
    (mkPair "ACG".toList "TT".toList).a1.sequence.length
        < (mkConfig "positive.txt".toList [] 0 0).k
    ∧ (mkPair "ACG".toList "TT".toList).a2.sequence.length
        < (mkConfig "positive.txt".toList [] 0 0).k
    ∧ decisionFunction (mkConfig "positive.txt".toList [] 0 0) positiveS1 []
        (fun _ => false) (mkPair "ACG".toList "TT".toList) = true :=
  ⟨by decide, by decide,
    (C7_short_reads (mkConfig "positive.txt".toList [] 0 0) positiveS1 []
      (fun _ => false) (mkPair "ACG".toList "TT".toList)
      (by decide) (by decide) rfl rfl (le_refl (0 : ℚ)) zero_le_one).2.2.2.2.2.mpr
      ⟨Or.inr rfl, Or.inl (by decide)⟩⟩

/-! ## The uniqueness set: claim C8 -/

theorem set_successor_append (pre rest : List Str) (x : Str) (hx : x ∉ pre) :
    set_successor (pre ++ x :: rest) x = set_begin rest := by
  induction pre with
  | nil => simp [set_successor]
  | cons y ys ih =>
    have hy : y ≠ x := fun e => hx (by rw [e]; exact List.mem_cons_self _ _)
    have hys : x ∉ ys := fun h => hx (List.mem_cons_of_mem _ h)
    simp [set_successor, hy, ih hys]

theorem subtractLoop_suffix (g : Str → Bool) (rest : List Str) :
    ∀ pre : List Str, (pre ++ rest).Nodup →
      subtractLoop g (rest.length + 1) (pre ++ rest) (set_begin rest)
        = if rest.any g then LoopOutcome.undefinedBehaviour
          else LoopOutcome.finished (pre ++ rest) := by
  induction rest with
  | nil =>
    intro pre _
    simp [subtractLoop, set_begin]
  | cons x rest ih =>
    intro pre hnd
    have hx : x ∉ pre := by
      intro hmem
      have := List.nodup_append.mp hnd
      exact this.2.2 hmem (List.mem_cons_self _ _) 
    cases hg : g x with
    | true =>
      simp [subtractLoop, set_begin, hg, set_erase, set_increment]
    | false =>
      have hnd2 : ((pre ++ [x]) ++ rest).Nodup := by
        rw [List.append_assoc]; exact hnd
      have h := ih (pre ++ [x]) hnd2
      rw [List.append_assoc] at h
      simp only [List.singleton_append] at h
      simp only [subtractLoop, set_begin, hg, set_increment, List.length_cons, List.any_cons,
        Bool.false_or, Bool.false_eq_true, if_false]
      rw [set_successor_append pre rest x hx]
      exact h

theorem subtract_unique_kMers_eq (g : Str → Bool) (base : List Str) (hnd : base.Nodup) :
    subtract_unique_kMers g base
      = if base.any g then LoopOutcome.undefinedBehaviour else LoopOutcome.finished base := by
  unfold subtract_unique_kMers
  exact subtractLoop_suffix g base [] hnd

/-- C8 (failing input): the uniqueness base holds the two 25-mers AAAAAAAAAAAAAAAAAAAAAAAAA
and ACGTACGTACGTACGTACGTACGTA, and the subtract graph contains the second. The claim
requires the loop to end with the set {AAAAAAAAAAAAAAAAAAAAAAAAA}; the loop erases the
member its iterator designates and then increments that iterator, which is undefined. -/
theorem C8_subtraction_loop_undefined_on_hit :
    subtract_unique_kMers (fun x => decide (x = "ACGTACGTACGTACGTACGTACGTA".toList))
        ["AAAAAAAAAAAAAAAAAAAAAAAAA".toList, "ACGTACGTACGTACGTACGTACGTA".toList]
      = LoopOutcome.undefinedBehaviour
    ∧ subtract_unique_kMers (fun x => decide (x = "ACGTACGTACGTACGTACGTACGTA".toList))
        ["AAAAAAAAAAAAAAAAAAAAAAAAA".toList, "ACGTACGTACGTACGTACGTACGTA".toList]
      ≠ LoopOutcome.finished
          (["AAAAAAAAAAAAAAAAAAAAAAAAA".toList, "ACGTACGTACGTACGTACGTACGTA".toList].filter
            (fun x => !decide (x = "ACGTACGTACGTACGTACGTACGTA".toList))) := by
  constructor
  · decide
  · decide

/-! ## Loading k-mer files: claims C9 and C10 -/

theorem mem_set_insert (s : List Str) (x y : Str) :
    y ∈ set_insert s x ↔ y = x ∨ y ∈ s := by
  unfold set_insert
  by_cases h : x ∈ s
  · rw [if_pos h]
    constructor
    · intro hy; exact Or.inr hy
    · rintro (rfl | hy)
      · exact h
      · exact hy
  · rw [if_neg h]
    rw [(List.perm_orderedInsert _ x s).mem_iff]
    simp

theorem nodup_set_insert (s : List Str) (x : Str) (hs : s.Nodup) :
    (set_insert s x).Nodup := by
  unfold set_insert
  by_cases h : x ∈ s
  · rw [if_pos h]; exact hs
  · rw [if_neg h]
    rw [(List.perm_orderedInsert _ x s).nodup_iff]
    exact List.nodup_cons.mpr ⟨h, hs⟩

theorem loadLoop_ok (F : readFilter) (stream : List Str) :
    ∀ (line_number : Nat) (acc : List Str),
      (∀ raw ∈ stream, eraseNL raw ≠ [] → (eraseNL raw).length = F.k) →
      ∃ S, loadLoop F stream line_number acc = Except.ok S
        ∧ (∀ x, x ∈ S ↔ (x ∈ acc ∨ (x ≠ [] ∧ ∃ raw ∈ stream, eraseNL raw = x)))
        ∧ (acc.Nodup → S.Nodup) := by
  induction stream with
  | nil =>
    intro n acc _
    exact ⟨acc, rfl, by simp, id⟩
  | cons raw rest ih =>
    intro n acc h
    have hrest : ∀ r ∈ rest, eraseNL r ≠ [] → (eraseNL r).length = F.k :=
      fun r hr => h r (List.mem_cons_of_mem _ hr)
    unfold loadLoop
    by_cases hb : (eraseNL raw).length = 0
    · simp only [hb, if_true]
      obtain ⟨S, hS, hmem, hnd⟩ := ih (n + 1) acc hrest
      refine ⟨S, hS, ?_, hnd⟩
      intro x
      rw [hmem x]
      have hnil : eraseNL raw = [] := List.length_eq_zero.mp hb
      constructor
      · rintro (hx | ⟨hx, r, hr, e⟩)
        · exact Or.inl hx
        · exact Or.inr ⟨hx, r, List.mem_cons_of_mem _ hr, e⟩
      · rintro (hx | ⟨hx, r, hr, e⟩)
        · exact Or.inl hx
        · rcases List.mem_cons.mp hr with rfl | hr
          · exact absurd (e.symm.trans hnil) hx
          · exact Or.inr ⟨hx, r, hr, e⟩
    · have hne : eraseNL raw ≠ [] := fun e => hb (by rw [e]; rfl)
      have hk : (eraseNL raw).length = F.k := h raw (List.mem_cons_self _ _) hne
      simp only [hb, if_false]
      simp only [hk, ne_eq, not_true_eq_false, if_false]
      obtain ⟨S, hS, hmem, hnd⟩ := ih (n + 1) (set_insert acc (eraseNL raw)) hrest
      refine ⟨S, hS, ?_, fun hacc => hnd (nodup_set_insert _ _ hacc)⟩
      intro x
      rw [hmem x, mem_set_insert]
      constructor
      · rintro ((rfl | hx) | ⟨hx, r, hr, e⟩)
        · exact Or.inr ⟨hne, raw, List.mem_cons_self _ _, rfl⟩
        · exact Or.inl hx
        · exact Or.inr ⟨hx, r, List.mem_cons_of_mem _ hr, e⟩
      · rintro (hx | ⟨hx, r, hr, e⟩)
        · exact Or.inl (Or.inr hx)
        · rcases List.mem_cons.mp hr with rfl | hr
          · exact Or.inl (Or.inl e.symm)
          · exact Or.inr ⟨hx, r, hr, e⟩

theorem loadLoop_error (F : readFilter) (pre : List Str) (bad : Str) (post : List Str) :
    ∀ (line_number : Nat) (acc : List Str),
      (∀ raw ∈ pre, eraseNL raw ≠ [] → (eraseNL raw).length = F.k) →
      eraseNL bad ≠ [] → (eraseNL bad).length ≠ F.k →
      loadLoop F (pre ++ bad :: post) line_number acc
        = Except.error (wrongLengthMessage F (eraseNL bad).length
            (line_number + pre.length + 1)) := by
  induction pre with
  | nil =>
    intro n acc _ hne hlen
    have hb : ¬ (eraseNL bad).length = 0 := fun e => hne (List.length_eq_zero.mp e)
    simp [loadLoop, hb, hlen]
  | cons raw rest ih =>
    intro n acc h hne hlen
    have hrest : ∀ r ∈ rest, eraseNL r ≠ [] → (eraseNL r).length = F.k :=
      fun r hr => h r (List.mem_cons_of_mem _ hr)
    rw [List.cons_append]
    unfold loadLoop
    by_cases hb : (eraseNL raw).length = 0
    · simp only [hb, if_true]
      rw [ih (n + 1) acc hrest hne hlen]
      have e : n + 1 + rest.length + 1 = n + (raw :: rest).length + 1 := by
        simp only [List.length_cons]; omega
      rw [e]
    · have hne2 : eraseNL raw ≠ [] := fun e => hb (by rw [e]; rfl)
      have hk : (eraseNL raw).length = F.k := h raw (List.mem_cons_self _ _) hne2
      simp only [hb, if_false]
      simp only [hk, ne_eq, not_true_eq_false, if_false]
      rw [ih (n + 1) _ hrest hne hlen]
      have e : n + 1 + rest.length + 1 = n + (raw :: rest).length + 1 := by
        simp only [List.length_cons]; omega
      rw [e]

theorem exists_first_offending_line (F : readFilter) (l : List Str)
    (hall : ¬ ∀ raw ∈ l, eraseNL raw ≠ [] → (eraseNL raw).length = F.k) :
    ∃ pre bad post, l = pre ++ bad :: post
      ∧ (∀ raw ∈ pre, eraseNL raw ≠ [] → (eraseNL raw).length = F.k)
      ∧ eraseNL bad ≠ [] ∧ (eraseNL bad).length ≠ F.k := by
  induction l with
  | nil => exact absurd (fun raw hr => absurd hr (List.not_mem_nil raw)) hall
  | cons b l2 ih2 =>
    by_cases hb : eraseNL b ≠ [] ∧ (eraseNL b).length ≠ F.k
    · exact ⟨[], b, l2, rfl, (fun raw hr => absurd hr (List.not_mem_nil raw)), hb.1, hb.2⟩
    · have hl2 : ¬ ∀ raw ∈ l2, eraseNL raw ≠ [] → (eraseNL raw).length = F.k := by
        intro hh
        apply hall
        intro raw hr hne
        rcases List.mem_cons.mp hr with rfl | hr
        · by_contra hk
          exact hb ⟨hne, hk⟩
        · exact hh raw hr hne
      obtain ⟨pre, bad, post, e, hpre, hne, hk⟩ := ih2 hl2
      refine ⟨b :: pre, bad, post, by rw [e]; rfl, ?_, hne, hk⟩
      intro raw hr hne2
      rcases List.mem_cons.mp hr with rfl | hr
      · by_contra hk2
        exact hb ⟨hne2, hk2⟩
      · exact hpre raw hr hne2

theorem load_fails_iff (F : readFilter) (fs : Str → Option (List Str)) (file : Str)
    (stream : List Str) (hopen : fs file = some stream) :
    (∃ msg, load_positive_kMers_file F fs file = Except.error msg) ↔
      ∃ raw ∈ stream, eraseNL raw ≠ [] ∧ (eraseNL raw).length ≠ F.k := by
  unfold load_positive_kMers_file
  rw [hopen]
  constructor
  · rintro ⟨msg, hmsg⟩
    by_contra hno
    have hall : ∀ raw ∈ stream, eraseNL raw ≠ [] → (eraseNL raw).length = F.k := by
      intro raw hr hne
      by_contra hk
      exact hno ⟨raw, hr, hne, hk⟩
    obtain ⟨S, hS, _⟩ := loadLoop_ok F stream 0 [] hall
    simp only at hmsg
    rw [hS] at hmsg
    cases hmsg
  · intro hex
    have hall : ¬ ∀ raw ∈ stream, eraseNL raw ≠ [] → (eraseNL raw).length = F.k := by
      intro hall
      obtain ⟨raw, hr, hne, hk⟩ := hex
      exact hk (hall raw hr hne)
    obtain ⟨pre, bad, post, e, hpre, hne, hk⟩ := exists_first_offending_line F stream hall
    rw [e]
    exact ⟨_, loadLoop_error F pre bad post 0 [] hpre hne hk⟩

/-- C9 (failing input): `k = 4`, positive filter `positive.txt`, uniqueness base `base.txt`
whose second line ACG has length 3. Loading `base.txt` fails with a message that gives the
line number 2 but names `positive.txt`; the name `base.txt` does not occur in it. -/
theorem C9_uniqueness_base_error_names_positive_filter :
    load_positive_kMers_file cfgS4
        (fun file =>
          if file = "base.txt".toList then some ["ACGT".toList, "ACG".toList, []]
          else if file = "positive.txt".toList then some ["AAAA".toList, []]
          else none)
        cfgS4.uniqueness_base
      = Except.error ("readFilter::doFilter(): Expect kMers of length 4, but positive.txt"
          ++ " contains one of length 3 (line 2 ).").toList
    ∧ ¬ ("base.txt".toList <:+:
          ("readFilter::doFilter(): Expect kMers of length 4, but positive.txt"
            ++ " contains one of length 3 (line 2 ).").toList) := by
  constructor
  · rfl
  · decide!

/-- C10: when every non-blank line of the file has length `k`, `load_positive_kMers_file`
succeeds; the returned set has no duplicates, its members are exactly the non-blank lines
of the file, and every member has length `k`. -/
theorem C10_load_returns_distinct_nonblank_lines (F : readFilter)
    (fs : Str → Option (List Str)) (file : Str) (stream : List Str)
    (hopen : fs file = some stream)
    (hlen : ∀ raw ∈ stream, eraseNL raw ≠ [] → (eraseNL raw).length = F.k) :
    ∃ S, load_positive_kMers_file F fs file = Except.ok S
      ∧ (∀ x, x ∈ S ↔ (x ≠ [] ∧ ∃ raw ∈ stream, eraseNL raw = x))
      ∧ S.Nodup
      ∧ ∀ x ∈ S, x.length = F.k := by
  obtain ⟨S, hS, hmem, hnd⟩ := loadLoop_ok F stream 0 [] hlen
  have hmem2 : ∀ x, x ∈ S ↔ (x ≠ [] ∧ ∃ raw ∈ stream, eraseNL raw = x) := by
    intro x
    rw [hmem x]
    simp
  refine ⟨S, ?_, hmem2, hnd List.nodup_nil, ?_⟩
  · unfold load_positive_kMers_file
    rw [hopen]
    exact hS
  · intro x hx
    obtain ⟨hne, raw, hr, e⟩ := (hmem2 x).mp hx
    subst e
    exact hlen raw hr hne

/-- Witness for C10: the file with the lines AAAA, (blank), CCCC, AAAA, (blank) and `k = 4`
loads to the set {AAAA, CCCC}. -/
theorem C10_load_returns_distinct_nonblank_lines_witness :
    (∀ raw ∈ ["AAAA".toList, [], "CCCC".toList, "AAAA".toList, []],
        eraseNL raw ≠ [] → (eraseNL raw).length = cfgS1.k)
    ∧ load_positive_kMers_file cfgS1
        (fun _ => some ["AAAA".toList, [], "CCCC".toList, "AAAA".toList, []])
        "positive.txt".toList = Except.ok ["AAAA".toList, "CCCC".toList]
    ∧ ∃ S, load_positive_kMers_file cfgS1
          (fun _ => some ["AAAA".toList, [], "CCCC".toList, "AAAA".toList, []])
          "positive.txt".toList = Except.ok S
        ∧ (∀ x, x ∈ S ↔ (x ≠ [] ∧
            ∃ raw ∈ ["AAAA".toList, [], "CCCC".toList, "AAAA".toList, []], eraseNL raw = x))
        ∧ S.Nodup
        ∧ ∀ x ∈ S, x.length = cfgS1.k :=
  ⟨by decide, rfl,
    C10_load_returns_distinct_nonblank_lines cfgS1
      (fun _ => some ["AAAA".toList, [], "CCCC".toList, "AAAA".toList, []])
      "positive.txt".toList ["AAAA".toList, [], "CCCC".toList, "AAAA".toList, []]
      rfl (by decide)⟩

/-! ## Validation of the input mode: claim C11 -/

/-- C11: `doFilter` fails with an error whenever both `input_BAM` and `input_FASTQ` are set
and whenever neither is set; it passes the validation only when exactly one of the two is
set. With a filter configured, the error is the one of the input-mode checks, and exactly
one input set is also sufficient to pass. -/
theorem C11_input_mode_validation (F : readFilter) :
    ((F.input_BAM.length ≠ 0 ∧ F.input_FASTQ.length ≠ 0) →
        ∃ msg, doFilter_validate F = Except.error msg)
    ∧ ((F.input_BAM.length = 0 ∧ F.input_FASTQ.length = 0) →
        ∃ msg, doFilter_validate F = Except.error msg)
    ∧ (doFilter_validate F = Except.ok () →
        ((F.input_BAM.length ≠ 0 ∧ F.input_FASTQ.length = 0)
          ∨ (F.input_BAM.length = 0 ∧ F.input_FASTQ.length ≠ 0)))
    ∧ ((F.positiveFilter.length ≠ 0 ∨ F.negativeFilter.length ≠ 0) →
        ((F.input_BAM.length ≠ 0 ∧ F.input_FASTQ.length ≠ 0) →
            doFilter_validate F = Except.error
              "Both input BAM and input FASTQ set - can't deal with that.".toList)
        ∧ ((F.input_BAM.length = 0 ∧ F.input_FASTQ.length = 0) →
            doFilter_validate F = Except.error
              "Please specify either input BAM or input FASTQ.".toList)
        ∧ (((F.input_BAM.length ≠ 0 ∧ F.input_FASTQ.length = 0)
              ∨ (F.input_BAM.length = 0 ∧ F.input_FASTQ.length ≠ 0)) →
            doFilter_validate F = Except.ok ())) := by
  have hboth : (F.input_BAM.length ≠ 0 ∧ F.input_FASTQ.length ≠ 0) →
      ∃ msg, doFilter_validate F = Except.error msg := by
    rintro ⟨hb, hq⟩
    unfold doFilter_validate
    by_cases h1 : ¬ (F.positiveFilter.length ≠ 0 ∨ F.negativeFilter.length ≠ 0)
    · rw [if_pos h1]; exact ⟨_, rfl⟩
    · rw [if_neg h1, if_neg (not_not.mpr (Or.inl hb)), if_pos ⟨hb, hq⟩]; exact ⟨_, rfl⟩
  have hneither : (F.input_BAM.length = 0 ∧ F.input_FASTQ.length = 0) →
      ∃ msg, doFilter_validate F = Except.error msg := by
    rintro ⟨hb, hq⟩
    unfold doFilter_validate
    by_cases h1 : ¬ (F.positiveFilter.length ≠ 0 ∨ F.negativeFilter.length ≠ 0)
    · rw [if_pos h1]; exact ⟨_, rfl⟩
    · rw [if_neg h1, if_pos (not_or.mpr ⟨not_not.mpr hb, not_not.mpr hq⟩)]; exact ⟨_, rfl⟩
  refine ⟨hboth, hneither, ?_, ?_⟩
  · intro hok
    by_cases hb : F.input_BAM.length = 0 <;> by_cases hq : F.input_FASTQ.length = 0
    · obtain ⟨msg, hmsg⟩ := hneither ⟨hb, hq⟩
      rw [hmsg] at hok
      cases hok
    · exact Or.inr ⟨hb, hq⟩
    · exact Or.inl ⟨hb, hq⟩
    · obtain ⟨msg, hmsg⟩ := hboth ⟨hb, hq⟩
      rw [hmsg] at hok
      cases hok
  · intro hf
    unfold doFilter_validate
    rw [if_neg (not_not.mpr hf)]
    refine ⟨?_, ?_, ?_⟩
    · rintro ⟨hb, hq⟩
      rw [if_neg (not_not.mpr (Or.inl hb)), if_pos ⟨hb, hq⟩]
    · rintro ⟨hb, hq⟩
      rw [if_pos (not_or.mpr ⟨not_not.mpr hb, not_not.mpr hq⟩)]
    · rintro (⟨hb, hq⟩ | ⟨hb, hq⟩)
      · rw [if_neg (not_not.mpr (Or.inl hb)), if_neg (fun h => h.2 hq)]
      · rw [if_neg (not_not.mpr (Or.inr hq)), if_neg (fun h => h.1 hb)]

/-! ## Text-paired mode: claims C12 to C17 -/

theorem filterFastQPairs_body_eq (decide : fastq_readPair → Bool) (read1 read2 : FastQRecord)
    (trace : List Event) :
    filterFastQPairs_body decide read1 read2 trace =
      if endsInMateSuffix read1.readID ∧ endsInMateSuffix read2.readID then
        if withoutLastTwo read1.readID ≠ withoutLastTwo read2.readID then
          Except.error (trace ++ [Event.warning (idMismatchWarning read1.readID read2.readID)])
        else Except.ok (trace ++ pairEvents decide (ingestPair read1 read2))
      else Except.error trace := by
  have hpair : ((fastq_readPair.empty.takeAlignment
        { readID := read1.readID, sequence := read1.sequence, qualities := read1.qualities }
        1).2.takeAlignment
        { readID := read2.readID, sequence := seq_reverse_complement read2.sequence,
          qualities := read2.qualities.reverse } 2) = (true, ingestPair read1 read2) := rfl
  have h1 : (fastq_readPair.empty.takeAlignment
        { readID := read1.readID, sequence := read1.sequence, qualities := read1.qualities }
        1).1 = true := rfl
  have hc : (ingestPair read1 read2).isComplete = true := rfl
  unfold filterFastQPairs_body
  simp only [h1, hpair, hc, Bool.true_eq_false, if_false]
  have hs : ∀ (readID end0 : Str), lastTwo readID = some end0 →
      (endsInMateSuffix readID ↔ (end0 = "/1".toList ∨ end0 = "/2".toList)) := by
    intro readID end0 h
    unfold endsInMateSuffix
    rw [h]
    simp only [Option.some.injEq]
  have hn : ∀ (readID : Str), lastTwo readID = none → ¬ endsInMateSuffix readID := by
    intro readID h
    unfold endsInMateSuffix
    rw [h]
    simp
  split
  · next heq => rw [if_neg (fun h => hn _ heq h.1)]
  · next end1 heq1 =>
    by_cases c1 : end1 = "/1".toList ∨ end1 = "/2".toList
    · have e1 : endsInMateSuffix read1.readID := (hs _ _ heq1).mpr c1
      rw [if_neg (not_not.mpr c1)]
      split
      · next heq2 => rw [if_neg (fun h => hn _ heq2 h.2)]
      · next end2 heq2 =>
        by_cases c2 : end2 = "/1".toList ∨ end2 = "/2".toList
        · have e2 : endsInMateSuffix read2.readID := (hs _ _ heq2).mpr c2
          simp only [c2, e1, e2, not_true_eq_false, if_false, and_self, if_true]
          by_cases c3 : withoutLastTwo read1.readID = withoutLastTwo read2.readID
          · simp only [c3, ne_eq, not_true_eq_false, if_false]
            unfold pairEvents
            cases decide (ingestPair read1 read2) <;> rfl
          · simp only [c3, ne_eq, not_false_eq_true, if_true]
        · have e2 : ¬ endsInMateSuffix read2.readID := fun h => c2 ((hs _ _ heq2).mp h)
          simp only [c2, e2, not_false_eq_true, if_true, and_false, if_false]
    · have e1 : ¬ endsInMateSuffix read1.readID := fun h => c1 ((hs _ _ heq1).mp h)
      simp only [c1, e1, not_false_eq_true, if_true, false_and, if_false]

theorem decidedPairs_append (t1 t2 : List Event) :
    decidedPairs (t1 ++ t2) = decidedPairs t1 ++ decidedPairs t2 := by
  induction t1 with
  | nil => rfl
  | cons e rest ih => cases e <;> simp [decidedPairs, ih]

theorem printedPairs_append (t1 t2 : List Event) :
    printedPairs (t1 ++ t2) = printedPairs t1 ++ printedPairs t2 := by
  induction t1 with
  | nil => rfl
  | cons e rest ih => cases e <;> simp [printedPairs, ih]

theorem decidedPairs_pairEvents (decide : fastq_readPair → Bool) (read : fastq_readPair) :
    decidedPairs (pairEvents decide read) = [read] := by
  unfold pairEvents
  cases decide read <;> rfl

theorem printedPairs_pairEvents (decide : fastq_readPair → Bool) (read : fastq_readPair) :
    printedPairs (pairEvents decide read) = [read].filter decide := by
  unfold pairEvents
  cases h : decide read <;> simp [printedPairs, h]

/-- C13: the body of the loop continues iff both ids end in a mate suffix and the ids
without their last two characters are equal, and aborts otherwise; when both ids end in a
mate suffix and the stripped ids differ, the warning naming both ids is written before the
abort; an abort adds no call of the decision predicate or of the print sink. Records with
the ids @r1/1 and @r2/2 give the warning and the abort. -/
theorem C13_mate_id_checks (decide : fastq_readPair → Bool) (read1 read2 : FastQRecord)
    (trace : List Event) :
    ((∃ tr, filterFastQPairs_body decide read1 read2 trace = Except.ok tr) ↔
        (endsInMateSuffix read1.readID ∧ endsInMateSuffix read2.readID
          ∧ withoutLastTwo read1.readID = withoutLastTwo read2.readID))
    ∧ ((endsInMateSuffix read1.readID ∧ endsInMateSuffix read2.readID
          ∧ withoutLastTwo read1.readID ≠ withoutLastTwo read2.readID) →
        filterFastQPairs_body decide read1 read2 trace
          = Except.error
              (trace ++ [Event.warning
                ("Warning: read IDs don't match! ".toList ++ read1.readID ++ " vs ".toList
                  ++ read2.readID ++ "\n".toList)]))
    ∧ (∀ tr, filterFastQPairs_body decide read1 read2 trace = Except.error tr →
        decidedPairs tr = decidedPairs trace ∧ printedPairs tr = printedPairs trace)
    ∧ filterFastQPairs decide
        (streamOfLines (recordLines (mkRecord "@r1/1".toList)))
        (streamOfLines (recordLines (mkRecord "@r2/2".toList)))
      = FastQRun.aborted
          [Event.warning "Warning: read IDs don't match! @r1/1 vs @r2/2\n".toList] := by
  rw [filterFastQPairs_body_eq]
  refine ⟨?_, ?_, ?_, ?_⟩
  · constructor
    · rintro ⟨tr, h⟩
      by_cases c : endsInMateSuffix read1.readID ∧ endsInMateSuffix read2.readID
      · rw [if_pos c] at h
        by_cases c3 : withoutLastTwo read1.readID = withoutLastTwo read2.readID
        · exact ⟨c.1, c.2, c3⟩
        · rw [if_pos c3] at h
          cases h
      · rw [if_neg c] at h
        cases h
    · rintro ⟨c1, c2, c3⟩
      rw [if_pos ⟨c1, c2⟩, if_neg (not_not.mpr c3)]
      exact ⟨_, rfl⟩
  · rintro ⟨c1, c2, c3⟩
    rw [if_pos ⟨c1, c2⟩, if_pos c3]
    rfl
  · intro tr h
    by_cases c : endsInMateSuffix read1.readID ∧ endsInMateSuffix read2.readID
    · rw [if_pos c] at h
      by_cases c3 : withoutLastTwo read1.readID = withoutLastTwo read2.readID
      · rw [if_neg (not_not.mpr c3)] at h
        cases h
      · rw [if_pos c3] at h
        cases h
        simp [decidedPairs_append, printedPairs_append, decidedPairs, printedPairs]
    · rw [if_neg c] at h
      cases h
      exact ⟨rfl, rfl⟩
  · rfl

theorem lastTwo_append (base x : Str) (hx : x.length = 2) : lastTwo (base ++ x) = some x := by
  unfold lastTwo
  have hlen : (base ++ x).length = base.length + 2 := by rw [List.length_append, hx]
  rw [if_neg (by omega), hlen]
  simp

theorem withoutLastTwo_append (base x : Str) (hx : x.length = 2) :
    withoutLastTwo (base ++ x) = base := by
  unfold withoutLastTwo
  have hlen : (base ++ x).length = base.length + 2 := by rw [List.length_append, hx]
  rw [if_neg (by omega), hlen]
  simp

theorem endsInMateSuffix_append (base x : Str) (hx : x = "/1".toList ∨ x = "/2".toList) :
    endsInMateSuffix (base ++ x) := by
  unfold endsInMateSuffix
  rcases hx with rfl | rfl
  · exact Or.inl (lastTwo_append _ _ rfl)
  · exact Or.inr (lastTwo_append _ _ rfl)

/-- C14, as stated, fails: a record of the first file whose id ends in /2 (paired with a
record of the second file whose id ends in /1) is accepted and handed to the decision
predicate and the print sink; the run ends normally. -/
theorem C14_file1_suffix_2_is_accepted :
    filterFastQPairs (fun _ => true)
        (streamOfLines (recordLines (mkRecord "@r/2".toList)))
        (streamOfLines (recordLines (mkRecord "@r/1".toList)))
      = FastQRun.finished
          [Event.decideCall (ingestPair (mkRecord "@r/2".toList) (mkRecord "@r/1".toList)),
           Event.printCall (ingestPair (mkRecord "@r/2".toList) (mkRecord "@r/1".toList))]
    ∧ endsInMateSuffix (mkRecord "@r/2".toList).readID
    ∧ lastTwo (mkRecord "@r/2".toList).readID = some "/2".toList := by
  refine ⟨by decide, by decide, by decide⟩

/-- C14, amended: a record id is accepted in the first file and in the second file alike
when it ends in /1 or in /2 (all four combinations pass the assertions), and a pair of
records is accepted iff in addition the ids agree before the suffix; a record whose id does
not end in /1 or /2 is not accepted in either file. -/
theorem C14_either_suffix_in_both_files (decide : fastq_readPair → Bool)
    (base1 base2 x y : Str) (sequence1 qualities1 sequence2 qualities2 : Str)
    (trace : List Event)
    (hx : x = "/1".toList ∨ x = "/2".toList) (hy : y = "/1".toList ∨ y = "/2".toList) :
    ((∃ tr, filterFastQPairs_body decide
          { readID := base1 ++ x, sequence := sequence1, qualities := qualities1 }
          { readID := base2 ++ y, sequence := sequence2, qualities := qualities2 } trace
          = Except.ok tr) ↔ base1 = base2)
    ∧ (∀ read1 read2 : FastQRecord,
        (¬ endsInMateSuffix read1.readID ∨ ¬ endsInMateSuffix read2.readID) →
        filterFastQPairs_body decide read1 read2 trace = Except.error trace) := by
  have hx2 : x.length = 2 := by rcases hx with rfl | rfl <;> rfl
  have hy2 : y.length = 2 := by rcases hy with rfl | rfl <;> rfl
  constructor
  · rw [filterFastQPairs_body_eq]
    simp only []
    rw [if_pos ⟨endsInMateSuffix_append base1 x hx, endsInMateSuffix_append base2 y hy⟩,
      withoutLastTwo_append base1 x hx2, withoutLastTwo_append base2 y hy2]
    by_cases hb : base1 = base2
    · rw [if_neg (not_not.mpr hb)]
      exact ⟨fun _ => hb, fun _ => ⟨_, rfl⟩⟩
    · rw [if_pos hb]
      constructor
      · rintro ⟨tr, h⟩
        cases h
      · intro h
        exact absurd h hb
  · intro read1 read2 h
    rw [filterFastQPairs_body_eq, if_neg]
    rintro ⟨h1, h2⟩
    rcases h with h | h
    · exact h h1
    · exact h h2

/-- Witness for C14 (amended): the ids @r/2 in the first file and @r/1 in the second file
are accepted as a pair. -/
theorem C14_either_suffix_in_both_files_witness :
    ("/2".toList = "/1".toList ∨ "/2".toList = "/2".toList)
    ∧ ("/1".toList = "/1".toList ∨ "/1".toList = "/2".toList)
    ∧ ∃ tr, filterFastQPairs_body (fun _ => true)
        { readID := "@r".toList ++ "/2".toList, sequence := "ACGT".toList,
          qualities := "IIII".toList }
        { readID := "@r".toList ++ "/1".toList, sequence := "ACGT".toList,
          qualities := "IIII".toList } []
        = Except.ok tr :=
  ⟨Or.inr rfl, Or.inl rfl,
    ((C14_either_suffix_in_both_files (fun _ => true) "@r".toList "@r".toList "/2".toList
      "/1".toList "ACGT".toList "IIII".toList "ACGT".toList "IIII".toList []
      (Or.inr rfl) (Or.inl rfl)).1).mpr rfl⟩

theorem getReadFromFastQ_four (l1 l2 l3 l4 : Str) (rest : List Str) :
    getReadFromFastQ (l1 :: l2 :: l3 :: l4 :: rest) =
      if eraseNL l3 = "+".toList ∧ (eraseNL l2).length = (eraseNL l4).length then
        some ({ readID := eraseNL l1, sequence := eraseNL l2, qualities := eraseNL l4 }, rest)
      else none := by
  have hx : getReadFromFastQ (l1 :: l2 :: l3 :: l4 :: rest) =
      (if ¬ (eraseNL l3 = "+".toList) then none
       else if ¬ ((eraseNL l2).length = (eraseNL l4).length) then none
       else some
        ({ readID := eraseNL l1, sequence := eraseNL l2, qualities := eraseNL l4 }, rest)) := by
    unfold getReadFromFastQ getLinesFromFastQ
    rw [if_neg (List.cons_ne_nil _ _), if_neg (by decide)]
    simp only [getLinesLoop, List.getD_cons_zero, List.getD_cons_succ, List.length_cons,
      List.length_nil]
    rw [if_pos trivial]
  rw [hx]
  by_cases h3 : eraseNL l3 = "+".toList
  · by_cases h24 : (eraseNL l2).length = (eraseNL l4).length
    · rw [if_neg (not_not.mpr h3), if_neg (not_not.mpr h24), if_pos ⟨h3, h24⟩]
    · rw [if_neg (not_not.mpr h3), if_pos h24, if_neg (fun h => h24 h.2)]
  · rw [if_pos h3, if_neg (fun h => h3 h.1)]

theorem getReadFromFastQ_short (stream : List Str) (h1 : 1 ≤ stream.length)
    (h4 : stream.length < 4) :
    getReadFromFastQ stream = some ({ readID := [], sequence := [], qualities := [] }, []) := by
  match stream, h1, h4 with
  | [a], _, _ => simp [getReadFromFastQ, getLinesFromFastQ, getLinesLoop]
  | [a, b], _, _ => simp [getReadFromFastQ, getLinesFromFastQ, getLinesLoop]
  | [a, b, c], _, _ => simp [getReadFromFastQ, getLinesFromFastQ, getLinesLoop]

theorem seq_reverse_complement_length (s : Str) :
    (seq_reverse_complement s).length = s.length := by
  simp [seq_reverse_complement]

theorem eraseNL_of_not_mem (s : Str) (h : '\n' ∉ s) : eraseNL s = s := by
  unfold eraseNL
  rw [if_neg]
  intro hl
  exact h (List.mem_of_getLast?_eq_some hl)

theorem getReadFromFastQ_record (r : FastQRecord) (rest : List Str)
    (hid : '\n' ∉ r.readID) (hseq : '\n' ∉ r.sequence) (hq : '\n' ∉ r.qualities)
    (hlen : r.sequence.length = r.qualities.length) :
    getReadFromFastQ (recordLines r ++ rest) = some (r, rest) := by
  have e : recordLines r ++ rest
      = r.readID :: r.sequence :: "+".toList :: r.qualities :: rest := rfl
  have eplus : eraseNL "+".toList = "+".toList := by decide
  rw [e, getReadFromFastQ_four, eraseNL_of_not_mem _ hid, eraseNL_of_not_mem _ hseq,
    eraseNL_of_not_mem _ hq, eplus, if_pos ⟨rfl, hlen⟩]

theorem endsInMateSuffix_length (readID : Str) (h : endsInMateSuffix readID) :
    readID.length ≠ 0 := by
  intro h0
  have hn : lastTwo readID = none := by
    unfold lastTwo
    rw [if_pos (by omega)]
  unfold endsInMateSuffix at h
  rw [hn] at h
  rcases h with h | h <;> cases h

theorem filterFastQPairs_loop_wellFormed (decide : fastq_readPair → Bool)
    (records : List (FastQRecord × FastQRecord)) (t1 t2 : List Str)
    (hwf : ∀ p ∈ records, wellFormedRecordPair p.1 p.2)
    (htail : t1 = [] ∨ (t1 = [[]] ∧ t2 = [[]])) :
    ∀ (fuel : Nat) (trace : List Event), records.length < fuel →
      filterFastQPairs_loop decide fuel (fileLines (records.map Prod.fst) ++ t1)
          (fileLines (records.map Prod.snd) ++ t2) trace
        = FastQRun.finished
            (trace ++ records.flatMap (fun p => pairEvents decide (ingestPair p.1 p.2))) := by
  induction records with
  | nil =>
    intro fuel trace hfuel
    obtain ⟨f, rfl⟩ : ∃ f, fuel = f + 1 := ⟨fuel - 1, by simp at hfuel; omega⟩
    rcases htail with rfl | ⟨rfl, rfl⟩
    · simp [filterFastQPairs_loop, fileLines]
    · have hr : getReadFromFastQ [[]]
          = some ({ readID := [], sequence := [], qualities := [] }, []) :=
        getReadFromFastQ_short [[]] (by simp) (by simp)
      simp [filterFastQPairs_loop, fileLines, hr]
  | cons p rest ih =>
    intro fuel trace hfuel
    obtain ⟨f, rfl⟩ : ∃ f, fuel = f + 1 := ⟨fuel - 1, by simp at hfuel; omega⟩
    have hp : wellFormedRecordPair p.1 p.2 := hwf p (List.mem_cons_self _ _)
    obtain ⟨⟨hid1, hseq1, hq1, hlen1, hsuf1⟩, ⟨hid2, hseq2, hq2, hlen2, hsuf2⟩, hpre⟩ := hp
    have e1 : fileLines ((p :: rest).map Prod.fst) ++ t1
        = recordLines p.1 ++ (fileLines (rest.map Prod.fst) ++ t1) := by
      simp [fileLines]
    have e2 : fileLines ((p :: rest).map Prod.snd) ++ t2
        = recordLines p.2 ++ (fileLines (rest.map Prod.snd) ++ t2) := by
      simp [fileLines]
    have n1 : recordLines p.1 ++ (fileLines (rest.map Prod.fst) ++ t1) ≠ [] := by
      simp [recordLines]
    have n2 : recordLines p.2 ++ (fileLines (rest.map Prod.snd) ++ t2) ≠ [] := by
      simp [recordLines]
    have l1 : p.1.readID.length ≠ 0 := endsInMateSuffix_length _ hsuf1
    have l2 : p.2.readID.length ≠ 0 := endsInMateSuffix_length _ hsuf2
    rw [e1, e2]
    unfold filterFastQPairs_loop
    rw [if_neg n1, if_neg n2, getReadFromFastQ_record p.1 _ hid1 hseq1 hq1 hlen1,
      getReadFromFastQ_record p.2 _ hid2 hseq2 hq2 hlen2]
    simp only []
    rw [if_neg (not_not.mpr (Or.inl ⟨l1, l2⟩)), if_neg (fun h => l1 h.1),
      filterFastQPairs_body_eq, if_pos ⟨hsuf1, hsuf2⟩, if_neg (not_not.mpr hpre)]
    simp only []
    rw [ih (fun q hq => hwf q (List.mem_cons_of_mem _ hq)) f _
      (by simp at hfuel; omega)]
    simp [List.flatMap_cons, List.append_assoc]

theorem decidedPairs_flatMap_pairEvents (decide : fastq_readPair → Bool)
    (l : List fastq_readPair) :
    decidedPairs (l.flatMap (pairEvents decide)) = l := by
  induction l with
  | nil => rfl
  | cons a rest ih =>
    rw [List.flatMap_cons, decidedPairs_append, decidedPairs_pairEvents, ih]
    rfl

theorem printedPairs_flatMap_pairEvents (decide : fastq_readPair → Bool)
    (l : List fastq_readPair) :
    printedPairs (l.flatMap (pairEvents decide)) = l.filter decide := by
  induction l with
  | nil => rfl
  | cons a rest ih =>
    rw [List.flatMap_cons, printedPairs_append, printedPairs_pairEvents, ih]
    cases h : decide a <;> simp [List.filter_cons, h]

/-- C12: for two files that hold well-formed records which pairwise agree in their ids, and
where the first stream is exhausted right after its last record or both files end with a
newline, `filterFastQPairs` ends normally; the decision predicate is called on the pair of
record i of file 1 and record i of file 2 (mate 2 in common orientation), once each and in
input order, and the pairs handed to the print sink are exactly those for which the
predicate returns true, once each and in input order. The run is a function of its input,
so two runs on the same input give the same output sequence. -/
theorem C12_text_mode_prints_exactly_the_kept_pairs (decide : fastq_readPair → Bool)
    (records : List (FastQRecord × FastQRecord)) (t1 t2 : List Str)
    (hwf : ∀ p ∈ records, wellFormedRecordPair p.1 p.2)
    (htail : t1 = [] ∨ (t1 = [[]] ∧ t2 = [[]])) :
    ∃ trace,
      filterFastQPairs decide (fileLines (records.map Prod.fst) ++ t1)
          (fileLines (records.map Prod.snd) ++ t2) = FastQRun.finished trace
      ∧ decidedPairs trace = records.map (fun p => ingestPair p.1 p.2)
      ∧ printedPairs trace
          = (records.map (fun p => ingestPair p.1 p.2)).filter (fun read => decide read)
      ∧ ∀ e ∈ trace, ∀ msg, e ≠ Event.warning msg := by
  refine ⟨(records.map (fun p => ingestPair p.1 p.2)).flatMap (pairEvents decide), ?_, ?_, ?_,
    ?_⟩
  · unfold filterFastQPairs
    rw [filterFastQPairs_loop_wellFormed decide records t1 t2 hwf htail]
    · simp [List.flatMap_map]
    · have : (fileLines (records.map Prod.fst)).length = 4 * records.length := by
        induction records with
        | nil => rfl
        | cons p rest ih =>
          have := ih (fun q hq => hwf q (List.mem_cons_of_mem _ hq))
          simp only [fileLines, List.map_cons, List.flatMap_cons, List.length_append,
            List.length_cons] at this ⊢
          rw [this]
          simp [recordLines]
          omega
      rw [List.length_append, this]
      omega
  · exact decidedPairs_flatMap_pairEvents decide _
  · exact printedPairs_flatMap_pairEvents decide _
  · intro e he msg hmsg
    subst hmsg
    rw [List.mem_flatMap] at he
    obtain ⟨p, _, hp⟩ := he
    unfold pairEvents at hp
    split_ifs at hp <;> simp at hp

/-- Witness for C12: two newline-terminated files with the records @a/1, @b/1 and @a/2,
@b/2, and a predicate that keeps every pair. -/
theorem C12_text_mode_prints_exactly_the_kept_pairs_witness :
    (∀ p ∈ [(mkRecord "@a/1".toList, mkRecord "@a/2".toList),
            (mkRecord "@b/1".toList, mkRecord "@b/2".toList)],
        wellFormedRecordPair p.1 p.2)
    ∧ ∃ trace,
        filterFastQPairs (fun _ => true)
            (fileLines ([(mkRecord "@a/1".toList, mkRecord "@a/2".toList),
              (mkRecord "@b/1".toList, mkRecord "@b/2".toList)].map Prod.fst) ++ [[]])
            (fileLines ([(mkRecord "@a/1".toList, mkRecord "@a/2".toList),
              (mkRecord "@b/1".toList, mkRecord "@b/2".toList)].map Prod.snd) ++ [[]])
          = FastQRun.finished trace
        ∧ decidedPairs trace
          = [(mkRecord "@a/1".toList, mkRecord "@a/2".toList),
             (mkRecord "@b/1".toList, mkRecord "@b/2".toList)].map
              (fun p => ingestPair p.1 p.2)
        ∧ printedPairs trace
          = ([(mkRecord "@a/1".toList, mkRecord "@a/2".toList),
              (mkRecord "@b/1".toList, mkRecord "@b/2".toList)].map
              (fun p => ingestPair p.1 p.2)).filter (fun read => (fun _ => true) read)
        ∧ ∀ e ∈ trace, ∀ msg, e ≠ Event.warning msg :=
  ⟨by decide,
    C12_text_mode_prints_exactly_the_kept_pairs (fun _ => true)
      [(mkRecord "@a/1".toList, mkRecord "@a/2".toList),
       (mkRecord "@b/1".toList, mkRecord "@b/2".toList)] [[]] [[]]
      (by decide) (Or.inr ⟨rfl, rfl⟩)⟩

theorem complementBase_involutive (c : Char) (h : isNucleotide c) :
    complementBase (complementBase c) = c := by
  rcases h with rfl | rfl | rfl | rfl | rfl <;> decide

theorem complementBase_ne_newline (c : Char) (h : isNucleotide c) :
    complementBase c ≠ '\n' := by
  rcases h with rfl | rfl | rfl | rfl | rfl <;> decide

theorem seq_reverse_complement_involutive (s : Str) (h : ∀ c ∈ s, isNucleotide c) :
    seq_reverse_complement (seq_reverse_complement s) = s := by
  unfold seq_reverse_complement
  rw [List.map_reverse, List.reverse_reverse, List.map_map]
  conv_rhs => rw [← List.map_id s]
  apply List.map_congr_left
  intro c hc
  exact complementBase_involutive c (h c hc)

theorem seq_reverse_complement_no_newline (s : Str) (h : ∀ c ∈ s, isNucleotide c) :
    '\n' ∉ seq_reverse_complement s := by
  unfold seq_reverse_complement
  intro hmem
  rw [List.mem_reverse, List.mem_map] at hmem
  obtain ⟨c, hc, hcn⟩ := hmem
  exact complementBase_ne_newline c (h c hc) hcn

theorem nucleotide_no_newline (s : Str) (h : ∀ c ∈ s, isNucleotide c) : '\n' ∉ s := by
  intro hmem
  have := h _ hmem
  revert this
  decide

theorem lastTwo_cons (c : Char) (s : Str) (h : 2 ≤ s.length) :
    lastTwo (c :: s) = lastTwo s := by
  unfold lastTwo
  rw [if_neg (by simp only [List.length_cons]; omega), if_neg (by omega)]
  have : (c :: s).length - 2 = (s.length - 2) + 1 := by
    simp only [List.length_cons]; omega
  rw [this, List.drop_succ_cons]

theorem withoutLastTwo_cons (c : Char) (s : Str) (h : 2 ≤ s.length) :
    withoutLastTwo (c :: s) = c :: withoutLastTwo s := by
  unfold withoutLastTwo
  rw [if_neg (by simp only [List.length_cons]; omega), if_neg (by omega)]
  have : (c :: s).length - 2 = (s.length - 2) + 1 := by
    simp only [List.length_cons]; omega
  rw [this, List.take_succ_cons]

theorem endsInMateSuffix_two_le (readID : Str) (h : endsInMateSuffix readID) :
    2 ≤ readID.length := by
  by_contra hlt
  have hn : lastTwo readID = none := by
    unfold lastTwo
    rw [if_pos (by omega)]
  unfold endsInMateSuffix at h
  rw [hn] at h
  rcases h with h | h <;> cases h

theorem filterFastQPairs_single_record (decide : fastq_readPair → Bool)
    (r1 r2 : FastQRecord) (hw : wellFormedRecordPair r1 r2) :
    decidedPairs (filterFastQPairs decide (streamOfLines (recordLines r1))
      (streamOfLines (recordLines r2))).trace = [ingestPair r1 r2] := by
  have hrun := filterFastQPairs_loop_wellFormed decide [(r1, r2)] [[]] [[]]
    (by intro p hp; rw [List.mem_singleton] at hp; subst hp; exact hw)
    (Or.inr ⟨rfl, rfl⟩) 6 [] (by simp)
  have e1 : streamOfLines (recordLines r1) = fileLines ([(r1, r2)].map Prod.fst) ++ [[]] := rfl
  have e2 : streamOfLines (recordLines r2) = fileLines ([(r1, r2)].map Prod.snd) ++ [[]] := rfl
  have e3 : (streamOfLines (recordLines r1)).length + 1 = 6 := rfl
  unfold filterFastQPairs
  rw [e3, e1, e2, hrun]
  simp only [FastQRun.trace, List.nil_append, List.flatMap_cons, List.flatMap_nil,
    List.append_nil]
  exact decidedPairs_pairEvents decide _

/-- C16: for a pair whose sequences are over {A, C, G, T, N} (ids and qualities are lines,
sequence and qualities of each mate have equal length), reading the records written by
`printFunction` back with `getReadFromFastQ` and rebuilding the pair as text-paired ingest
does reproduces the sequence and the qualities of both mates; the written mate-2 sequence
is the reverse complement of the in-memory one and the written mate-2 qualities are the
reversed ones; all lengths are unchanged. When the ids end in a mate suffix and agree,
`filterFastQPairs` on the two written files hands exactly this rebuilt pair to the decision
predicate. -/
theorem C16_orientation_round_trip (read : fastq_readPair)
    (hs1 : ∀ c ∈ read.a1.sequence, isNucleotide c)
    (hs2 : ∀ c ∈ read.a2.sequence, isNucleotide c)
    (hid1 : '\n' ∉ read.a1.readID) (hid2 : '\n' ∉ read.a2.readID)
    (hq1 : '\n' ∉ read.a1.qualities) (hq2 : '\n' ∉ read.a2.qualities)
    (hl1 : read.a1.sequence.length = read.a1.qualities.length)
    (hl2 : read.a2.sequence.length = read.a2.qualities.length) :
    ∃ r1 r2 : FastQRecord,
      getReadFromFastQ (streamOfLines (printFunction read).1) = some (r1, [[]])
      ∧ getReadFromFastQ (streamOfLines (printFunction read).2) = some (r2, [[]])
      ∧ r2.sequence = seq_reverse_complement read.a2.sequence
      ∧ r2.qualities = read.a2.qualities.reverse
      ∧ (ingestPair r1 r2).a1.sequence = read.a1.sequence
      ∧ (ingestPair r1 r2).a1.qualities = read.a1.qualities
      ∧ (ingestPair r1 r2).a2.sequence = read.a2.sequence
      ∧ (ingestPair r1 r2).a2.qualities = read.a2.qualities
      ∧ r1.sequence.length = read.a1.sequence.length
      ∧ r1.qualities.length = read.a1.qualities.length
      ∧ r2.sequence.length = read.a2.sequence.length
      ∧ r2.qualities.length = read.a2.qualities.length
      ∧ ((endsInMateSuffix read.a1.readID ∧ endsInMateSuffix read.a2.readID
            ∧ withoutLastTwo read.a1.readID = withoutLastTwo read.a2.readID) →
          ∀ decide : fastq_readPair → Bool,
            decidedPairs (filterFastQPairs decide (streamOfLines (printFunction read).1)
              (streamOfLines (printFunction read).2)).trace = [ingestPair r1 r2]) := by
  have hat : ∀ s : Str, '\n' ∉ s → '\n' ∉ "@".toList ++ s := by
    intro s hs hmem
    rcases List.mem_append.mp hmem with h | h
    · revert h; decide
    · exact hs h
  have hrev : '\n' ∉ read.a2.qualities.reverse := fun h => hq2 (List.mem_reverse.mp h)
  have hrevlen : (seq_reverse_complement read.a2.sequence).length
      = read.a2.qualities.reverse.length := by
    rw [seq_reverse_complement_length, List.length_reverse]; exact hl2
  refine ⟨{ readID := "@".toList ++ read.a1.readID, sequence := read.a1.sequence,
            qualities := read.a1.qualities },
          { readID := "@".toList ++ read.a2.readID,
            sequence := seq_reverse_complement read.a2.sequence,
            qualities := read.a2.qualities.reverse }, ?_, ?_, rfl, rfl, rfl, rfl, ?_, ?_, rfl,
          rfl, ?_, ?_, ?_⟩
  · exact getReadFromFastQ_record
      (FastQRecord.mk ("@".toList ++ read.a1.readID) read.a1.sequence read.a1.qualities) [[]]
      (hat _ hid1) (nucleotide_no_newline _ hs1) hq1 hl1
  · exact getReadFromFastQ_record
      (FastQRecord.mk ("@".toList ++ read.a2.readID)
        (seq_reverse_complement read.a2.sequence) read.a2.qualities.reverse) [[]]
      (hat _ hid2) (seq_reverse_complement_no_newline _ hs2) hrev hrevlen
  · exact seq_reverse_complement_involutive _ hs2
  · exact List.reverse_reverse _
  · exact seq_reverse_complement_length _
  · exact List.length_reverse _
  · rintro ⟨he1, he2, hpre⟩ decide
    have hw : wellFormedRecordPair
        { readID := "@".toList ++ read.a1.readID, sequence := read.a1.sequence,
          qualities := read.a1.qualities }
        { readID := "@".toList ++ read.a2.readID,
          sequence := seq_reverse_complement read.a2.sequence,
          qualities := read.a2.qualities.reverse } := by
      refine ⟨⟨hat _ hid1, nucleotide_no_newline _ hs1, hq1, hl1, ?_⟩,
        ⟨hat _ hid2, seq_reverse_complement_no_newline _ hs2, hrev, hrevlen, ?_⟩, ?_⟩
      · unfold endsInMateSuffix at he1 ⊢
        show lastTwo ('@' :: read.a1.readID) = _ ∨ lastTwo ('@' :: read.a1.readID) = _
        rw [lastTwo_cons _ _ (endsInMateSuffix_two_le _ he1)]
        exact he1
      · unfold endsInMateSuffix at he2 ⊢
        show lastTwo ('@' :: read.a2.readID) = _ ∨ lastTwo ('@' :: read.a2.readID) = _
        rw [lastTwo_cons _ _ (endsInMateSuffix_two_le _ he2)]
        exact he2
      · show withoutLastTwo ('@' :: read.a1.readID) = withoutLastTwo ('@' :: read.a2.readID)
        rw [withoutLastTwo_cons _ _ (endsInMateSuffix_two_le _ he1),
          withoutLastTwo_cons _ _ (endsInMateSuffix_two_le _ he2), hpre]
    exact filterFastQPairs_single_record decide _ _ hw

/-- Witness for C16: the in-memory pair built from the records r/1 AAAACCCC and r/2
AAAACCCC, whose mate 2 is held as GGGGTTTT. -/
theorem C16_orientation_round_trip_witness :
    (∀ c ∈ (ingestPair (mkRecord "r/1".toList) (mkRecord "r/2".toList)).a2.sequence,
        isNucleotide c)
    ∧ (ingestPair (mkRecord "r/1".toList) (mkRecord "r/2".toList)).a2.sequence
        = "GGGGTTTT".toList
    ∧ ∃ r1 r2 : FastQRecord,
      getReadFromFastQ (streamOfLines
          (printFunction (ingestPair (mkRecord "r/1".toList) (mkRecord "r/2".toList))).1)
        = some (r1, [[]])
      ∧ getReadFromFastQ (streamOfLines
          (printFunction (ingestPair (mkRecord "r/1".toList) (mkRecord "r/2".toList))).2)
        = some (r2, [[]])
      ∧ r2.sequence = "AAAACCCC".toList
      ∧ (ingestPair r1 r2).a2.sequence = "GGGGTTTT".toList := by
  refine ⟨by decide, by decide, ?_⟩
  obtain ⟨r1, r2, h1, h2, h3, _, _, _, h7, _⟩ :=
    C16_orientation_round_trip (ingestPair (mkRecord "r/1".toList) (mkRecord "r/2".toList))
      (by decide) (by decide) (by decide) (by decide) (by decide) (by decide)
      (by decide) (by decide)
  exact ⟨r1, r2, h1, h2, h3.trans (by decide), h7.trans (by decide)⟩

/-- C17 (failing input): one pair, @r/1 AAAACCCC and @r/2 GGGGTTTT, filtered with the
configuration of scenario S1. The first run keeps the pair and writes the header lines
@@r/1 and @@r/2; the second run, on the output of the first, keeps it again but writes the
header lines @@@r/1 and @@@r/2, so its output records differ from those of the first run. -/
theorem C17_second_run_output_differs :
    filterRunS1 idempotenceInput1 idempotenceInput2
      = (["@@r/1".toList, "AAAACCCC".toList, "+".toList, "IIIIIIII".toList],
         ["@@r/2".toList, "GGGGTTTT".toList, "+".toList, "IIIIIIII".toList])
    ∧ filterRunS1 (streamOfLines (filterRunS1 idempotenceInput1 idempotenceInput2).1)
        (streamOfLines (filterRunS1 idempotenceInput1 idempotenceInput2).2)
      = (["@@@r/1".toList, "AAAACCCC".toList, "+".toList, "IIIIIIII".toList],
         ["@@@r/2".toList, "GGGGTTTT".toList, "+".toList, "IIIIIIII".toList])
    ∧ filterRunS1 (streamOfLines (filterRunS1 idempotenceInput1 idempotenceInput2).1)
        (streamOfLines (filterRunS1 idempotenceInput1 idempotenceInput2).2)
      ≠ filterRunS1 idempotenceInput1 idempotenceInput2 := by
  refine ⟨by decide!, by decide!, by decide!⟩

/-! ## Tables: lookup, assignment, erasure -/

theorem map_at_assign (m : ReadMap) (k n : Str) (v : fastq_readPair) :
    map_at (map_assign m k v) n = if k = n then some v else map_at m n := by
  induction m with
  | nil => simp [map_assign, map_at]
  | cons e rest ih =>
    obtain ⟨key, old⟩ := e
    unfold map_assign
    by_cases h1 : key = k
    · subst h1
      simp only [if_true, map_at]
      by_cases h3 : key = n
      · rw [if_pos h3, if_pos h3]
      · rw [if_neg h3, if_neg h3, if_neg h3]
    · rw [if_neg h1]
      by_cases h2 : k < key
      · rw [if_pos h2]
        simp only [map_at]
      · rw [if_neg h2]
        simp only [map_at]
        rw [ih]
        by_cases h3 : key = n
        · subst h3
          rw [if_pos rfl, if_pos rfl, if_neg (fun h => h1 h.symm)]
        · rw [if_neg h3, if_neg h3]

theorem map_at_erase (m : ReadMap) (k n : Str) :
    map_at (map_erase m k) n = if k = n then none else map_at m n := by
  induction m with
  | nil => simp [map_erase, map_at]
  | cons e rest ih =>
    obtain ⟨key, old⟩ := e
    unfold map_erase at ih ⊢
    by_cases h1 : key = k
    · subst h1
      rw [List.filter_cons_of_neg (by simp), ih]
      by_cases h3 : key = n
      · rw [if_pos h3, if_pos h3]
      · rw [if_neg h3, if_neg h3]
        simp only [map_at, if_neg h3]
    · rw [List.filter_cons_of_pos (by simpa using h1)]
      simp only [map_at]
      rw [ih]
      by_cases h3 : key = n
      · subst h3
        rw [if_pos rfl, if_pos rfl, if_neg (fun h => h1 h.symm)]
      · rw [if_neg h3, if_neg h3]

theorem map_at_isSome_iff (m : ReadMap) (n : Str) :
    (map_at m n).isSome = true ↔ n ∈ m.map Prod.fst := by
  induction m with
  | nil => simp [map_at]
  | cons e rest ih =>
    obtain ⟨key, old⟩ := e
    simp only [map_at, List.map_cons, List.mem_cons]
    by_cases h : key = n
    · subst h
      rw [if_pos rfl]
      exact ⟨fun _ => Or.inl rfl, fun _ => rfl⟩
    · rw [if_neg h, ih]
      constructor
      · intro hm; exact Or.inr hm
      · rintro (hm | hm)
        · exact absurd hm.symm h
        · exact hm

theorem map_at_eq_none_iff (m : ReadMap) (n : Str) :
    map_at m n = none ↔ n ∉ m.map Prod.fst := by
  rw [← map_at_isSome_iff]
  cases map_at m n <;> simp

theorem map_count_eq_zero_iff (m : ReadMap) (n : Str) :
    map_count m n = 0 ↔ map_at m n = none := by
  unfold map_count
  cases map_at m n <;> simp

theorem mem_keys_assign (m : ReadMap) (k x : Str) (v : fastq_readPair) :
    x ∈ (map_assign m k v).map Prod.fst ↔ x = k ∨ x ∈ m.map Prod.fst := by
  rw [← map_at_isSome_iff, ← map_at_isSome_iff, map_at_assign]
  by_cases h : k = x
  · subst h
    simp
  · rw [if_neg h]
    constructor
    · intro hm; exact Or.inr hm
    · rintro (hm | hm)
      · exact absurd hm.symm h
      · exact hm

theorem keys_sorted_assign (m : ReadMap) (k : Str) (v : fastq_readPair)
    (hs : (m.map Prod.fst).Sorted (· < ·)) :
    ((map_assign m k v).map Prod.fst).Sorted (· < ·) := by
  induction m with
  | nil => simp [map_assign]
  | cons e rest ih =>
    obtain ⟨key, old⟩ := e
    simp only [List.map_cons, List.sorted_cons] at hs
    obtain ⟨hlt, hrest⟩ := hs
    unfold map_assign
    by_cases h1 : key = k
    · subst h1
      rw [if_pos rfl]
      simp only [List.map_cons, List.sorted_cons]
      exact ⟨hlt, hrest⟩
    · rw [if_neg h1]
      by_cases h2 : k < key
      · rw [if_pos h2]
        simp only [List.map_cons, List.sorted_cons, List.mem_cons]
        refine ⟨?_, hlt, hrest⟩
        rintro b (rfl | hb)
        · exact h2
        · exact lt_trans h2 (hlt b hb)
      · rw [if_neg h2]
        simp only [List.map_cons, List.sorted_cons]
        refine ⟨?_, ih hrest⟩
        intro b hb
        rcases (mem_keys_assign rest k b v).mp hb with rfl | hb
        · rcases lt_trichotomy key b with h | h | h
          · exact h
          · exact absurd h h1
          · exact absurd h h2
        · exact hlt b hb

theorem keys_sorted_erase (m : ReadMap) (k : Str) (hs : (m.map Prod.fst).Sorted (· < ·)) :
    ((map_erase m k).map Prod.fst).Sorted (· < ·) := by
  unfold map_erase
  exact List.Pairwise.sublist ((List.filter_sublist m).map Prod.fst) hs

theorem keys_nodup_of_sorted (m : ReadMap) (hs : (m.map Prod.fst).Sorted (· < ·)) :
    (m.map Prod.fst).Nodup :=
  List.Sorted.nodup hs

theorem map_at_of_mem (m : ReadMap) (hs : (m.map Prod.fst).Nodup) (n : Str)
    (p : fastq_readPair) (h : (n, p) ∈ m) : map_at m n = some p := by
  induction m with
  | nil => cases h
  | cons e rest ih =>
    obtain ⟨key, old⟩ := e
    simp only [List.map_cons, List.nodup_cons] at hs
    rcases List.mem_cons.mp h with heq | hmem
    · cases heq
      simp [map_at]
    · have hne : key ≠ n := by
        intro he
        subst he
        exact hs.1 (List.mem_map.mpr ⟨(key, p), hmem, rfl⟩)
      simp only [map_at, if_neg hne]
      exact ih hs.2 hmem

theorem mem_of_map_at (m : ReadMap) (n : Str) (p : fastq_readPair)
    (h : map_at m n = some p) : (n, p) ∈ m := by
  induction m with
  | nil => simp [map_at] at h
  | cons e rest ih =>
    obtain ⟨key, old⟩ := e
    simp only [map_at] at h
    by_cases hk : key = n
    · rw [if_pos hk] at h
      cases h
      subst hk
      exact List.mem_cons_self _ _
    · rw [if_neg hk] at h
      exact List.mem_cons_of_mem _ (ih h)

theorem map_assign_perm_of_fresh (m : ReadMap) (k : Str) (v : fastq_readPair)
    (hk : k ∉ m.map Prod.fst) : (map_assign m k v).Perm ((k, v) :: m) := by
  induction m with
  | nil => simp [map_assign]
  | cons e rest ih =>
    obtain ⟨key, old⟩ := e
    simp only [List.map_cons, List.mem_cons, not_or] at hk
    unfold map_assign
    rw [if_neg (fun h => hk.1 h.symm)]
    by_cases h2 : k < key
    · rw [if_pos h2]
    · rw [if_neg h2]
      exact ((ih hk.2).cons (key, old)).trans (List.Perm.swap _ _ _)

/-! ## Pairs and mates -/

theorem takeAlignment_first (al : BamAlignment) (o2 : Option BamAlignment)
    (hf : al.IsFirstMate = true) :
    (pairFrom none o2).takeAlignment (simpleAlignmentOf al) (whichMateOf al)
      = (true, pairFrom (some al) o2) := by
  simp [fastq_readPair.takeAlignment, whichMateOf, hf, pairFrom]

theorem takeAlignment_second (al : BamAlignment) (o1 : Option BamAlignment)
    (hf : al.IsFirstMate = false) :
    (pairFrom o1 none).takeAlignment (simpleAlignmentOf al) (whichMateOf al)
      = (true, pairFrom o1 (some al)) := by
  simp [fastq_readPair.takeAlignment, whichMateOf, hf, pairFrom]

theorem isComplete_pairFrom (o1 o2 : Option BamAlignment) :
    (pairFrom o1 o2).isComplete = (o1.isSome && o2.isSome) := rfl

theorem mateOf_append (n : Str) (f : Bool) (l1 l2 : List BamAlignment) :
    mateOf n f (l1 ++ l2) = (mateOf n f l1).or (mateOf n f l2) := by
  unfold mateOf
  exact List.find?_append

theorem mateOf_single (n : Str) (f : Bool) (al : BamAlignment) :
    mateOf n f [al] = if al.Name = n ∧ al.IsFirstMate = f then some al else none := by
  unfold mateOf
  by_cases h : al.Name = n ∧ al.IsFirstMate = f
  · rw [if_pos h, List.find?_cons_of_pos]
    simp [h.1, h.2]
  · rw [if_neg h, List.find?_cons_of_neg]
    · rfl
    · simpa using h

theorem mateOf_spec (n : Str) (f : Bool) (l : List BamAlignment) (al : BamAlignment)
    (h : mateOf n f l = some al) : al ∈ l ∧ al.Name = n ∧ al.IsFirstMate = f := by
  unfold mateOf at h
  have hp := List.find?_some h
  have hm := List.mem_of_find?_eq_some h
  simp only [Bool.and_eq_true, decide_eq_true_eq, beq_iff_eq] at hp
  exact ⟨hm, hp.1, hp.2⟩

theorem mateOf_eq_none_of_key_not_mem (n : Str) (f : Bool) (l : List BamAlignment)
    (h : (n, f) ∉ l.map alignmentKey) : mateOf n f l = none := by
  unfold mateOf
  rw [List.find?_eq_none]
  intro x hx hp
  simp only [Bool.and_eq_true, decide_eq_true_eq, beq_iff_eq] at hp
  apply h
  rw [List.mem_map]
  exact ⟨x, hx, by unfold alignmentKey; rw [hp.1, hp.2]⟩

theorem key_mem_of_mateOf (n : Str) (f : Bool) (l : List BamAlignment)
    (h : (mateOf n f l).isSome = true) : (n, f) ∈ l.map alignmentKey := by
  by_contra hc
  rw [mateOf_eq_none_of_key_not_mem n f l hc] at h
  cases h

theorem mateOf_own_none (seen : List BamAlignment) (al : BamAlignment)
    (hnd : ((seen ++ [al]).map alignmentKey).Nodup) :
    mateOf al.Name al.IsFirstMate seen = none := by
  apply mateOf_eq_none_of_key_not_mem
  rw [List.map_append, List.nodup_append] at hnd
  intro hmem
  exact hnd.2.2 hmem (by simp [alignmentKey])

theorem mateOf_snoc_other (n : Str) (f : Bool) (seen : List BamAlignment) (al : BamAlignment)
    (h : ¬ (al.Name = n ∧ al.IsFirstMate = f)) :
    mateOf n f (seen ++ [al]) = mateOf n f seen := by
  rw [mateOf_append, mateOf_single, if_neg h]
  cases mateOf n f seen <;> rfl

theorem mateOf_snoc_own (seen : List BamAlignment) (al : BamAlignment)
    (hnd : ((seen ++ [al]).map alignmentKey).Nodup) :
    mateOf al.Name al.IsFirstMate (seen ++ [al]) = some al := by
  rw [mateOf_append, mateOf_own_none seen al hnd, mateOf_single, if_pos ⟨rfl, rfl⟩]
  rfl

theorem processAlignment_eq (decide : fastq_readPair → Bool) (st : RegionState)
    (seen : List BamAlignment) (al : BamAlignment) (hp : al.IsPaired = true)
    (hnd : ((seen ++ [al]).map alignmentKey).Nodup)
    (hI : map_at st.thread_reads al.Name
      = entryOf (mateOf al.Name true seen) (mateOf al.Name false seen)) :
    processAlignment decide st al
      = some
          (if (pairFrom (mateOf al.Name true (seen ++ [al]))
                (mateOf al.Name false (seen ++ [al]))).isComplete then
            completionHandling decide
              { st with
                thread_reads := map_assign st.thread_reads al.Name
                  (pairFrom (mateOf al.Name true (seen ++ [al]))
                    (mateOf al.Name false (seen ++ [al]))) }
              al.Name
              (pairFrom (mateOf al.Name true (seen ++ [al]))
                (mateOf al.Name false (seen ++ [al])))
          else
            { st with
              thread_reads := map_assign st.thread_reads al.Name
                (pairFrom (mateOf al.Name true (seen ++ [al]))
                  (mateOf al.Name false (seen ++ [al]))) }) := by
  have hown := mateOf_own_none seen al hnd
  have hown' := mateOf_snoc_own seen al hnd
  cases hf : al.IsFirstMate with
  | true =>
    rw [hf] at hown hown'
    have hoth : mateOf al.Name false (seen ++ [al]) = mateOf al.Name false seen :=
      mateOf_snoc_other _ _ _ _ (by rw [hf]; simp)
    rw [hown', hoth]
    rw [hown] at hI
    cases ho : mateOf al.Name false seen with
    | none =>
      rw [ho] at hI
      have hc : map_count st.thread_reads al.Name = 0 :=
        (map_count_eq_zero_iff _ _).mpr hI
      have ht := takeAlignment_first al none hf
      unfold processAlignment
      simp only [hp, hc, Bool.true_eq_false, if_false, if_true]
      have he : fastq_readPair.empty = pairFrom none none := rfl
      rw [he, ht]
      simp [isComplete_pairFrom]
    | some b =>
      rw [ho] at hI
      have hI' : map_at st.thread_reads al.Name = some (pairFrom none (some b)) := hI
      have hc : map_count st.thread_reads al.Name ≠ 0 := by
        rw [Ne, map_count_eq_zero_iff, hI']
        simp
      have ht := takeAlignment_first al (some b) hf
      unfold processAlignment
      simp only [hp, hc, Bool.true_eq_false, if_false, hI', ht]
      simp [isComplete_pairFrom]
  | false =>
    rw [hf] at hown hown'
    have hoth : mateOf al.Name true (seen ++ [al]) = mateOf al.Name true seen :=
      mateOf_snoc_other _ _ _ _ (by rw [hf]; simp)
    rw [hown', hoth]
    rw [hown] at hI
    cases ho : mateOf al.Name true seen with
    | none =>
      rw [ho] at hI
      have hc : map_count st.thread_reads al.Name = 0 :=
        (map_count_eq_zero_iff _ _).mpr hI
      have ht := takeAlignment_second al none hf
      unfold processAlignment
      simp only [hp, hc, Bool.true_eq_false, if_false, if_true]
      have he : fastq_readPair.empty = pairFrom none none := rfl
      rw [he, ht]
      simp [isComplete_pairFrom]
    | some b =>
      rw [ho] at hI
      have hI' : map_at st.thread_reads al.Name = some (pairFrom (some b) none) := hI
      have hc : map_count st.thread_reads al.Name ≠ 0 := by
        rw [Ne, map_count_eq_zero_iff, hI']
        simp
      have ht := takeAlignment_second al (some b) hf
      unfold processAlignment
      simp only [hp, hc, Bool.true_eq_false, if_false, hI', ht]
      simp [isComplete_pairFrom]

theorem mateOf_isSome_append (n : Str) (f : Bool) (l1 l2 : List BamAlignment)
    (h : (mateOf n f l1).isSome = true) : (mateOf n f (l1 ++ l2)).isSome = true := by
  rw [mateOf_append]
  cases hm : mateOf n f l1 with
  | none => rw [hm] at h; cases h
  | some x => rfl

theorem readID_pairFrom_first (x : BamAlignment) (o2 : Option BamAlignment) (n : Str)
    (hn : x.Name = n) (hf : x.IsFirstMate = true) :
    (pairFrom (some x) o2).a1.readID = n ++ "/1".toList := by
  simp [pairFrom, simpleAlignmentOf, hn, hf]

theorem pairNamed_iff (n m : Str) (read : fastq_readPair)
    (h : read.a1.readID = m ++ "/1".toList) : pairNamed n read = true ↔ m = n := by
  unfold pairNamed
  rw [decide_eq_true_eq, h]
  exact List.append_left_inj _

theorem filter_pairNamed_snoc (n m : Str) (l : List fastq_readPair) (read : fastq_readPair)
    (h : read.a1.readID = m ++ "/1".toList) :
    (l ++ [read]).filter (pairNamed n)
      = l.filter (pairNamed n) ++ (if m = n then [read] else []) := by
  rw [List.filter_append]
  by_cases hm : m = n
  · rw [if_pos hm, List.filter_cons_of_pos ((pairNamed_iff n m read h).mpr hm)]
    rfl
  · rw [if_neg hm, List.filter_cons_of_neg (fun hc => hm ((pairNamed_iff n m read h).mp hc))]
    rfl

theorem entryOf_decidedOf_snoc (seen : List BamAlignment) (al : BamAlignment)
    (hnd : ((seen ++ [al]).map alignmentKey).Nodup) :
    (∀ n, n ≠ al.Name → ∀ f, mateOf n f (seen ++ [al]) = mateOf n f seen)
    ∧ decidedOf (mateOf al.Name true seen) (mateOf al.Name false seen) = []
    ∧ ((pairFrom (mateOf al.Name true (seen ++ [al]))
          (mateOf al.Name false (seen ++ [al]))).isComplete = false →
        entryOf (mateOf al.Name true (seen ++ [al])) (mateOf al.Name false (seen ++ [al]))
          = some (pairFrom (mateOf al.Name true (seen ++ [al]))
              (mateOf al.Name false (seen ++ [al])))
        ∧ decidedOf (mateOf al.Name true (seen ++ [al]))
            (mateOf al.Name false (seen ++ [al])) = [])
    ∧ ((pairFrom (mateOf al.Name true (seen ++ [al]))
          (mateOf al.Name false (seen ++ [al]))).isComplete = true →
        entryOf (mateOf al.Name true (seen ++ [al])) (mateOf al.Name false (seen ++ [al]))
          = none
        ∧ decidedOf (mateOf al.Name true (seen ++ [al]))
            (mateOf al.Name false (seen ++ [al]))
          = [pairFrom (mateOf al.Name true (seen ++ [al]))
              (mateOf al.Name false (seen ++ [al]))]
        ∧ (pairFrom (mateOf al.Name true (seen ++ [al]))
            (mateOf al.Name false (seen ++ [al]))).a1.readID = al.Name ++ "/1".toList)
    ∧ ¬ ((mateOf al.Name true seen).isSome = true ∧ (mateOf al.Name false seen).isSome = true) := by
  have hown := mateOf_own_none seen al hnd
  have hown' := mateOf_snoc_own seen al hnd
  refine ⟨?_, ?_, ?_, ?_, ?_⟩
  · intro n hn f
    exact mateOf_snoc_other n f seen al (fun h => hn h.1.symm)
  · unfold decidedOf
    cases hf : al.IsFirstMate <;> rw [hf] at hown <;> rw [hown] <;> simp
  · cases hf : al.IsFirstMate <;> rw [hf] at hown' <;> rw [hown'] <;>
      simp only [isComplete_pairFrom, entryOf, decidedOf] <;>
      cases mateOf al.Name _ (seen ++ [al]) <;> simp
  · intro hc
    cases hf : al.IsFirstMate with
    | true =>
      rw [hf] at hown'
      rw [hown'] at hc ⊢
      cases ho : mateOf al.Name false (seen ++ [al]) with
      | none => rw [ho] at hc; simp [isComplete_pairFrom] at hc
      | some b =>
        refine ⟨by simp [entryOf], by simp [decidedOf], ?_⟩
        exact readID_pairFrom_first al _ _ rfl hf
    | false =>
      rw [hf] at hown'
      rw [hown'] at hc ⊢
      cases ho : mateOf al.Name true (seen ++ [al]) with
      | none => rw [ho] at hc; simp [isComplete_pairFrom] at hc
      | some b =>
        refine ⟨by simp [entryOf], by simp [decidedOf], ?_⟩
        have hb := mateOf_spec _ _ _ _ ho
        exact readID_pairFrom_first b _ _ hb.2.1 hb.2.2
  · rintro ⟨h1, h2⟩
    cases hf : al.IsFirstMate <;> rw [hf] at hown
    · rw [hown] at h2; cases h2
    · rw [hown] at h1; cases h1

theorem completionHandling_thread_reads (decide : fastq_readPair → Bool) (st : RegionState)
    (name : Str) (thisPair : fastq_readPair) :
    (completionHandling decide st name thisPair).thread_reads
      = map_erase st.thread_reads name := by
  unfold completionHandling print_threaded_reads
  simp only []
  split_ifs <;> rfl

theorem completionHandling_decided (decide : fastq_readPair → Bool) (st : RegionState)
    (name : Str) (thisPair : fastq_readPair) :
    (completionHandling decide st name thisPair).decided = st.decided ++ [thisPair] := by
  unfold completionHandling print_threaded_reads
  simp only []
  split_ifs <;> rfl

theorem completionHandling_rejected (decide : fastq_readPair → Bool) (st : RegionState)
    (name : Str) (thisPair : fastq_readPair) (hd : decide thisPair = false) :
    (completionHandling decide st name thisPair).thread_reads_forPrint
        = st.thread_reads_forPrint
    ∧ (completionHandling decide st name thisPair).flushes = st.flushes := by
  unfold completionHandling
  simp [hd]

theorem completionHandling_buffered (decide : fastq_readPair → Bool) (st : RegionState)
    (name : Str) (thisPair : fastq_readPair) (hd : decide thisPair = true)
    (hs : ¬ (map_assign st.thread_reads_forPrint name thisPair).length > print_at_once) :
    (completionHandling decide st name thisPair).thread_reads_forPrint
        = map_assign st.thread_reads_forPrint name thisPair
    ∧ (completionHandling decide st name thisPair).flushes = st.flushes := by
  unfold completionHandling
  simp [hd, hs]

theorem completionHandling_flushed (decide : fastq_readPair → Bool) (st : RegionState)
    (name : Str) (thisPair : fastq_readPair) (hd : decide thisPair = true)
    (hs : (map_assign st.thread_reads_forPrint name thisPair).length > print_at_once) :
    (completionHandling decide st name thisPair).thread_reads_forPrint = []
    ∧ (completionHandling decide st name thisPair).flushes
        = st.flushes ++ [(map_assign st.thread_reads_forPrint name thisPair).map Prod.snd] := by
  unfold completionHandling print_threaded_reads
  simp [hd, hs]

theorem RegionInv_step (decide : fastq_readPair → Bool) (st : RegionState)
    (seen : List BamAlignment) (al : BamAlignment) (hinv : RegionInv decide seen st)
    (hp : al.IsPaired = true) (hnd : ((seen ++ [al]).map alignmentKey).Nodup) :
    ∃ st', processAlignment decide st al = some st'
      ∧ RegionInv decide (seen ++ [al]) st' := by
  rw [processAlignment_eq decide st seen al hp hnd (hinv.entries al.Name)]
  refine ⟨_, rfl, ?_⟩
  obtain ⟨hother, hdec0, hhalf, hfull, hnotboth⟩ := entryOf_decidedOf_snoc seen al hnd
  generalize hP : pairFrom (mateOf al.Name true (seen ++ [al]))
    (mateOf al.Name false (seen ++ [al])) = P at hhalf hfull ⊢
  have hmono : ∀ n, n ∈ st.thread_reads_forPrint.map Prod.fst →
      (mateOf n true (seen ++ [al])).isSome = true
        ∧ (mateOf n false (seen ++ [al])).isSome = true := fun n hn =>
    ⟨mateOf_isSome_append _ _ _ _ (hinv.buffered n hn).1,
      mateOf_isSome_append _ _ _ _ (hinv.buffered n hn).2⟩
  have hfresh : al.Name ∉ st.thread_reads_forPrint.map Prod.fst := fun hmem =>
    hnotboth (hinv.buffered _ hmem)
  cases hc : P.isComplete with
  | false =>
    obtain ⟨hentry, hdec⟩ := hhalf hc
    simp only [Bool.false_eq_true, if_false]
    refine
      { entries := ?_, decided := ?_, named := hinv.named, written := hinv.written,
        buffered := hmono,
        sortedReads := keys_sorted_assign _ _ _ hinv.sortedReads,
        sortedBuffer := hinv.sortedBuffer, bufferNames := hinv.bufferNames,
        bufferSize := hinv.bufferSize, flushShape := hinv.flushShape }
    · intro n
      show map_at (map_assign st.thread_reads al.Name P) n = _
      rw [map_at_assign]
      by_cases hn : al.Name = n
      · subst hn
        rw [if_pos rfl, hentry]
      · rw [if_neg hn, hinv.entries n, hother n (fun h => hn h.symm) true,
          hother n (fun h => hn h.symm) false]
    · intro n
      show st.decided.filter (pairNamed n) = _
      rw [hinv.decided n]
      by_cases hn : al.Name = n
      · subst hn
        rw [hdec0, hdec]
      · rw [hother n (fun h => hn h.symm) true, hother n (fun h => hn h.symm) false]
  | true =>
    obtain ⟨hentry, hdec, hname⟩ := hfull hc
    simp only [if_true]
    have hentries : ∀ n, map_at (map_erase (map_assign st.thread_reads al.Name P) al.Name) n
        = entryOf (mateOf n true (seen ++ [al])) (mateOf n false (seen ++ [al])) := by
      intro n
      rw [map_at_erase]
      by_cases hn : al.Name = n
      · subst hn
        rw [if_pos rfl, hentry]
      · rw [if_neg hn, map_at_assign, if_neg hn, hinv.entries n,
          hother n (fun h => hn h.symm) true, hother n (fun h => hn h.symm) false]
    have hdecided : ∀ n, (st.decided ++ [P]).filter (pairNamed n)
        = decidedOf (mateOf n true (seen ++ [al])) (mateOf n false (seen ++ [al])) := by
      intro n
      rw [filter_pairNamed_snoc n al.Name _ _ hname, hinv.decided n]
      by_cases hn : al.Name = n
      · subst hn
        rw [if_pos rfl, hdec0, hdec]
        rfl
      · rw [if_neg hn, hother n (fun h => hn h.symm) true,
          hother n (fun h => hn h.symm) false, List.append_nil]
    have hnamedP : ∀ p ∈ st.decided ++ [P], ∃ n : Str, p.a1.readID = n ++ "/1".toList := by
      intro p hp
      rcases List.mem_append.mp hp with hp | hp
      · exact hinv.named p hp
      · rw [List.mem_singleton] at hp
        subst hp
        exact ⟨al.Name, hname⟩
    have hsortedReads : ((map_erase (map_assign st.thread_reads al.Name P) al.Name).map
        Prod.fst).Sorted (· < ·) :=
      keys_sorted_erase _ _ (keys_sorted_assign _ _ _ hinv.sortedReads)
    cases hd : decide P with
    | false =>
      obtain ⟨e1, e2⟩ := completionHandling_rejected decide
        { st with thread_reads := map_assign st.thread_reads al.Name P } al.Name P hd
      refine
        { entries := ?_, decided := ?_, named := ?_, written := ?_, buffered := ?_,
          sortedReads := ?_, sortedBuffer := ?_, bufferNames := ?_,
          bufferSize := ?_, flushShape := ?_ }
      · rw [completionHandling_thread_reads]; exact hentries
      · rw [completionHandling_decided]; exact hdecided
      · rw [completionHandling_decided]; exact hnamedP
      · rw [completionHandling_decided, e1, e2, List.filter_append,
          List.filter_cons_of_neg (by simp [hd])]
        simpa using hinv.written
      · rw [e1]; exact hmono
      · rw [completionHandling_thread_reads]; exact hsortedReads
      · rw [e1]; exact hinv.sortedBuffer
      · rw [e1]; exact hinv.bufferNames
      · rw [e1]; exact hinv.bufferSize
      · rw [e2]; exact hinv.flushShape
    | true =>
      have hperm := map_assign_perm_of_fresh st.thread_reads_forPrint al.Name P hfresh
      have hlen : (map_assign st.thread_reads_forPrint al.Name P).length
          = st.thread_reads_forPrint.length + 1 := by
        rw [hperm.length_eq]; rfl
      have hbuf : ∀ n, n ∈ (map_assign st.thread_reads_forPrint al.Name P).map Prod.fst →
          (mateOf n true (seen ++ [al])).isSome = true
            ∧ (mateOf n false (seen ++ [al])).isSome = true := by
        intro n hn
        rcases (mem_keys_assign _ _ _ _).mp hn with rfl | hn
        · rw [← hP, isComplete_pairFrom, Bool.and_eq_true] at hc
          exact hc
        · exact hmono n hn
      have hnames : ∀ e ∈ map_assign st.thread_reads_forPrint al.Name P,
          e.2.a1.readID = e.1 ++ "/1".toList := by
        intro e he
        rcases List.mem_cons.mp (hperm.mem_iff.mp he) with rfl | he
        · exact hname
        · exact hinv.bufferNames e he
      have hwritten : (st.flushes.flatten
          ++ (map_assign st.thread_reads_forPrint al.Name P).map Prod.snd).Perm
          ((st.decided ++ [P]).filter decide) := by
        rw [List.filter_append, List.filter_cons_of_pos (by simp [hd]), List.filter_nil]
        have h1 : ((map_assign st.thread_reads_forPrint al.Name P).map Prod.snd).Perm
            (P :: st.thread_reads_forPrint.map Prod.snd) := hperm.map Prod.snd
        have h2 : (st.flushes.flatten
            ++ (map_assign st.thread_reads_forPrint al.Name P).map Prod.snd).Perm
            (st.flushes.flatten ++ (P :: st.thread_reads_forPrint.map Prod.snd)) :=
          List.Perm.append_left _ h1
        refine h2.trans ?_
        refine List.perm_middle.trans ?_
        exact (List.perm_append_singleton P _).symm.trans (hinv.written.append_right [P])
      by_cases hs : (map_assign st.thread_reads_forPrint al.Name P).length > print_at_once
      · obtain ⟨e1, e2⟩ := completionHandling_flushed decide
          { st with thread_reads := map_assign st.thread_reads al.Name P } al.Name P hd hs
        refine
          { entries := ?_, decided := ?_, named := ?_, written := ?_, buffered := ?_,
            sortedReads := ?_, sortedBuffer := ?_, bufferNames := ?_,
            bufferSize := ?_, flushShape := ?_ }
        · rw [completionHandling_thread_reads]; exact hentries
        · rw [completionHandling_decided]; exact hdecided
        · rw [completionHandling_decided]; exact hnamedP
        · rw [completionHandling_decided, e1, e2]
          simpa using hwritten
        · rw [e1]; intro n hn; cases hn
        · rw [completionHandling_thread_reads]; exact hsortedReads
        · rw [e1]; exact List.sorted_nil
        · rw [e1]; intro e he; cases he
        · rw [e1]; exact Nat.zero_le _
        · rw [e2]
          intro f hf
          rcases List.mem_append.mp hf with hf | hf
          · exact hinv.flushShape f hf
          · rw [List.mem_singleton] at hf
            subst hf
            refine ⟨?_, (map_assign st.thread_reads_forPrint al.Name P).map Prod.fst,
              keys_sorted_assign _ _ _ hinv.sortedBuffer, ?_⟩
            · rw [List.length_map]
              show (map_assign st.thread_reads_forPrint al.Name P).length = print_at_once + 1
              have := hinv.bufferSize
              omega
            · rw [List.map_map, List.map_map]
              apply List.map_congr_left
              intro e he
              exact hnames e he
      · obtain ⟨e1, e2⟩ := completionHandling_buffered decide
          { st with thread_reads := map_assign st.thread_reads al.Name P } al.Name P hd hs
        refine
          { entries := ?_, decided := ?_, named := ?_, written := ?_, buffered := ?_,
            sortedReads := ?_, sortedBuffer := ?_, bufferNames := ?_,
            bufferSize := ?_, flushShape := ?_ }
        · rw [completionHandling_thread_reads]; exact hentries
        · rw [completionHandling_decided]; exact hdecided
        · rw [completionHandling_decided]; exact hnamedP
        · rw [completionHandling_decided, e1, e2]
          exact hwritten
        · rw [e1]; exact hbuf
        · rw [completionHandling_thread_reads]; exact hsortedReads
        · rw [e1]; exact keys_sorted_assign _ _ _ hinv.sortedBuffer
        · rw [e1]; exact hnames
        · rw [e1]; exact Nat.le_of_not_lt hs
        · rw [e2]; exact hinv.flushShape

theorem RegionInv_initial (decide : fastq_readPair → Bool) :
    RegionInv decide []
      { thread_reads := [], thread_reads_forPrint := [], decided := [], flushes := [] } :=
  { entries := fun _ => rfl, decided := fun _ => rfl, named := fun p hp => (by cases hp),
    written := List.Perm.refl _,
    buffered := fun n hn => (by cases hn), sortedReads := List.sorted_nil,
    sortedBuffer := List.sorted_nil, bufferNames := fun e he => (by cases he),
    bufferSize := Nat.zero_le _, flushShape := fun f hf => (by cases hf) }

theorem processAlignments_inv (decide : fastq_readPair → Bool) (als : List BamAlignment) :
    ∀ (seen : List BamAlignment) (st : RegionState), RegionInv decide seen st →
      (∀ al ∈ als, al.IsPaired = true) → ((seen ++ als).map alignmentKey).Nodup →
      ∃ st', processAlignments decide st als = some st'
        ∧ RegionInv decide (seen ++ als) st' := by
  induction als with
  | nil =>
    intro seen st hinv _ _
    exact ⟨st, rfl, by rw [List.append_nil]; exact hinv⟩
  | cons al rest ih =>
    intro seen st hinv hp hnd
    have hnd1 : ((seen ++ [al]).map alignmentKey).Nodup := by
      have e : seen ++ al :: rest = (seen ++ [al]) ++ rest := by simp
      rw [e, List.map_append] at hnd
      exact (List.nodup_append.mp hnd).1
    obtain ⟨st1, hst1, hinv1⟩ :=
      RegionInv_step decide st seen al hinv (hp al (List.mem_cons_self _ _)) hnd1
    have hnd2 : (((seen ++ [al]) ++ rest).map alignmentKey).Nodup := by
      have e : seen ++ al :: rest = (seen ++ [al]) ++ rest := by simp
      rw [← e]; exact hnd
    obtain ⟨st2, hst2, hinv2⟩ := ih (seen ++ [al]) st1 hinv1
      (fun x hx => hp x (List.mem_cons_of_mem _ hx)) hnd2
    refine ⟨st2, ?_, ?_⟩
    · simp only [processAlignments, hst1, hst2]
    · have e : seen ++ al :: rest = (seen ++ [al]) ++ rest := by simp
      rw [e]; exact hinv2

theorem processRegion_spec (decide : fastq_readPair → Bool) (region : List BamAlignment)
    (hp : ∀ al ∈ region, al.IsPaired = true) (hnd : (region.map alignmentKey).Nodup) :
    ∃ st, processRegion decide region = some st
      ∧ (∀ n, map_at st.thread_reads n
          = entryOf (mateOf n true region) (mateOf n false region))
      ∧ (∀ n, st.decided.filter (pairNamed n)
          = decidedOf (mateOf n true region) (mateOf n false region))
      ∧ (∀ p ∈ st.decided, ∃ n : Str, p.a1.readID = n ++ "/1".toList)
      ∧ st.flushes.flatten.Perm (st.decided.filter decide)
      ∧ (st.thread_reads.map Prod.fst).Sorted (· < ·)
      ∧ (∀ f ∈ st.flushes, ∃ names : List Str, names.Sorted (· < ·)
          ∧ f.map (fun p => p.a1.readID) = names.map (fun n => n ++ "/1".toList))
      ∧ (∀ f ∈ st.flushes.dropLast, f.length = print_at_once + 1)
      ∧ (∀ f, st.flushes.getLast? = some f → f.length ≤ print_at_once) := by
  obtain ⟨st, hst, hinv⟩ := processAlignments_inv decide region [] _
    (RegionInv_initial decide) hp (by simpa using hnd)
  rw [List.nil_append] at hinv
  refine ⟨print_threaded_reads st, ?_, hinv.entries, hinv.decided, hinv.named, ?_,
    hinv.sortedReads, ?_, ?_, ?_⟩
  · unfold processRegion
    rw [hst]
  · show (st.flushes ++ [st.thread_reads_forPrint.map Prod.snd]).flatten.Perm _
    rw [List.flatten_append]
    simpa using hinv.written
  · intro f hf
    change f ∈ st.flushes ++ [st.thread_reads_forPrint.map Prod.snd] at hf
    rcases List.mem_append.mp hf with hf | hf
    · exact (hinv.flushShape f hf).2
    · rw [List.mem_singleton] at hf
      subst hf
      refine ⟨st.thread_reads_forPrint.map Prod.fst, hinv.sortedBuffer, ?_⟩
      rw [List.map_map, List.map_map]
      apply List.map_congr_left
      intro e he
      exact hinv.bufferNames e he
  · intro f hf
    change f ∈ (st.flushes ++ [st.thread_reads_forPrint.map Prod.snd]).dropLast at hf
    rw [List.dropLast_concat] at hf
    exact (hinv.flushShape f hf).1
  · intro f hf
    change (st.flushes ++ [st.thread_reads_forPrint.map Prod.snd]).getLast? = some f at hf
    rw [List.getLast?_concat] at hf
    cases hf
    rw [List.length_map]
    exact hinv.bufferSize

/-! ## Aligned-container mode, one region: claim C18 -/

/-- C18, as stated, fails: in a region where both mates of b are seen before both mates of
a and both pairs are kept, the pair a is written before the pair b, although b was
completed first. -/
theorem C18_written_in_name_order_not_completion_order :
    (processRegion (fun _ => true) regionBA).map
        (fun st => st.decided.map (fun p => p.a1.readID))
      = some ["b/1".toList, "a/1".toList]
    ∧ (processRegion (fun _ => true) regionBA).map
        (fun st => st.flushes.flatten.map (fun p => p.a1.readID))
      = some ["a/1".toList, "b/1".toList] := by
  constructor <;> decide

/-- C18, amended: within a single region (every alignment paired, every read name and mate
index at most once) the worker ends normally and writes the kept pairs in flushes of its
print buffer: every flush but the last holds `print_at_once + 1` pairs, the last one, at the
end of the region, at most `print_at_once`; within a flush the pairs are written in
ascending order of read name; taken together the flushes write every kept pair exactly
once. -/
theorem C18_flushes_in_read_name_order (decide : fastq_readPair → Bool)
    (region : List BamAlignment)
    (hp : ∀ al ∈ region, al.IsPaired = true) (hnd : (region.map alignmentKey).Nodup) :
    ∃ st, processRegion decide region = some st
      ∧ st.flushes.flatten.Perm (st.decided.filter (fun read => decide read))
      ∧ (∀ f ∈ st.flushes, ∃ names : List Str, names.Sorted (· < ·)
          ∧ f.map (fun p => p.a1.readID) = names.map (fun n => n ++ "/1".toList))
      ∧ (∀ f ∈ st.flushes.dropLast, f.length = print_at_once + 1)
      ∧ (∀ f, st.flushes.getLast? = some f → f.length ≤ print_at_once) := by
  obtain ⟨st, h1, _, _, _, h4, _, h6, h7, h8⟩ := processRegion_spec decide region hp hnd
  exact ⟨st, h1, h4, h6, h7, h8⟩

/-- Witness for C18 (amended): the region with the alignments b/1, b/2, a/1, a/2. -/
theorem C18_flushes_in_read_name_order_witness :
    (∀ al ∈ regionBA, al.IsPaired = true) ∧ (regionBA.map alignmentKey).Nodup
    ∧ ∃ st, processRegion (fun _ => true) regionBA = some st
      ∧ st.flushes.flatten.Perm (st.decided.filter (fun read => (fun _ => true) read))
      ∧ (∀ f ∈ st.flushes, ∃ names : List Str, names.Sorted (· < ·)
          ∧ f.map (fun p => p.a1.readID) = names.map (fun n => n ++ "/1".toList))
      ∧ (∀ f ∈ st.flushes.dropLast, f.length = print_at_once + 1)
      ∧ (∀ f, st.flushes.getLast? = some f → f.length ≤ print_at_once) :=
  ⟨by decide, by decide,
    C18_flushes_in_read_name_order (fun _ => true) regionBA (by decide) (by decide)⟩

/-! ## Aligned-container mode, all regions: claims C19 and C20 -/

theorem take_another_pairFrom (s1 s2 r1 r2 : Option BamAlignment)
    (hd1 : s1 = none ∨ r1 = none) (hd2 : s2 = none ∨ r2 = none) :
    (pairFrom s1 s2).take_another_readPair (pairFrom r1 r2)
      = (true, pairFrom (s1.or r1) (s2.or r2)) := by
  cases s1 <;> cases s2 <;> cases r1 <;> cases r2 <;>
    simp_all [fastq_readPair.take_another_readPair, fastq_readPair.takeAlignment, pairFrom]

theorem merge_facts (s1 s2 r1 r2 : Option BamAlignment)
    (hd1 : s1 = none ∨ r1 = none) (hd2 : s2 = none ∨ r2 = none)
    (hr : r1.isSome ≠ r2.isSome) :
    decidedOf s1 s2 = []
    ∧ (pairFrom r1 r2).isComplete = false
    ∧ (entryOf s1 s2 = none → s1.or r1 = r1 ∧ s2.or r2 = r2)
    ∧ (entryOf s1 s2 ≠ none → entryOf s1 s2 = some (pairFrom s1 s2)
        ∧ (pairFrom (s1.or r1) (s2.or r2)).isComplete = true)
    ∧ ((pairFrom (s1.or r1) (s2.or r2)).isComplete = false →
        entryOf (s1.or r1) (s2.or r2) = some (pairFrom (s1.or r1) (s2.or r2))
        ∧ decidedOf (s1.or r1) (s2.or r2) = []
        ∧ entryOf s1 s2 = none)
    ∧ ((pairFrom (s1.or r1) (s2.or r2)).isComplete = true →
        entryOf (s1.or r1) (s2.or r2) = none
        ∧ decidedOf (s1.or r1) (s2.or r2) = [pairFrom (s1.or r1) (s2.or r2)]
        ∧ entryOf s1 s2 ≠ none) := by
  cases s1 <;> cases s2 <;> cases r1 <;> cases r2 <;>
    simp_all [entryOf, decidedOf, isComplete_pairFrom]

theorem drainEntry_eq (decide : fastq_readPair → Bool) (g : BamState) (n : Str)
    (s1 s2 r1 r2 : Option BamAlignment)
    (hd1 : s1 = none ∨ r1 = none) (hd2 : s2 = none ∨ r2 = none)
    (hr : r1.isSome ≠ r2.isSome)
    (hG : map_at g.global_reads n = entryOf s1 s2) :
    drainEntry decide g (n, pairFrom r1 r2)
      = some
          (if (pairFrom (s1.or r1) (s2.or r2)).isComplete then
            globalCompletion decide
              { g with
                global_reads := map_assign g.global_reads n (pairFrom (s1.or r1) (s2.or r2)) }
              n (pairFrom (s1.or r1) (s2.or r2))
          else
            { g with
              global_reads := map_assign g.global_reads n (pairFrom (s1.or r1) (s2.or r2)) }) := by
  obtain ⟨_, hinc, hnone, hsome, hhalf, hfull⟩ := merge_facts s1 s2 r1 r2 hd1 hd2 hr
  unfold drainEntry
  simp only [hinc, Bool.false_eq_true, if_false]
  by_cases he : entryOf s1 s2 = none
  · have hc : map_count g.global_reads n = 0 := by
      rw [map_count_eq_zero_iff, hG, he]
    obtain ⟨e1, e2⟩ := hnone he
    rw [if_pos hc, e1, e2, hinc]
    simp
  · obtain ⟨hsm, hcomp⟩ := hsome he
    have hc : map_count g.global_reads n ≠ 0 := by
      rw [Ne, map_count_eq_zero_iff, hG]
      exact he
    rw [if_neg hc, hG, hsm]
    simp only [take_another_pairFrom s1 s2 r1 r2 hd1 hd2, Bool.true_eq_false, if_false,
      hcomp, if_true]

theorem globalCompletion_fields (decide : fastq_readPair → Bool) (g : BamState) (n : Str)
    (P : fastq_readPair) :
    (globalCompletion decide g n P).global_reads = map_erase g.global_reads n
    ∧ (globalCompletion decide g n P).decided = g.decided ++ [P]
    ∧ (globalCompletion decide g n P).printed
        = g.printed ++ (if decide P then [P] else []) := by
  unfold globalCompletion
  cases hd : decide P <;> simp [hd]

theorem mateOf_disjoint (n : Str) (f : Bool) (l1 l2 : List BamAlignment)
    (hnd : ((l1 ++ l2).map alignmentKey).Nodup) :
    mateOf n f l1 = none ∨ mateOf n f l2 = none := by
  by_cases h1 : (n, f) ∈ l1.map alignmentKey
  · right
    apply mateOf_eq_none_of_key_not_mem
    rw [List.map_append, List.nodup_append] at hnd
    exact fun h2 => hnd.2.2 h1 h2
  · left
    exact mateOf_eq_none_of_key_not_mem n f l1 h1

theorem entryOf_some_iff (o1 o2 : Option BamAlignment) (p : fastq_readPair)
    (h : entryOf o1 o2 = some p) : o1.isSome ≠ o2.isSome ∧ p = pairFrom o1 o2 := by
  unfold entryOf at h
  by_cases c : o1.isSome = o2.isSome
  · rw [if_pos c] at h; cases h
  · rw [if_neg c] at h; cases h; exact ⟨c, rfl⟩

theorem drain_inv (decide : fastq_readPair → Bool) (seen region : List BamAlignment)
    (hnd : ((seen ++ region).map alignmentKey).Nodup) :
    ∀ (rest : ReadMap) (g : BamState),
      (rest.map Prod.fst).Nodup →
      (∀ e ∈ rest, entryOf (mateOf e.1 true region) (mateOf e.1 false region) = some e.2) →
      (∀ n, map_at g.global_reads n =
          if n ∈ rest.map Prod.fst then entryOf (mateOf n true seen) (mateOf n false seen)
          else entryOf (mateOf n true (seen ++ region)) (mateOf n false (seen ++ region))) →
      (∀ n, g.decided.filter (pairNamed n) =
          if n ∈ rest.map Prod.fst then decidedOf (mateOf n true seen) (mateOf n false seen)
          else decidedOf (mateOf n true (seen ++ region))
            (mateOf n false (seen ++ region))) →
      (∀ p ∈ g.decided, ∃ n : Str, p.a1.readID = n ++ "/1".toList) →
      g.printed.Perm (g.decided.filter decide) →
      (g.global_reads.map Prod.fst).Sorted (· < ·) →
      ∃ g', drain decide g rest = some g' ∧ GlobalInv decide (seen ++ region) g' := by
  intro rest
  induction rest with
  | nil =>
    intro g _ _ hE hD hN hW hS
    refine ⟨g, rfl, ?_⟩
    exact
      { entries := fun n => by simpa using hE n, decided := fun n => by simpa using hD n,
        named := hN, written := hW, sorted := hS }
  | cons e rest ih =>
    intro g hkeys hentry hE hD hN hW hS
    obtain ⟨n, h⟩ := e
    simp only [List.map_cons, List.nodup_cons] at hkeys
    obtain ⟨hn_notin, hkeys'⟩ := hkeys
    obtain ⟨hr, hh⟩ := entryOf_some_iff _ _ _ (hentry (n, h) (List.mem_cons_self _ _))
    simp only [] at hr hh
    have hd1 := mateOf_disjoint n true seen region hnd
    have hd2 := mateOf_disjoint n false seen region hnd
    have hnmem : n ∈ ((n, h) :: rest).map Prod.fst := List.mem_cons_self _ _
    have hG : map_at g.global_reads n
        = entryOf (mateOf n true seen) (mateOf n false seen) := by
      rw [hE n, if_pos hnmem]
    have hDn : g.decided.filter (pairNamed n)
        = decidedOf (mateOf n true seen) (mateOf n false seen) := by
      rw [hD n, if_pos hnmem]
    have hstep := drainEntry_eq decide g n _ _ _ _ hd1 hd2 hr hG
    obtain ⟨hdec0, _, _, _, hhalf, hfull⟩ := merge_facts _ _ _ _ hd1 hd2 hr
    rw [← mateOf_append, ← mateOf_append] at hstep hhalf hfull
    rw [← hh] at hstep
    have hmem : ∀ m, m ≠ n → (m ∈ ((n, h) :: rest).map Prod.fst ↔ m ∈ rest.map Prod.fst) := by
      intro m hm
      simp only [List.map_cons, List.mem_cons]
      constructor
      · rintro (h1 | h1)
        · exact absurd h1 hm
        · exact h1
      · intro h1; exact Or.inr h1
    have hEother : ∀ m, m ≠ n → map_at g.global_reads m =
        if m ∈ rest.map Prod.fst then entryOf (mateOf m true seen) (mateOf m false seen)
        else entryOf (mateOf m true (seen ++ region)) (mateOf m false (seen ++ region)) := by
      intro m hm
      rw [hE m]
      by_cases c : m ∈ rest.map Prod.fst
      · rw [if_pos ((hmem m hm).mpr c), if_pos c]
      · rw [if_neg (fun h1 => c ((hmem m hm).mp h1)), if_neg c]
    have hDother : ∀ m, m ≠ n → g.decided.filter (pairNamed m) =
        if m ∈ rest.map Prod.fst then decidedOf (mateOf m true seen) (mateOf m false seen)
        else decidedOf (mateOf m true (seen ++ region))
          (mateOf m false (seen ++ region)) := by
      intro m hm
      rw [hD m]
      by_cases c : m ∈ rest.map Prod.fst
      · rw [if_pos ((hmem m hm).mpr c), if_pos c]
      · rw [if_neg (fun h1 => c ((hmem m hm).mp h1)), if_neg c]
    generalize hP : pairFrom (mateOf n true (seen ++ region))
      (mateOf n false (seen ++ region)) = P at hstep hhalf hfull
    have hentry' : ∀ e ∈ rest,
        entryOf (mateOf e.1 true region) (mateOf e.1 false region) = some e.2 :=
      fun e he => hentry e (List.mem_cons_of_mem _ he)
    cases hc : P.isComplete with
    | false =>
      obtain ⟨hent, hdecT, _⟩ := hhalf hc
      rw [hc] at hstep
      simp only [Bool.false_eq_true, if_false] at hstep
      obtain ⟨g', hg', hinv'⟩ := ih
        { g with global_reads := map_assign g.global_reads n P } hkeys' hentry'
        (by
          intro m
          show map_at (map_assign g.global_reads n P) m = _
          rw [map_at_assign]
          by_cases hm : n = m
          · subst hm
            rw [if_pos rfl, if_neg hn_notin, hent]
          · rw [if_neg hm]
            exact hEother m (fun h1 => hm h1.symm))
        (by
          intro m
          show g.decided.filter (pairNamed m) = _
          by_cases hm : n = m
          · subst hm
            rw [hDn, hdec0, if_neg hn_notin, hdecT]
          · exact hDother m (fun h1 => hm h1.symm))
        hN hW (keys_sorted_assign _ _ _ hS)
      refine ⟨g', ?_, hinv'⟩
      simp only [drain, hstep, hg']
    | true =>
      obtain ⟨hent, hdecT, _⟩ := hfull hc
      rw [hc] at hstep
      simp only [if_true] at hstep
      obtain ⟨f1, f2, f3⟩ := globalCompletion_fields decide
        { g with global_reads := map_assign g.global_reads n P } n P
      have hname : P.a1.readID = n ++ "/1".toList := by
        rw [← hP] at hc ⊢
        rw [isComplete_pairFrom, Bool.and_eq_true] at hc
        cases hx : mateOf n true (seen ++ region) with
        | none => rw [hx] at hc; cases hc.1
        | some x =>
          have hsx := mateOf_spec _ _ _ _ hx
          exact readID_pairFrom_first x _ _ hsx.2.1 hsx.2.2
      obtain ⟨g', hg', hinv'⟩ := ih
        (globalCompletion decide { g with global_reads := map_assign g.global_reads n P } n P)
        hkeys' hentry'
        (by
          intro m
          rw [f1]
          show map_at (map_erase (map_assign g.global_reads n P) n) m = _
          rw [map_at_erase]
          by_cases hm : n = m
          · subst hm
            rw [if_pos rfl, if_neg hn_notin, hent]
          · rw [if_neg hm, map_at_assign, if_neg hm]
            exact hEother m (fun h1 => hm h1.symm))
        (by
          intro m
          rw [f2]
          show (g.decided ++ [P]).filter (pairNamed m) = _
          rw [filter_pairNamed_snoc m n _ _ hname]
          by_cases hm : n = m
          · subst hm
            rw [if_pos rfl, hDn, hdec0, if_neg hn_notin, hdecT]
            rfl
          · rw [if_neg hm, List.append_nil]
            exact hDother m (fun h1 => hm h1.symm))
        (by
          rw [f2]
          intro p hp
          rcases List.mem_append.mp hp with hp | hp
          · exact hN p hp
          · rw [List.mem_singleton] at hp
            subst hp
            exact ⟨n, hname⟩)
        (by
          rw [f2, f3]
          show (g.printed ++ _).Perm ((g.decided ++ [P]).filter decide)
          rw [List.filter_append]
          apply List.Perm.append hW
          cases hd : decide P
          · simp [hd]
          · simp [hd])
        (by
          rw [f1]
          exact keys_sorted_erase _ _ (keys_sorted_assign _ _ _ hS))
      refine ⟨g', ?_, hinv'⟩
      simp only [drain, hstep, hg']

theorem region_start_facts (s1 s2 r1 r2 : Option BamAlignment)
    (hd1 : s1 = none ∨ r1 = none) (hd2 : s2 = none ∨ r2 = none) :
    (entryOf r1 r2 = none → entryOf s1 s2 = entryOf (s1.or r1) (s2.or r2))
    ∧ (entryOf r1 r2 = none →
        decidedOf s1 s2 ++ decidedOf r1 r2 = decidedOf (s1.or r1) (s2.or r2))
    ∧ (entryOf r1 r2 ≠ none → decidedOf s1 s2 ++ decidedOf r1 r2 = decidedOf s1 s2) := by
  cases s1 <;> cases s2 <;> cases r1 <;> cases r2 <;>
    simp_all [entryOf, decidedOf]

theorem filterBAM_region_inv (decide : fastq_readPair → Bool)
    (seen region : List BamAlignment) (g : BamState)
    (hinv : GlobalInv decide seen g)
    (hp : ∀ al ∈ region, al.IsPaired = true)
    (hnd : ((seen ++ region).map alignmentKey).Nodup) :
    ∃ g', filterBAM_region decide g region = some g'
      ∧ GlobalInv decide (seen ++ region) g' := by
  have hndr : (region.map alignmentKey).Nodup := by
    rw [List.map_append] at hnd
    exact (List.nodup_append.mp hnd).2.1
  obtain ⟨st, hst, hent, hdec, hnamed, hwr, hsorted, _⟩ :=
    processRegion_spec decide region hp hndr
  have hfacts := fun n => region_start_facts _ _ _ _
    (mateOf_disjoint n true seen region hnd) (mateOf_disjoint n false seen region hnd)
  obtain ⟨g', hg', hinv'⟩ := drain_inv decide seen region hnd st.thread_reads
    { g with decided := g.decided ++ st.decided, printed := g.printed ++ st.flushes.flatten }
    (keys_nodup_of_sorted _ hsorted)
    (by
      intro e he
      rw [← hent e.1]
      exact map_at_of_mem _ (keys_nodup_of_sorted _ hsorted) e.1 e.2 he)
    (by
      intro n
      show map_at g.global_reads n = _
      rw [hinv.entries n]
      by_cases c : n ∈ st.thread_reads.map Prod.fst
      · rw [if_pos c]
      · rw [if_neg c, mateOf_append, mateOf_append]
        apply (hfacts n).1
        rw [← hent n]
        exact (map_at_eq_none_iff _ _).mpr c)
    (by
      intro n
      show (g.decided ++ st.decided).filter (pairNamed n) = _
      rw [List.filter_append, hinv.decided n, hdec n]
      by_cases c : n ∈ st.thread_reads.map Prod.fst
      · rw [if_pos c]
        apply (hfacts n).2.2
        rw [← hent n]
        intro h0
        exact (map_at_eq_none_iff _ _).mp h0 c
      · rw [if_neg c, mateOf_append, mateOf_append]
        apply (hfacts n).2.1
        rw [← hent n]
        exact (map_at_eq_none_iff _ _).mpr c)
    (by
      intro p hpm
      change p ∈ g.decided ++ st.decided at hpm
      rcases List.mem_append.mp hpm with h1 | h1
      · exact hinv.named p h1
      · exact hnamed p h1)
    (by
      show (g.printed ++ st.flushes.flatten).Perm ((g.decided ++ st.decided).filter decide)
      rw [List.filter_append]
      exact List.Perm.append hinv.written hwr)
    hinv.sorted
  refine ⟨g', ?_, hinv'⟩
  unfold filterBAM_region
  rw [hst]
  exact hg'

theorem filterBAM_regions_inv (decide : fastq_readPair → Bool) :
    ∀ (regions : List (List BamAlignment)) (seen : List BamAlignment) (g : BamState),
      GlobalInv decide seen g →
      (∀ al ∈ regions.flatten, al.IsPaired = true) →
      ((seen ++ regions.flatten).map alignmentKey).Nodup →
      ∃ g', filterBAM_regions decide g regions = some g'
        ∧ GlobalInv decide (seen ++ regions.flatten) g' := by
  intro regions
  induction regions with
  | nil =>
    intro seen g hinv _ _
    refine ⟨g, rfl, ?_⟩
    simpa using hinv
  | cons region rest ih =>
    intro seen g hinv hp hnd
    rw [List.flatten_cons] at hp hnd
    rw [← List.append_assoc] at hnd
    have hnd1 : ((seen ++ region).map alignmentKey).Nodup := by
      rw [List.map_append] at hnd
      exact (List.nodup_append.mp hnd).1
    obtain ⟨g1, hg1, hinv1⟩ := filterBAM_region_inv decide seen region g hinv
      (fun al h => hp al (List.mem_append_left _ h)) hnd1
    obtain ⟨g2, hg2, hinv2⟩ := ih (seen ++ region) g1 hinv1
      (fun al h => hp al (List.mem_append_right _ h)) hnd
    refine ⟨g2, ?_, ?_⟩
    · simp only [filterBAM_regions, hg1, hg2]
    · rw [List.flatten_cons, ← List.append_assoc]
      exact hinv2

theorem GlobalInv_initial (decide : fastq_readPair → Bool) :
    GlobalInv decide [] { global_reads := [], decided := [], printed := [] } :=
  { entries := fun _ => rfl, decided := fun _ => rfl,
    named := fun _ h => (by cases h), written := List.Perm.nil,
    sorted := List.sorted_nil }

theorem filterBAM_spec (decide : fastq_readPair → Bool) (regions : List (List BamAlignment))
    (hp : ∀ al ∈ regions.flatten, al.IsPaired = true)
    (hnd : (regions.flatten.map alignmentKey).Nodup) :
    ∃ run, filterBAM decide regions = some run
      ∧ GlobalInv decide regions.flatten run.state
      ∧ run.danglingWarning
          = if run.state.global_reads.length > 0 then some run.state.global_reads.length
            else none := by
  obtain ⟨g, hg, hinv⟩ := filterBAM_regions_inv decide regions [] _
    (GlobalInv_initial decide) hp (by simpa using hnd)
  rw [List.nil_append] at hinv
  refine ⟨{ state := g,
            danglingWarning :=
              if g.global_reads.length > 0 then some g.global_reads.length else none },
    ?_, hinv, rfl⟩
  unfold filterBAM
  rw [hg]

theorem mateOf_of_mem (l : List BamAlignment) (hnd : (l.map alignmentKey).Nodup)
    (al : BamAlignment) (h : al ∈ l) : mateOf al.Name al.IsFirstMate l = some al := by
  cases hm : mateOf al.Name al.IsFirstMate l with
  | none =>
    exfalso
    unfold mateOf at hm
    rw [List.find?_eq_none] at hm
    exact hm al h (by simp)
  | some x =>
    obtain ⟨hx, h1, h2⟩ := mateOf_spec _ _ _ _ hm
    have hk : alignmentKey x = alignmentKey al := by
      unfold alignmentKey
      rw [h1, h2]
    rw [List.inj_on_of_nodup_map hnd hx h hk]

theorem decided_origin (decide : fastq_readPair → Bool) (l : List BamAlignment)
    (g : BamState) (hinv : GlobalInv decide l g) (p : fastq_readPair) (hp : p ∈ g.decided) :
    ∃ al1 ∈ l, ∃ al2 ∈ l, al1.Name = al2.Name ∧ al1.IsFirstMate = true
      ∧ al2.IsFirstMate = false ∧ p = pairFrom (some al1) (some al2) := by
  obtain ⟨n, hn⟩ := hinv.named p hp
  have hmem : p ∈ g.decided.filter (pairNamed n) :=
    List.mem_filter.mpr ⟨hp, (pairNamed_iff n n p hn).mpr rfl⟩
  rw [hinv.decided n] at hmem
  cases h1 : mateOf n true l with
  | none => rw [h1] at hmem; simp [decidedOf] at hmem
  | some x =>
    cases h2 : mateOf n false l with
    | none => rw [h1, h2] at hmem; simp [decidedOf] at hmem
    | some y =>
      rw [h1, h2] at hmem
      simp only [decidedOf, Option.isSome_some, and_self, if_true, List.mem_singleton] at hmem
      obtain ⟨hx, hxn, hxf⟩ := mateOf_spec _ _ _ _ h1
      obtain ⟨hy, hyn, hyf⟩ := mateOf_spec _ _ _ _ h2
      exact ⟨x, hx, y, hy, hxn.trans hyn.symm, hxf, hyf, hmem⟩

/-- C19: in aligned-container mode, when every alignment is paired and every read name and
mate index occurs at most once, then for every order in which the critical sections of the
regions are executed the run ends normally; a read name with both mates present is passed
to the decision predicate exactly once, as the complete pair of its two mates, and is
afterwards absent from the global table, and from the table of its worker when both mates
lie in one region; every call of the decision predicate is for such a read name, so a read
name with one mate is never passed; and the written pairs are exactly the accepted calls,
each once. -/
theorem C19_each_complete_pair_decided_exactly_once (decide : fastq_readPair → Bool)
    (regions order : List (List BamAlignment))
    (hp : ∀ al ∈ regions.flatten, al.IsPaired = true)
    (hnd : (regions.flatten.map alignmentKey).Nodup)
    (hord : order.Perm regions) :
    ∃ run, filterBAM decide order = some run
      ∧ (∀ al1 ∈ regions.flatten, ∀ al2 ∈ regions.flatten,
          al1.Name = al2.Name → al1.IsFirstMate = true → al2.IsFirstMate = false →
          run.state.decided.filter (pairNamed al1.Name) = [pairFrom (some al1) (some al2)]
          ∧ (pairFrom (some al1) (some al2)).isComplete = true
          ∧ map_count run.state.global_reads al1.Name = 0
          ∧ ∀ region ∈ order, al1 ∈ region → al2 ∈ region →
              ∃ st, processRegion decide region = some st
                ∧ st.decided.filter (pairNamed al1.Name) = [pairFrom (some al1) (some al2)]
                ∧ map_count st.thread_reads al1.Name = 0)
      ∧ (∀ p ∈ run.state.decided, ∃ al1 ∈ regions.flatten, ∃ al2 ∈ regions.flatten,
          al1.Name = al2.Name ∧ al1.IsFirstMate = true ∧ al2.IsFirstMate = false
          ∧ p = pairFrom (some al1) (some al2))
      ∧ (∀ n, (∀ al ∈ regions.flatten, al.Name = n → al.IsFirstMate = true)
            ∨ (∀ al ∈ regions.flatten, al.Name = n → al.IsFirstMate = false) →
          run.state.decided.filter (pairNamed n) = [])
      ∧ run.state.printed.Perm (run.state.decided.filter (fun read => decide read)) := by
  have hperm : order.flatten.Perm regions.flatten := List.Perm.flatten hord
  have hp' : ∀ al ∈ order.flatten, al.IsPaired = true :=
    fun al h => hp al (hperm.mem_iff.mp h)
  have hnd' : (order.flatten.map alignmentKey).Nodup :=
    (hperm.map alignmentKey).nodup_iff.mpr hnd
  obtain ⟨run, hrun, hinv, _⟩ := filterBAM_spec decide order hp' hnd'
  refine ⟨run, hrun, ?_, ?_, ?_, hinv.written⟩
  · intro al1 h1 al2 h2 hname hf1 hf2
    have m1 := mateOf_of_mem _ hnd' al1 (hperm.mem_iff.mpr h1)
    have m2 := mateOf_of_mem _ hnd' al2 (hperm.mem_iff.mpr h2)
    rw [hf1] at m1
    rw [hf2, ← hname] at m2
    refine ⟨?_, rfl, ?_, ?_⟩
    · rw [hinv.decided al1.Name, m1, m2]
      rfl
    · rw [map_count_eq_zero_iff, hinv.entries al1.Name, m1, m2]
      rfl
    · intro region hregion hr1 hr2
      have hsub : region.Sublist order.flatten := List.sublist_flatten_of_mem hregion
      have hndr : (region.map alignmentKey).Nodup :=
        List.Nodup.sublist (hsub.map alignmentKey) hnd'
      obtain ⟨st, hst, hent, hdec, _⟩ := processRegion_spec decide region
        (fun al h => hp' al (hsub.subset h)) hndr
      have r1 := mateOf_of_mem _ hndr al1 hr1
      have r2 := mateOf_of_mem _ hndr al2 hr2
      rw [hf1] at r1
      rw [hf2, ← hname] at r2
      refine ⟨st, hst, ?_, ?_⟩
      · rw [hdec al1.Name, r1, r2]
        rfl
      · rw [map_count_eq_zero_iff, hent al1.Name, r1, r2]
        rfl
  · intro p hpm
    obtain ⟨al1, h1, al2, h2, rest⟩ := decided_origin decide _ _ hinv p hpm
    exact ⟨al1, hperm.mem_iff.mp h1, al2, hperm.mem_iff.mp h2, rest⟩
  · intro n hn
    rw [hinv.decided n]
    rcases hn with hn | hn
    · cases h2 : mateOf n false order.flatten with
      | none => simp [decidedOf]
      | some y =>
        obtain ⟨hy, hyn, hyf⟩ := mateOf_spec _ _ _ _ h2
        rw [hn y (hperm.mem_iff.mp hy) hyn] at hyf
        cases hyf
    · cases h1 : mateOf n true order.flatten with
      | none => simp [decidedOf]
      | some x =>
        obtain ⟨hx, hxn, hxf⟩ := mateOf_spec _ _ _ _ h1
        rw [hn x (hperm.mem_iff.mp hx) hxn] at hxf
        cases hxf

/-- Witness for C19: the two regions of `regionsSplit`, processed in reverse order, with a
decision predicate that accepts every pair. -/
theorem C19_each_complete_pair_decided_exactly_once_witness :
    (∀ al ∈ regionsSplit.flatten, al.IsPaired = true)
    ∧ (regionsSplit.flatten.map alignmentKey).Nodup
    ∧ regionsSplit.reverse.Perm regionsSplit
    ∧ ∃ run, filterBAM (fun _ => true) regionsSplit.reverse = some run
      ∧ (∀ al1 ∈ regionsSplit.flatten, ∀ al2 ∈ regionsSplit.flatten,
          al1.Name = al2.Name → al1.IsFirstMate = true → al2.IsFirstMate = false →
          run.state.decided.filter (pairNamed al1.Name) = [pairFrom (some al1) (some al2)]
          ∧ (pairFrom (some al1) (some al2)).isComplete = true
          ∧ map_count run.state.global_reads al1.Name = 0
          ∧ ∀ region ∈ regionsSplit.reverse, al1 ∈ region → al2 ∈ region →
              ∃ st, processRegion (fun _ => true) region = some st
                ∧ st.decided.filter (pairNamed al1.Name) = [pairFrom (some al1) (some al2)]
                ∧ map_count st.thread_reads al1.Name = 0)
      ∧ (∀ p ∈ run.state.decided, ∃ al1 ∈ regionsSplit.flatten,
          ∃ al2 ∈ regionsSplit.flatten,
          al1.Name = al2.Name ∧ al1.IsFirstMate = true ∧ al2.IsFirstMate = false
          ∧ p = pairFrom (some al1) (some al2))
      ∧ (∀ n, (∀ al ∈ regionsSplit.flatten, al.Name = n → al.IsFirstMate = true)
            ∨ (∀ al ∈ regionsSplit.flatten, al.Name = n → al.IsFirstMate = false) →
          run.state.decided.filter (pairNamed n) = [])
      ∧ run.state.printed.Perm
          (run.state.decided.filter (fun read => (fun _ => true) read)) :=
  ⟨by decide, by decide, List.reverse_perm _,
    C19_each_complete_pair_decided_exactly_once (fun _ => true) regionsSplit
      regionsSplit.reverse (by decide) (by decide) (List.reverse_perm _)⟩

theorem filter_key_length (n : Str) (f : Bool) (l : List BamAlignment)
    (hnd : (l.map alignmentKey).Nodup) :
    (l.filter (fun al => decide (al.Name = n) && (al.IsFirstMate == f))).length
      = if (mateOf n f l).isSome then 1 else 0 := by
  induction l with
  | nil => rfl
  | cons a l ih =>
    rw [List.map_cons, List.nodup_cons] at hnd
    by_cases c : a.Name = n ∧ a.IsFirstMate = f
    · have hpa : (decide (a.Name = n) && (a.IsFirstMate == f)) = true := by simp [c.1, c.2]
      have hnone : mateOf n f l = none := by
        apply mateOf_eq_none_of_key_not_mem
        have hk : alignmentKey a = (n, f) := by unfold alignmentKey; rw [c.1, c.2]
        rw [← hk]
        exact hnd.1
      have hm : mateOf n f (a :: l) = some a := by
        unfold mateOf
        exact List.find?_cons_of_pos _ hpa
      simp only [List.filter_cons, hpa, if_true, List.length_cons, ih hnd.2, hnone, hm]
      rfl
    · have hpa : ¬ (decide (a.Name = n) && (a.IsFirstMate == f)) = true := by
        simpa using c
      have hm : mateOf n f (a :: l) = mateOf n f l := by
        unfold mateOf
        exact List.find?_cons_of_neg _ hpa
      have hpf : (decide (a.Name = n) && (a.IsFirstMate == f)) = false := by
        simpa using hpa
      simp only [List.filter_cons, hpf, Bool.false_eq_true, if_false, ih hnd.2, hm]

theorem filter_name_length (n : Str) (l : List BamAlignment) :
    (l.filter (fun al => decide (al.Name = n))).length
      = (l.filter (fun al => decide (al.Name = n) && (al.IsFirstMate == true))).length
        + (l.filter (fun al => decide (al.Name = n) && (al.IsFirstMate == false))).length := by
  induction l with
  | nil => rfl
  | cons a l ih =>
    by_cases c : a.Name = n
    · cases hf : a.IsFirstMate
      · simp only [List.filter_cons, c, hf, decide_True, Bool.true_and, if_true,
          List.length_cons, beq_self_eq_true]
        simp only [c] at ih
        simp at ih ⊢
        omega
      · simp only [List.filter_cons, c, hf, decide_True, Bool.true_and, if_true,
          List.length_cons, beq_self_eq_true]
        simp only [c] at ih
        simp at ih ⊢
        omega
    · simp only [List.filter_cons, c, decide_False, Bool.false_and, if_false]
      exact ih

theorem mem_danglingNames_iff (l : List BamAlignment) (hnd : (l.map alignmentKey).Nodup)
    (n : Str) :
    n ∈ danglingNames l ↔ (mateOf n true l).isSome ≠ (mateOf n false l).isSome := by
  unfold danglingNames
  rw [List.mem_filter, List.mem_dedup, decide_eq_true_eq, filter_name_length,
    filter_key_length n true l hnd, filter_key_length n false l hnd]
  constructor
  · rintro ⟨_, hlen⟩
    cases h1 : mateOf n true l <;> cases h2 : mateOf n false l <;>
      simp [h1, h2] at hlen ⊢
  · intro hne
    cases h1 : mateOf n true l with
    | none =>
      cases h2 : mateOf n false l with
      | none => rw [h1, h2] at hne; exact absurd rfl hne
      | some y =>
        obtain ⟨hy, hyn, _⟩ := mateOf_spec _ _ _ _ h2
        exact ⟨List.mem_map.mpr ⟨y, hy, hyn⟩, by simp⟩
    | some x =>
      obtain ⟨hx, hxn, _⟩ := mateOf_spec _ _ _ _ h1
      cases h2 : mateOf n false l with
      | none => exact ⟨List.mem_map.mpr ⟨x, hx, hxn⟩, by simp⟩
      | some y => rw [h1, h2] at hne; exact absurd rfl hne

theorem danglingNames_nodup (l : List BamAlignment) : (danglingNames l).Nodup :=
  List.Nodup.filter _ (List.nodup_dedup _)

theorem global_reads_length (decide : fastq_readPair → Bool) (l : List BamAlignment)
    (hnd : (l.map alignmentKey).Nodup) (g : BamState) (hinv : GlobalInv decide l g) :
    g.global_reads.length = (danglingNames l).length := by
  rw [← List.length_map g.global_reads Prod.fst]
  apply List.Perm.length_eq
  rw [List.perm_ext_iff_of_nodup (keys_nodup_of_sorted _ hinv.sorted) (danglingNames_nodup l)]
  intro n
  rw [mem_danglingNames_iff l hnd n, ← map_at_isSome_iff, hinv.entries n]
  unfold entryOf
  by_cases c : (mateOf n true l).isSome = (mateOf n false l).isSome
  · rw [if_pos c]
    simp [c]
  · rw [if_neg c]
    simp [c]

/-- C20: in aligned-container mode, when every alignment is paired and every read name and
mate index occurs at most once, the run ends normally; every entry left in the global table
is a half pair (exactly one slot filled, not complete); the size of the table equals the
number of read names with exactly one alignment in the whole input; and the dangling-reads
warning is written, with that number, exactly when the number is positive. -/
theorem C20_dangling_count_is_number_of_single_mates (decide : fastq_readPair → Bool)
    (regions : List (List BamAlignment))
    (hp : ∀ al ∈ regions.flatten, al.IsPaired = true)
    (hnd : (regions.flatten.map alignmentKey).Nodup) :
    ∃ run, filterBAM decide regions = some run
      ∧ (∀ e ∈ run.state.global_reads, e.2.have1 ≠ e.2.have2 ∧ e.2.isComplete = false)
      ∧ run.state.global_reads.length = (danglingNames regions.flatten).length
      ∧ run.danglingWarning
          = (if (danglingNames regions.flatten).length > 0
              then some (danglingNames regions.flatten).length else none)
      ∧ (run.danglingWarning.isSome = true ↔ 0 < (danglingNames regions.flatten).length) := by
  obtain ⟨run, hrun, hinv, hwarn⟩ := filterBAM_spec decide regions hp hnd
  have hlen := global_reads_length decide _ hnd run.state hinv
  refine ⟨run, hrun, ?_, hlen, ?_, ?_⟩
  · intro e he
    have hat := map_at_of_mem _ (keys_nodup_of_sorted _ hinv.sorted) e.1 e.2 he
    rw [hinv.entries e.1] at hat
    obtain ⟨hne, heq⟩ := entryOf_some_iff _ _ _ hat
    rw [heq]
    refine ⟨hne, ?_⟩
    rw [isComplete_pairFrom]
    cases h1 : (mateOf e.1 true regions.flatten).isSome <;>
      cases h2 : (mateOf e.1 false regions.flatten).isSome <;> simp_all
  · rw [hwarn, hlen]
  · rw [hwarn, hlen]
    by_cases c : (danglingNames regions.flatten).length > 0
    · rw [if_pos c]
      simp [c]
    · rw [if_neg c]
      simp [c]

/-- Witness for C20: the two regions of `regionsSplit`, where c and d are dangling. -/
theorem C20_dangling_count_is_number_of_single_mates_witness :
    (∀ al ∈ regionsSplit.flatten, al.IsPaired = true)
    ∧ (regionsSplit.flatten.map alignmentKey).Nodup
    ∧ (danglingNames regionsSplit.flatten).length = 2
    ∧ ∃ run, filterBAM (fun _ => true) regionsSplit = some run
      ∧ (∀ e ∈ run.state.global_reads, e.2.have1 ≠ e.2.have2 ∧ e.2.isComplete = false)
      ∧ run.state.global_reads.length = (danglingNames regionsSplit.flatten).length
      ∧ run.danglingWarning
          = (if (danglingNames regionsSplit.flatten).length > 0
              then some (danglingNames regionsSplit.flatten).length else none)
      ∧ (run.danglingWarning.isSome = true
          ↔ 0 < (danglingNames regionsSplit.flatten).length) :=
  ⟨by decide, by decide, by decide,
    C20_dangling_count_is_number_of_single_mates (fun _ => true) regionsSplit
      (by decide) (by decide)⟩

/-! ## Text-paired mode: files with different numbers of records, claim C21 -/

theorem filterFastQPairs_loop_step (decide : fastq_readPair → Bool)
    (p : FastQRecord × FastQRecord) (s1 s2 : List Str)
    (hp : wellFormedRecordPair p.1 p.2) (fuel : Nat) (trace : List Event) :
    filterFastQPairs_loop decide (fuel + 1) (recordLines p.1 ++ s1) (recordLines p.2 ++ s2)
        trace
      = filterFastQPairs_loop decide fuel s1 s2
          (trace ++ pairEvents decide (ingestPair p.1 p.2)) := by
  obtain ⟨⟨hid1, hseq1, hq1, hlen1, hsuf1⟩, ⟨hid2, hseq2, hq2, hlen2, hsuf2⟩, hpre⟩ := hp
  have n1 : recordLines p.1 ++ s1 ≠ [] := by simp [recordLines]
  have n2 : recordLines p.2 ++ s2 ≠ [] := by simp [recordLines]
  have l1 : p.1.readID.length ≠ 0 := endsInMateSuffix_length _ hsuf1
  have l2 : p.2.readID.length ≠ 0 := endsInMateSuffix_length _ hsuf2
  conv_lhs => unfold filterFastQPairs_loop
  rw [if_neg n1, if_neg n2, getReadFromFastQ_record p.1 _ hid1 hseq1 hq1 hlen1,
    getReadFromFastQ_record p.2 _ hid2 hseq2 hq2 hlen2]
  simp only []
  rw [if_neg (not_not.mpr (Or.inl ⟨l1, l2⟩)), if_neg (fun h => l1 h.1),
    filterFastQPairs_body_eq, if_pos ⟨hsuf1, hsuf2⟩, if_neg (not_not.mpr hpre)]

theorem filterFastQPairs_loop_common_records (decide : fastq_readPair → Bool)
    (records : List (FastQRecord × FastQRecord)) (t1 t2 : List Str)
    (hwf : ∀ p ∈ records, wellFormedRecordPair p.1 p.2) :
    ∀ (fuel : Nat) (trace : List Event), records.length ≤ fuel →
      filterFastQPairs_loop decide fuel (fileLines (records.map Prod.fst) ++ t1)
          (fileLines (records.map Prod.snd) ++ t2) trace
        = filterFastQPairs_loop decide (fuel - records.length) t1 t2
            (trace ++ records.flatMap (fun p => pairEvents decide (ingestPair p.1 p.2))) := by
  induction records with
  | nil =>
    intro fuel trace _
    simp [fileLines]
  | cons p rest ih =>
    intro fuel trace hfuel
    obtain ⟨f, rfl⟩ : ∃ f, fuel = f + 1 := ⟨fuel - 1, by simp at hfuel; omega⟩
    have e1 : fileLines ((p :: rest).map Prod.fst) ++ t1
        = recordLines p.1 ++ (fileLines (rest.map Prod.fst) ++ t1) := by
      simp [fileLines]
    have e2 : fileLines ((p :: rest).map Prod.snd) ++ t2
        = recordLines p.2 ++ (fileLines (rest.map Prod.snd) ++ t2) := by
      simp [fileLines]
    have hf : f + 1 - (p :: rest).length = f - rest.length := by
      simp only [List.length_cons]
      omega
    rw [e1, e2, hf, filterFastQPairs_loop_step decide p _ _ (hwf p (List.mem_cons_self _ _)),
      ih (fun q hq => hwf q (List.mem_cons_of_mem _ hq)) f _ (by simp at hfuel; omega),
      List.flatMap_cons, List.append_assoc]

theorem fileLines_length (records : List FastQRecord) :
    (fileLines records).length = 4 * records.length := by
  induction records with
  | nil => rfl
  | cons r rest ih =>
    simp only [fileLines, List.flatMap_cons, List.length_append, List.length_cons] at ih ⊢
    rw [ih]
    simp [recordLines]
    omega

theorem pairEvents_no_warning (decide : fastq_readPair → Bool)
    (l : List (FastQRecord × FastQRecord)) :
    ∀ e ∈ l.flatMap (fun p => pairEvents decide (ingestPair p.1 p.2)),
      ∀ msg, e ≠ Event.warning msg := by
  intro e he msg hmsg
  subst hmsg
  rw [List.mem_flatMap] at he
  obtain ⟨p, _, hp⟩ := he
  unfold pairEvents at hp
  split_ifs at hp <;> simp at hp

theorem loop_surplus_in_first (decide : fastq_readPair → Bool) (r : FastQRecord)
    (rest t : List Str) (hr : wellFormedRecord r) (ht : t = [] ∨ t = [[]])
    (fuel : Nat) (trace : List Event) :
    filterFastQPairs_loop decide (fuel + 1) (recordLines r ++ rest) t trace
      = FastQRun.aborted trace := by
  obtain ⟨hid, hseq, hq, hlen, hsuf⟩ := hr
  have n1 : recordLines r ++ rest ≠ [] := by simp [recordLines]
  have l1 : r.readID.length ≠ 0 := endsInMateSuffix_length _ hsuf
  unfold filterFastQPairs_loop
  rcases ht with rfl | rfl
  · rw [if_neg n1, if_pos rfl]
  · have hshort : getReadFromFastQ [[]]
        = some ({ readID := [], sequence := [], qualities := [] }, []) :=
      getReadFromFastQ_short [[]] (by simp) (by simp)
    rw [if_neg n1, if_neg (by simp), getReadFromFastQ_record r _ hid hseq hq hlen, hshort]
    simp only []
    rw [if_pos]
    intro h
    rcases h with h | h
    · exact h.2 rfl
    · exact l1 h.1

theorem loop_surplus_in_second (decide : fastq_readPair → Bool) (r : FastQRecord)
    (rest : List Str) (hr : wellFormedRecord r) (fuel : Nat) (trace : List Event) :
    filterFastQPairs_loop decide (fuel + 1) [[]] (recordLines r ++ rest) trace
      = FastQRun.aborted trace := by
  obtain ⟨hid, hseq, hq, hlen, hsuf⟩ := hr
  have n2 : recordLines r ++ rest ≠ [] := by simp [recordLines]
  have l2 : r.readID.length ≠ 0 := endsInMateSuffix_length _ hsuf
  have hshort : getReadFromFastQ [[]]
      = some ({ readID := [], sequence := [], qualities := [] }, []) :=
    getReadFromFastQ_short [[]] (by simp) (by simp)
  unfold filterFastQPairs_loop
  rw [if_neg (by simp), if_neg n2, hshort, getReadFromFastQ_record r _ hid hseq hq hlen]
  simp only []
  rw [if_pos]
  intro h
  rcases h with h | h
  · exact h.1 rfl
  · exact l2 h.2

/-- C21, as stated, fails: with two records in the first file and one record in the second
file (both files newline-terminated) the run processes the first record pair and then ends
by a failed assertion; no warning is among its actions. -/
theorem C21_longer_first_file_aborts_without_warning :
    filterFastQPairs (fun _ => true)
        (streamOfLines (fileLines [mkRecord "@a/1".toList, mkRecord "@b/1".toList]))
        (streamOfLines (fileLines [mkRecord "@a/2".toList]))
      = FastQRun.aborted
          [Event.decideCall (ingestPair (mkRecord "@a/1".toList) (mkRecord "@a/2".toList)),
           Event.printCall (ingestPair (mkRecord "@a/1".toList) (mkRecord "@a/2".toList))] := by
  decide

/-- C21, amended: when the two files agree on their first records (well-formed pairs) and
one of them holds at least one further well-formed record, `filterFastQPairs` processes
exactly the common record pairs and writes no warning. If the surplus is in the first file,
the run then aborts at an assertion (line 498 when the second stream is exhausted, line 506
when the second file ends with a newline); if the surplus is in the second file and the
first file ends with a newline, the run aborts at the assertion of line 506; if the surplus
is in the second file and the first stream is exhausted right after its last record, the
loop ends normally and the surplus is ignored. -/
theorem C21_unequal_record_counts (decide : fastq_readPair → Bool)
    (records : List (FastQRecord × FastQRecord)) (r : FastQRecord) (rest t : List Str)
    (hwf : ∀ p ∈ records, wellFormedRecordPair p.1 p.2) (hr : wellFormedRecord r)
    (ht : t = [] ∨ t = [[]]) :
    filterFastQPairs decide (fileLines (records.map Prod.fst) ++ (recordLines r ++ rest))
        (fileLines (records.map Prod.snd) ++ t)
      = FastQRun.aborted
          (records.flatMap (fun p => pairEvents decide (ingestPair p.1 p.2)))
    ∧ filterFastQPairs decide (fileLines (records.map Prod.fst) ++ [[]])
        (fileLines (records.map Prod.snd) ++ (recordLines r ++ rest))
      = FastQRun.aborted
          (records.flatMap (fun p => pairEvents decide (ingestPair p.1 p.2)))
    ∧ filterFastQPairs decide (fileLines (records.map Prod.fst) ++ [])
        (fileLines (records.map Prod.snd) ++ (recordLines r ++ rest))
      = FastQRun.finished
          (records.flatMap (fun p => pairEvents decide (ingestPair p.1 p.2)))
    ∧ (∀ e ∈ records.flatMap (fun p => pairEvents decide (ingestPair p.1 p.2)),
        ∀ msg, e ≠ Event.warning msg) := by
  have hlen := fileLines_length (records.map Prod.fst)
  rw [List.length_map] at hlen
  refine ⟨?_, ?_, ?_, pairEvents_no_warning decide records⟩
  · unfold filterFastQPairs
    rw [filterFastQPairs_loop_common_records decide records _ _ hwf _ _
      (by rw [List.length_append, hlen]; omega)]
    have hfuel : ∃ f, (fileLines (records.map Prod.fst) ++ (recordLines r ++ rest)).length + 1
        - records.length = f + 1 :=
      ⟨(fileLines (records.map Prod.fst) ++ (recordLines r ++ rest)).length - records.length,
        by rw [List.length_append, hlen]; omega⟩
    obtain ⟨f, hf⟩ := hfuel
    rw [hf, loop_surplus_in_first decide r rest t hr ht, List.nil_append]
  · unfold filterFastQPairs
    rw [filterFastQPairs_loop_common_records decide records _ _ hwf _ _
      (by rw [List.length_append, hlen]; omega)]
    have hfuel : ∃ f, (fileLines (records.map Prod.fst) ++ [[]]).length + 1
        - records.length = f + 1 :=
      ⟨(fileLines (records.map Prod.fst) ++ [[]]).length - records.length,
        by rw [List.length_append, hlen]; omega⟩
    obtain ⟨f, hf⟩ := hfuel
    rw [hf, loop_surplus_in_second decide r rest hr, List.nil_append]
  · unfold filterFastQPairs
    rw [filterFastQPairs_loop_wellFormed decide records [] _ hwf (Or.inl rfl) _ _
      (by rw [List.length_append, hlen]; omega), List.nil_append]

/-- Witness for C21 (amended): one common record pair, and the surplus record @b/1. -/
theorem C21_unequal_record_counts_witness :
    (∀ p ∈ [(mkRecord "@a/1".toList, mkRecord "@a/2".toList)], wellFormedRecordPair p.1 p.2)
    ∧ wellFormedRecord (mkRecord "@b/1".toList)
    ∧ filterFastQPairs (fun _ => true)
        (fileLines ([(mkRecord "@a/1".toList, mkRecord "@a/2".toList)].map Prod.fst)
          ++ (recordLines (mkRecord "@b/1".toList) ++ [[]]))
        (fileLines ([(mkRecord "@a/1".toList, mkRecord "@a/2".toList)].map Prod.snd) ++ [[]])
      = FastQRun.aborted
          ([(mkRecord "@a/1".toList, mkRecord "@a/2".toList)].flatMap
            (fun p => pairEvents (fun _ => true) (ingestPair p.1 p.2)))
    ∧ filterFastQPairs (fun _ => true)
        (fileLines ([(mkRecord "@a/1".toList, mkRecord "@a/2".toList)].map Prod.fst) ++ [[]])
        (fileLines ([(mkRecord "@a/1".toList, mkRecord "@a/2".toList)].map Prod.snd)
          ++ (recordLines (mkRecord "@b/1".toList) ++ [[]]))
      = FastQRun.aborted
          ([(mkRecord "@a/1".toList, mkRecord "@a/2".toList)].flatMap
            (fun p => pairEvents (fun _ => true) (ingestPair p.1 p.2)))
    ∧ filterFastQPairs (fun _ => true)
        (fileLines ([(mkRecord "@a/1".toList, mkRecord "@a/2".toList)].map Prod.fst) ++ [])
        (fileLines ([(mkRecord "@a/1".toList, mkRecord "@a/2".toList)].map Prod.snd)
          ++ (recordLines (mkRecord "@b/1".toList) ++ [[]]))
      = FastQRun.finished
          ([(mkRecord "@a/1".toList, mkRecord "@a/2".toList)].flatMap
            (fun p => pairEvents (fun _ => true) (ingestPair p.1 p.2)))
    ∧ (∀ e ∈ [(mkRecord "@a/1".toList, mkRecord "@a/2".toList)].flatMap
          (fun p => pairEvents (fun _ => true) (ingestPair p.1 p.2)),
        ∀ msg, e ≠ Event.warning msg) :=
  ⟨by decide, by decide,
    C21_unequal_record_counts (fun _ => true)
      [(mkRecord "@a/1".toList, mkRecord "@a/2".toList)] (mkRecord "@b/1".toList) [[]] [[]]
      (by decide) (by decide) (Or.inr rfl)⟩

/-! ## Configurations without a filter: claim C22 -/

/-- C22: `doFilter` throws the error of line 47 for every configuration in which neither a
positive nor a negative filter is given, whatever the input settings are (the check comes
before the input-mode checks); so whenever the validation passes, at least one of
`apply_filter_positive` and `apply_filter_negative` is true, and the decision function is
not run with both tests switched off, in which case it would keep every pair. -/
theorem C22_no_filter_is_rejected_first (F : readFilter) :
    ((F.positiveFilter.length = 0 ∧ F.negativeFilter.length = 0) →
        doFilter_validate F
          = Except.error "Please specify either positive filter or negative filter.".toList)
    ∧ (doFilter_validate F = Except.ok () →
        apply_filter_positive F = true ∨ apply_filter_negative F = true)
    ∧ (∀ (P U : List Str) (negative : Str → Bool) (read : fastq_readPair),
        apply_filter_positive F = false → apply_filter_negative F = false →
        decisionFunction F P U negative read = true) := by
  refine ⟨?_, ?_, ?_⟩
  · rintro ⟨h1, h2⟩
    unfold doFilter_validate
    rw [if_pos]
    rintro (h | h)
    · exact h h1
    · exact h h2
  · intro hok
    by_cases hf : F.positiveFilter.length ≠ 0 ∨ F.negativeFilter.length ≠ 0
    · rcases hf with h | h
      · left
        unfold apply_filter_positive
        exact decide_eq_true (Nat.pos_of_ne_zero h)
      · right
        unfold apply_filter_negative
        exact decide_eq_true (Nat.pos_of_ne_zero h)
    · exfalso
      unfold doFilter_validate at hok
      rw [if_pos hf] at hok
      cases hok
  · intro P U negative read hp hn
    rw [decisionFunction_iff]
    exact ⟨Or.inl hp, Or.inl hn⟩

/-! ## Header lines in text-paired mode: claim C23 -/

theorem outputFiles_append (a b : List Event) :
    outputFiles (a ++ b)
      = ((outputFiles a).1 ++ (outputFiles b).1, (outputFiles a).2 ++ (outputFiles b).2) := by
  induction a with
  | nil => rfl
  | cons e rest ih =>
    cases e with
    | warning msg => exact ih
    | decideCall read => exact ih
    | printCall read =>
      show ((printFunction read).1 ++ (outputFiles (rest ++ b)).1,
          (printFunction read).2 ++ (outputFiles (rest ++ b)).2) = _
      rw [ih]
      simp [outputFiles, List.append_assoc]

theorem outputFiles_pairEvents (decide : fastq_readPair → Bool) (read : fastq_readPair) :
    outputFiles (pairEvents decide read)
      = if decide read then printFunction read else ([], []) := by
  unfold pairEvents
  cases h : decide read <;> simp [outputFiles]

theorem printFunction_ingestPair (read1 read2 : FastQRecord) :
    printFunction (ingestPair read1 read2) = (writtenMate1 read1, writtenMate2 read2) := by
  simp [printFunction, ingestPair, writtenMate1, writtenMate2]

theorem outputFiles_records (decide : fastq_readPair → Bool)
    (records : List (FastQRecord × FastQRecord)) :
    outputFiles (records.flatMap (fun p => pairEvents decide (ingestPair p.1 p.2)))
      = ((records.filter (fun p => decide (ingestPair p.1 p.2))).flatMap
            (fun p => writtenMate1 p.1),
         (records.filter (fun p => decide (ingestPair p.1 p.2))).flatMap
            (fun p => writtenMate2 p.2)) := by
  induction records with
  | nil => rfl
  | cons p rest ih =>
    rw [List.flatMap_cons, outputFiles_append, ih, outputFiles_pairEvents,
      printFunction_ingestPair]
    cases h : decide (ingestPair p.1 p.2) <;> simp [List.filter_cons, h]

/-- C23: in text-paired mode the read id returned by `getReadFromFastQ` is the whole first
line of the record (its leading `@` included), the pair built from two records carries
these ids, and `printFunction` writes `@` followed by the id. So for two well-formed files
the run ends normally and the first output file holds, for every kept pair in input order,
the header `@` followed by the full input header line of mate 1, then the input sequence
line, `+`, and the input quality line of mate 1; the second output file holds for every
kept pair the header `@` followed by the full input header line of mate 2. -/
theorem C23_written_header_is_at_plus_input_header (decide : fastq_readPair → Bool)
    (records : List (FastQRecord × FastQRecord)) (t1 t2 : List Str)
    (hwf : ∀ p ∈ records, wellFormedRecordPair p.1 p.2)
    (htail : t1 = [] ∨ (t1 = [[]] ∧ t2 = [[]])) :
    (∀ (r : FastQRecord) (rest : List Str), wellFormedRecord r →
        getReadFromFastQ (recordLines r ++ rest) = some (r, rest))
    ∧ (∀ read1 read2 : FastQRecord,
        (ingestPair read1 read2).a1.readID = read1.readID
        ∧ (ingestPair read1 read2).a2.readID = read2.readID)
    ∧ (∀ read : fastq_readPair,
        (printFunction read).1.head? = some ("@".toList ++ read.a1.readID)
        ∧ (printFunction read).2.head? = some ("@".toList ++ read.a2.readID))
    ∧ ∃ trace,
        filterFastQPairs decide (fileLines (records.map Prod.fst) ++ t1)
            (fileLines (records.map Prod.snd) ++ t2) = FastQRun.finished trace
        ∧ (outputFiles trace).1
            = (records.filter (fun p => decide (ingestPair p.1 p.2))).flatMap
                (fun p => ["@".toList ++ p.1.readID, p.1.sequence, "+".toList,
                  p.1.qualities])
        ∧ (outputFiles trace).2
            = (records.filter (fun p => decide (ingestPair p.1 p.2))).flatMap
                (fun p => ["@".toList ++ p.2.readID,
                  seq_reverse_complement (seq_reverse_complement p.2.sequence),
                  "+".toList, p.2.qualities]) := by
  refine ⟨?_, fun _ _ => ⟨rfl, rfl⟩, fun _ => ⟨rfl, rfl⟩, ?_⟩
  · intro r rest hr
    exact getReadFromFastQ_record r rest hr.1 hr.2.1 hr.2.2.1 hr.2.2.2.1
  · refine ⟨records.flatMap (fun p => pairEvents decide (ingestPair p.1 p.2)), ?_, ?_, ?_⟩
    · unfold filterFastQPairs
      rw [filterFastQPairs_loop_wellFormed decide records t1 t2 hwf htail, List.nil_append]
      have hlen := fileLines_length (records.map Prod.fst)
      rw [List.length_map] at hlen
      rw [List.length_append, hlen]
      omega
    · rw [outputFiles_records]
      rfl
    · rw [outputFiles_records]
      rfl

/-- Witness for C23: two newline-terminated files with the records @a/1, @b/1 and @a/2,
@b/2, and a predicate that keeps every pair. -/
theorem C23_written_header_is_at_plus_input_header_witness :
    (∀ p ∈ [(mkRecord "@a/1".toList, mkRecord "@a/2".toList),
            (mkRecord "@b/1".toList, mkRecord "@b/2".toList)],
        wellFormedRecordPair p.1 p.2)
    ∧ ∃ trace,
        filterFastQPairs (fun _ => true)
            (fileLines ([(mkRecord "@a/1".toList, mkRecord "@a/2".toList),
              (mkRecord "@b/1".toList, mkRecord "@b/2".toList)].map Prod.fst) ++ [[]])
            (fileLines ([(mkRecord "@a/1".toList, mkRecord "@a/2".toList),
              (mkRecord "@b/1".toList, mkRecord "@b/2".toList)].map Prod.snd) ++ [[]])
          = FastQRun.finished trace
        ∧ (outputFiles trace).1
            = ([(mkRecord "@a/1".toList, mkRecord "@a/2".toList),
                (mkRecord "@b/1".toList, mkRecord "@b/2".toList)].filter
                  (fun p => (fun _ => true) (ingestPair p.1 p.2))).flatMap
                (fun p => ["@".toList ++ p.1.readID, p.1.sequence, "+".toList,
                  p.1.qualities])
        ∧ (outputFiles trace).2
            = ([(mkRecord "@a/1".toList, mkRecord "@a/2".toList),
                (mkRecord "@b/1".toList, mkRecord "@b/2".toList)].filter
                  (fun p => (fun _ => true) (ingestPair p.1 p.2))).flatMap
                (fun p => ["@".toList ++ p.2.readID,
                  seq_reverse_complement (seq_reverse_complement p.2.sequence),
                  "+".toList, p.2.qualities]) :=
  ⟨by decide,
    (C23_written_header_is_at_plus_input_header (fun _ => true)
      [(mkRecord "@a/1".toList, mkRecord "@a/2".toList),
       (mkRecord "@b/1".toList, mkRecord "@b/2".toList)] [[]] [[]]
      (by decide) (Or.inr ⟨rfl, rfl⟩)).2.2.2⟩

/-! ## Relational properties of the decision function: claims C24 and C25 -/

/-- C24: for fixed k-mer sets, unique flags, unique thresholds and read pair, a pair that is
kept with the thresholds of the configuration is kept with every positive threshold that is
not larger and every negative threshold that is not smaller. -/
theorem C24_threshold_monotonicity (F : readFilter) (P U : List Str)
    (negative : Str → Bool) (read : fastq_readPair) (p n : ℚ)
    (hp : p ≤ F.positiveThreshold) (hn : F.negativeThreshold ≤ n)
    (hkept : decisionFunction F P U negative read = true) :
    decisionFunction (withThresholds F p n) P U negative read = true := by
  rw [decisionFunction_iff] at hkept ⊢
  obtain ⟨hpos, hneg⟩ := hkept
  refine ⟨?_, ?_⟩
  · rcases hpos with h | h
    · exact Or.inl h
    · right
      rw [positiveCheck_iff] at h
      show positiveCheck (withThresholds F p n) P U (K1 F read) (K2 F read) = true
      rw [positiveCheck_iff]
      show (computed_f P (K1 F read) (K2 F read) ≥ p
          ∨ computed_r P (K1 F read) (K2 F read) ≥ p)
        ∨ (F.positiveUnique = true
            ∧ (((spec_forwardUnique U (K1 F read) (K2 F read) : Nat) : Int)
                  ≥ F.positiveUnique_threshold
                ∨ ((spec_reverseUnique U (K1 F read) (K2 F read) : Nat) : ℚ) ≥ p))
      rcases h with (h | h) | ⟨hu, h | h⟩
      · exact Or.inl (Or.inl (le_trans hp h))
      · exact Or.inl (Or.inr (le_trans hp h))
      · exact Or.inr ⟨hu, Or.inl h⟩
      · exact Or.inr ⟨hu, Or.inr (le_trans hp h)⟩
  · rcases hneg with h | h
    · exact Or.inl h
    · right
      rw [negativeCheck_iff] at h
      show negativeCheck (withThresholds F p n) U negative (K1 F read) (K2 F read) = true
      rw [negativeCheck_iff]
      show computed_n negative (K1 F read) (K2 F read) ≤ n
        ∨ (F.negativePreserveUnique = true
            ∧ (((spec_forwardUnique U (K1 F read) (K2 F read) : Nat) : Int)
                  ≥ F.negativePreserveUnique_threshold
                ∨ ((spec_reverseUnique U (K1 F read) (K2 F read) : Nat) : Int)
                  ≥ F.negativePreserveUnique_threshold))
      rcases h with h | h
      · exact Or.inl (le_trans h hn)
      · exact Or.inr h

/-- Witness for C24: scenario S1 with the pair AAAACCCC, AAAACCCC, kept at the positive
threshold 1/2 and therefore at the thresholds 1/4 and 1. -/
theorem C24_threshold_monotonicity_witness :
    (1 / 4 : ℚ) ≤ cfgS1.positiveThreshold ∧ cfgS1.negativeThreshold ≤ (1 : ℚ)
    ∧ decisionFunction cfgS1 positiveS1 [] (fun _ => false)
        (mkPair "AAAACCCC".toList "AAAACCCC".toList) = true
    ∧ decisionFunction (withThresholds cfgS1 (1 / 4) 1) positiveS1 [] (fun _ => false)
        (mkPair "AAAACCCC".toList "AAAACCCC".toList) = true :=
  ⟨by decide!, by decide!, by decide!,
    C24_threshold_monotonicity cfgS1 positiveS1 [] (fun _ => false)
      (mkPair "AAAACCCC".toList "AAAACCCC".toList) (1 / 4) 1 (by decide!) (by decide!)
      (by decide!)⟩

theorem spec_hits_comm (p : Str → Bool) (A B : List Str) :
    spec_hits p A B = spec_hits p B A := by
  rw [spec_hits_eq, spec_hits_eq, Nat.add_comm]

theorem spec_total_comm (A B : List Str) : spec_total A B = spec_total B A := by
  unfold spec_total
  exact Nat.add_comm _ _

theorem positiveCheck_comm (F : readFilter) (P U A B : List Str) :
    positiveCheck F P U A B = positiveCheck F P U B A := by
  rw [Bool.eq_iff_iff, positiveCheck_iff, positiveCheck_iff]
  unfold computed_f computed_r spec_forwardUnique spec_reverseUnique
  rw [spec_hits_comm _ A B, spec_hits_comm _ A B, spec_hits_comm _ A B,
    spec_hits_comm _ A B, spec_total_comm A B]

theorem negativeCheck_comm (F : readFilter) (U : List Str) (g : Str → Bool)
    (A B : List Str) :
    negativeCheck F U g A B = negativeCheck F U g B A := by
  rw [Bool.eq_iff_iff, negativeCheck_iff, negativeCheck_iff]
  unfold computed_n spec_forwardUnique spec_reverseUnique
  rw [spec_hits_comm _ A B, spec_hits_comm _ A B, spec_hits_comm _ A B,
    spec_total_comm A B]

/-- C25: for every configuration, every pair of k-mer sets, every negative index and every
pair, the decision function returns the same result for the pair and for the pair with its
two mates exchanged. -/
theorem C25_mate_swap_symmetry (F : readFilter) (P U : List Str) (negative : Str → Bool)
    (read : fastq_readPair) :
    decisionFunction F P U negative (swapMates read)
      = decisionFunction F P U negative read := by
  rw [Bool.eq_iff_iff, decisionFunction_iff, decisionFunction_iff]
  have h1 : K1 F (swapMates read) = K2 F read := rfl
  have h2 : K2 F (swapMates read) = K1 F read := rfl
  rw [h1, h2, positiveCheck_comm F P U (K2 F read) (K1 F read),
    negativeCheck_comm F U negative (K2 F read) (K1 F read)]

end ReadFilter
